import Mathlib

/-!
# tbdb: Uint128, ledger codec, amount arithmetic and statement reconstruction

A shallow embedding of the algorithmic core of the `tbdb` Go package
(`wrapper_uint128.go`, `ledger_currency.go`, `account_transfer.go`) and of the requests
that `transfer.go` and `account.go` build for the ledger.

Conventions of the embedding:

* `uint8`/`uint32`/`uint64` values are natural numbers; every operation that can
  wrap in Go carries an explicit `% 2^w`.
* a Go `string` / `[]byte` is the list of its bytes (`List Nat`, each `< 256`);
* `*big.Int` is `Option Int` where `nil` is possible, `Int` otherwise;
* `float64` is `Float64`: NaN, the two infinities, or a finite dyadic value
  `(-1)^neg * m * 2^e`, with IEEE-754 round-to-nearest-even applied by
  `Float64.round64` after every arithmetic operation;
* `(T, error)` results are `Except Err T`;
* a function that can reach the ledger returns its Go result together with the list
  of the batches it has submitted to the ledger client.
-/

namespace Tbdb

/-! ## Errors (`errors.go` and the ad-hoc errors of the package) -/

/-- The error values the modelled functions can return. -/
inductive Err where
  /-- `ErrInvalidLength` -/
  | ErrInvalidLength
  /-- `ErrHexTooLong` -/
  | ErrHexTooLong
  /-- `ErrNegativeOrNilBigInt` -/
  | ErrNegativeOrNilBigInt
  /-- `ErrBigIntOverflow` -/
  | ErrBigIntOverflow
  /-- `hex.InvalidByteError(b)` of `encoding/hex` -/
  | hexInvalidByte (b : Nat)
  /-- `hex.ErrLength` of `encoding/hex` -/
  | hexErrLength
  /-- `errors.New("addition overflow")` -/
  | additionOverflow
  /-- `errors.New("multiplication overflow")` -/
  | multiplicationOverflow
  /-- `errors.New("invalid divisor")` -/
  | invalidDivisor
  /-- `fmt.Errorf("value %f too large for Uint128", val)` -/
  | valueTooLarge
  /-- `fmt.Errorf("supported decimal is 0-%d", maxDecimal)` -/
  | unsupportedDecimal
  /-- `fmt.Errorf("supported currency char length is %d-%d", ...)` -/
  | unsupportedCodeLength
  /-- `ErrUnknownCategory` -/
  | ErrUnknownCategory
  /-- `ErrClientNil` -/
  | ErrClientNil
  /-- `errors.New("at least give 1 account")` -/
  | atLeastOneAccount
  /-- `errors.New("no accounts given")` -/
  | noAccountsGiven
  /-- `errors.New("account must be not empty")` -/
  | accountEmpty
  /-- `errors.New("flags DebitsMustNotExceedCredits & CreditsMustNotExceedDebits are
  mutually exclusive")` -/
  | flagsMutuallyExclusive
  /-- `errors.New("code must be not zero")` -/
  | codeZero
  /-- `errors.New("create account event results is empty")` -/
  | emptyResults
  /-- `errors.New("no transfers given")` -/
  | noTransfersGiven
  /-- An error returned by the ledger client, identified by a number. -/
  | clientError (n : Nat)
  /-- `fmt.Errorf("account creation failed: %s", result)` for a result code of the
  ledger -/
  | creationFailed (result : Nat)
  /-- A run-time panic on a nil interface value (not an error value: the call does not
  return) -/
  | panicNilPointer
  deriving DecidableEq, Repr

deriving instance DecidableEq for Except

/-! ## Byte-order primitives (`encoding/binary`, `math/big`) -/

/-- Big-endian value of a byte sequence: `binary.BigEndian.Uint64` on 8 bytes,
`(*big.Int).SetBytes` on any length. -/
def beVal (bs : List Nat) : Nat := bs.foldl (fun acc b => acc * 256 + b) 0

/-- The `k` low-order bytes of `n`, most significant first:
`binary.BigEndian.PutUint64` for `k = 8`, `(*big.Int).FillBytes` on a `k`-byte buffer. -/
def beBytes : Nat → Nat → List Nat
  | 0, _ => []
  | k + 1, n => beBytes k (n / 256) ++ [n % 256]

/-- Little-endian value of a byte sequence: `binary.LittleEndian.Uint64` on 8 bytes. -/
def leVal (bs : List Nat) : Nat := bs.foldr (fun b acc => b + 256 * acc) 0

/-- The `k` low-order bytes of `n`, least significant first:
`binary.LittleEndian.PutUint64` for `k = 8`. -/
def leBytes : Nat → Nat → List Nat
  | 0, _ => []
  | k + 1, n => (n % 256) :: leBytes k (n / 256)

/-! ## Uint128 (`wrapper_uint128.go`) -/

/-- Uint128 represents a 128-bit number with two 64-bit parts. -/
structure Uint128 where
  Hi : Nat
  Lo : Nat
  deriving DecidableEq, Repr

/-- Both halves are `uint64` values. -/
def Uint128.wf (u : Uint128) : Prop := u.Hi < 2 ^ 64 ∧ u.Lo < 2 ^ 64

instance (u : Uint128) : Decidable u.wf := by
  unfold Uint128.wf; infer_instance

/-- The logical value `Hi * 2^64 + Lo`. -/
def Uint128.toNat (u : Uint128) : Nat := u.Hi * 2 ^ 64 + u.Lo

/-- The zero value `Uint128{}`. -/
def Uint128.zero : Uint128 := ⟨0, 0⟩

/-- Uint128FromParts constructs Uint128 from hi and lo parts. -/
def Uint128FromParts (hi lo : Nat) : Uint128 := ⟨hi, lo⟩

/-- Uint128FromUint64 constructs Uint128 from a uint64 value. -/
def Uint128FromUint64 (v : Nat) : Uint128 := ⟨0, v⟩

/-- Uint128FromBytesLE constructs Uint128 from 16-byte little-endian slice. -/
def Uint128FromBytesLE (b : List Nat) : Except Err Uint128 :=
  if b.length ≠ 16 then .error .ErrInvalidLength
  else
    let lo := leVal ((b.take 8).drop 0)
    let hi := leVal ((b.take 16).drop 8)
    .ok ⟨hi, lo⟩

/-- BytesLE returns 16-byte little-endian representation. -/
def Uint128.BytesLE (u : Uint128) : List Nat :=
  leBytes 8 u.Lo ++ leBytes 8 u.Hi

/-- BigInt returns a big.Int representation: the big-endian 16 bytes read by `SetBytes`. -/
def Uint128.BigInt (u : Uint128) : Int :=
  let be := beBytes 8 u.Hi ++ beBytes 8 u.Lo
  (beVal be : Nat)

/-- Number of binary digits of `n` (`0` for `0`), by halving; the first argument is fuel. -/
def bitLenAux : Nat → Nat → Nat
  | 0, _ => 0
  | fuel + 1, n => if n = 0 then 0 else bitLenAux fuel (n / 2) + 1

/-- `bits.Len`: the minimum number of bits required to represent `n`. -/
def natBitLen (n : Nat) : Nat := bitLenAux n n

/-- `(*big.Int).BitLen`: the length of the absolute value in bits. -/
def bitLen (n : Int) : Nat := natBitLen n.natAbs

/-- `(*big.Int).Uint64`: the low 64 bits of a non-negative value. -/
def bigUint64 (n : Int) : Nat := n.toNat % 2 ^ 64

/-- `math.MaxUint64`. -/
def MaxUint64 : Nat := 2 ^ 64 - 1

/-- `(*big.Int).IsUint64`: the value is non-negative and below `2^64`. -/
def isUint64 (n : Int) : Bool :=
  match n with
  | .ofNat k => decide (k < 2 ^ 64)
  | .negSucc _ => false

/-- Uint128FromBigInt converts a non-negative big.Int < 2^128 to Uint128. -/
def Uint128FromBigInt (b : Option Int) : Except Err Uint128 :=
  match b with
  | none => .error .ErrNegativeOrNilBigInt
  | some n =>
    if n < 0 then .error .ErrNegativeOrNilBigInt
    else if bitLen n > 128 then .error .ErrBigIntOverflow
    else
      let buf := beBytes 16 n.toNat
      .ok ⟨beVal ((buf.take 8).drop 0), beVal ((buf.take 16).drop 8)⟩

/-! ## float64 -/

/-- An IEEE-754 binary64 value: NaN, an infinity, or the finite value
`(-1)^neg * m * 2^e`. Comparisons and conversions go through the value, so the
representative `(m, e)` of a finite value does not matter. -/
inductive Float64 where
  | nan
  | inf (neg : Bool)
  | fin (neg : Bool) (m : Nat) (e : Int)
  deriving DecidableEq, Repr

namespace Float64

/-- A finite value in the canonical range of binary64 (53-bit significand,
exponent of the unit in the last place between -1074 and 971). -/
def wf : Float64 → Prop
  | .fin _ m e => m < 2 ^ 53 ∧ -1074 ≤ e ∧ e ≤ 971
  | _ => True

/-- Round the exact magnitude `m * 2^e` to the nearest binary64 magnitude, ties to
even; `none` when the rounded magnitude reaches `2^1024` (overflow to infinity). -/
def roundMag (m : Nat) (e : Int) : Option (Nat × Int) :=
  if m = 0 then some (0, 0) else
  let q : Int := max (e + (natBitLen m : Int) - 53) (-1074)
  let r : Nat × Int :=
    if q ≤ e then (m, e)
    else
      let s := (q - e).toNat
      let hi := m / 2 ^ s
      let lo := m % 2 ^ s
      let half := 2 ^ (s - 1)
      (if lo > half ∨ (lo = half ∧ hi % 2 = 1) then hi + 1 else hi, q)
  if (natBitLen r.1 : Int) + r.2 > 1024 then none else some r

/-- The binary64 value nearest to the exact value `(-1)^neg * m * 2^e`. -/
def round64 (neg : Bool) (m : Nat) (e : Int) : Float64 :=
  match roundMag m e with
  | none => .inf neg
  | some (m', e') => .fin neg m' e'

/-- Conversion `float64(n)` of a `uint64`. -/
def ofUint64 (n : Nat) : Float64 := round64 false n 0

/-- The float64 product `a * b`. -/
def mul : Float64 → Float64 → Float64
  | .nan, _ => .nan
  | _, .nan => .nan
  | .inf a, .inf b => .inf (a != b)
  | .inf a, .fin b m _ => if m = 0 then .nan else .inf (a != b)
  | .fin a m _, .inf b => if m = 0 then .nan else .inf (a != b)
  | .fin a m e, .fin b n f => round64 (a != b) (m * n) (e + f)

/-- Comparison of magnitudes `m * 2^e < n * 2^f`. -/
def magLt (m : Nat) (e : Int) (n : Nat) (f : Int) : Bool :=
  if e ≤ f then decide (m < n * 2 ^ (f - e).toNat) else decide (m * 2 ^ (e - f).toNat < n)

/-- The float64 comparison `a < b` (false when either operand is NaN). -/
def lt : Float64 → Float64 → Bool
  | .nan, _ => false
  | _, .nan => false
  | .inf a, .inf b => a && !b
  | .inf a, .fin _ _ _ => a
  | .fin _ _ _, .inf b => !b
  | .fin false m e, .fin false n f => magLt m e n f
  | .fin false _ _, .fin true _ _ => false
  | .fin true m _, .fin false n _ => !(decide (m = 0) && decide (n = 0))
  | .fin true m e, .fin true n f => magLt n f m e

/-- The float64 zero `0`. -/
def zero : Float64 := .fin false 0 0

/-- `math.IsInf(f, 0)`. -/
def IsInf : Float64 → Bool
  | .inf _ => true
  | _ => false

/-- `math.IsNaN(f)`. -/
def IsNaN : Float64 → Bool
  | .nan => true
  | _ => false

/-- `math.Round`: the nearest integer, rounding half away from zero. -/
def Round : Float64 → Float64
  | .fin neg m e =>
    if 0 ≤ e then .fin neg m e
    else
      let s := (-e).toNat
      let ip := m / 2 ^ s
      let frac := m % 2 ^ s
      .fin neg (if 2 ^ s ≤ 2 * frac then ip + 1 else ip) 0
  | f => f

/-- The result of converting to `uint64` a value that `uint64` cannot represent.
Go leaves it implementation-specific; this is what amd64 gives for `2^64`, the only
such value `Float64ToUint128` can convert. -/
def uint64OutOfRange : Nat := 2 ^ 63

/-- Conversion `uint64(f)`: truncation toward zero. -/
def toUint64 : Float64 → Nat
  | .fin neg m e =>
    let t := if 0 ≤ e then m * 2 ^ e.toNat else m / 2 ^ (-e).toNat
    if t = 0 then 0
    else if neg then uint64OutOfRange
    else if t < 2 ^ 64 then t else uint64OutOfRange
  | _ => uint64OutOfRange

end Float64

/-! ## Currency and amount (`ledger_currency.go`) -/

/-- The currency struct: a currency definition with its code and decimal precision. -/
structure currency where
  code : List Nat
  decimal : Nat
  deriving DecidableEq, Repr

/-- The amountCurrency struct: a currency with a float64 value and a raw Uint128 value. -/
structure amountCurrency where
  curr : currency
  float64Val : Float64
  uint128Val : Uint128
  deriving DecidableEq, Repr

/-- NewMonetary creates new currency monetary. -/
def currency.NewMonetary (c : currency) : amountCurrency :=
  { curr := c, float64Val := Float64.zero, uint128Val := Uint128.zero }

/-- NewAmountFromFloat64 creates new currency amount from float64 value. -/
def currency.NewAmountFromFloat64 (c : currency) (val : Float64) : amountCurrency :=
  { curr := c, float64Val := val, uint128Val := Uint128.zero }

/-- Pre-computed scale values, indexed by decimal precision. -/
def scaleCache : List Nat :=
  [ 1, 10, 100, 1000, 10000, 100000, 1000000, 10000000, 100000000, 1000000000,
    10000000000, 100000000000, 1000000000000, 10000000000000, 100000000000000,
    1000000000000000, 10000000000000000, 100000000000000000, 1000000000000000000,
    10000000000000000000,
    1000000000000000000, 1000000000000000000, 1000000000000000000, 1000000000000000000,
    1000000000000000000, 1000000000000000000, 1000000000000000000, 1000000000000000000,
    1000000000000000000, 1000000000000000000, 1000000000000000000 ]

/-- scaleFromDecimals returns the scaling factor for the given decimal precision
(the log line of the fallback branch is not modelled). -/
def scaleFromDecimals (decimals : Nat) : Nat :=
  if decimals < 31 then scaleCache.getD decimals 0
  else 1000000000000000000

/-- SetUint128Value sets Uint128 value to the monetary (on a clone of the receiver). -/
def amountCurrency.SetUint128Value (a : amountCurrency) (val : Uint128) : amountCurrency :=
  let c := a
  { c with uint128Val := val }

/-- SetFloat64Value sets float64 value to the monetary (on a clone of the receiver). -/
def amountCurrency.SetFloat64Value (a : amountCurrency) (val : Float64) : amountCurrency :=
  let c := a
  { c with float64Val := val }

/-- Float64ToUint128 converts a human-readable float64 to the scaled Uint128 format. -/
def amountCurrency.Float64ToUint128 (a : amountCurrency) : Except Err Uint128 :=
  let val := a.float64Val
  let val := if Float64.lt val Float64.zero then Float64.zero else val
  if Float64.IsInf val || Float64.IsNaN val then .ok Uint128.zero
  else
    let scale := scaleFromDecimals a.curr.decimal
    let scaledVal := Float64.mul val (Float64.ofUint64 scale)
    let roundedVal := Float64.Round scaledVal
    if Float64.lt (Float64.ofUint64 MaxUint64) roundedVal then .error .valueTooLarge
    else
      let intVal := Float64.toUint64 roundedVal
      .ok (Uint128FromUint64 intVal)

/-- ToUint128FromValue returns the Uint128 value depending on the value that has been set:
the float64 value has priority when it is greater than 0. -/
def amountCurrency.ToUint128FromValue (a : amountCurrency) : Uint128 :=
  if Float64.lt Float64.zero a.float64Val then
    match a.Float64ToUint128 with
    | .error _ => Uint128.zero
    | .ok uint128 => uint128
  else a.uint128Val

/-- Add safely adds two Uint128 amounts with overflow protection. -/
def amountCurrency.Add (a : amountCurrency) (b : Uint128) : Except Err Uint128 :=
  let x := a.uint128Val
  let aBigInt := x.BigInt
  let bBigInt := b.BigInt
  let slowPath : Except Err Uint128 :=
    let result := aBigInt + bBigInt
    if bitLen result > 128 then .error .additionOverflow
    else Uint128FromBigInt (some result)
  if isUint64 aBigInt && isUint64 bBigInt then
    let aVal := bigUint64 aBigInt
    let bVal := bigUint64 bBigInt
    if aVal ≤ MaxUint64 - bVal then .ok (Uint128FromUint64 ((aVal + bVal) % 2 ^ 64))
    else slowPath
  else slowPath

/-- Sub safely subtracts b from a with underflow protection. -/
def amountCurrency.Sub (a : amountCurrency) (b : Uint128) : Except Err Uint128 :=
  let x := a.uint128Val
  let aBigInt := x.BigInt
  let bBigInt := b.BigInt
  if isUint64 aBigInt && isUint64 bBigInt then
    let aVal := bigUint64 aBigInt
    let bVal := bigUint64 bBigInt
    if aVal < bVal then .error .ErrNegativeOrNilBigInt
    else .ok (Uint128FromUint64 ((aVal + 2 ^ 64 - bVal) % 2 ^ 64))
  else if aBigInt < bBigInt then .error .ErrNegativeOrNilBigInt
  else
    let result := aBigInt - bBigInt
    Uint128FromBigInt (some result)

/-- The bytes of a string literal (its UTF-8 encoding). -/
def bytes (s : String) : List Nat := (s.data.flatMap String.utf8EncodeChar).map UInt8.toNat

/-! ### Built-in currencies

Each is `newCurrency(code, decimal)` on a code that is already trimmed and upper-case. -/

/-- Vietnamese Dong (no decimals). -/
def VND : currency := ⟨bytes "VND", 0⟩
/-- Indonesian Rupiah. -/
def IDR : currency := ⟨bytes "IDR", 2⟩
/-- Malaysian Ringgit. -/
def MYR : currency := ⟨bytes "MYR", 2⟩
/-- Singapore Dollar. -/
def SGD : currency := ⟨bytes "SGD", 2⟩
/-- Thai Baht. -/
def THB : currency := ⟨bytes "THB", 2⟩
/-- Philippine Peso. -/
def PHP : currency := ⟨bytes "PHP", 2⟩
/-- US Dollar. -/
def USD : currency := ⟨bytes "USD", 2⟩
/-- Euro. -/
def EUR : currency := ⟨bytes "EUR", 2⟩
/-- Tether (6 decimals). -/
def USDT : currency := ⟨bytes "USDT", 6⟩
/-- Bitcoin (8 decimals). -/
def BTC : currency := ⟨bytes "BTC", 8⟩
/-- Binance Coin (12 decimals). -/
def BNB : currency := ⟨bytes "BNB", 12⟩
/-- Ethereum (18 decimals). -/
def ETH : currency := ⟨bytes "ETH", 18⟩

/-! ### Ledger code (`EncodeLedger`, `DecodeLedger`) -/

/-- One step of a Go `range` loop over a string: the rune decoded at the head of the
non-empty byte sequence `s` and the number of bytes it takes. An invalid or truncated
UTF-8 sequence yields U+FFFD and advances one byte. -/
def decodeRune (s : List Nat) : Nat × Nat :=
  let b0 := s.getD 0 0
  let b1 := s.getD 1 0
  let b2 := s.getD 2 0
  let b3 := s.getD 3 0
  let cont := fun (b : Nat) => decide (0x80 ≤ b ∧ b ≤ 0xBF)
  let runeError : Nat × Nat := (0xFFFD, 1)
  if b0 < 0x80 then (b0, 1)
  else if 0xC0 ≤ b0 ∧ b0 < 0xE0 then
    if s.length > 1 ∧ cont b1 then
      let r := (b0 % 32) * 64 + b1 % 64
      if 0x7F < r then (r, 2) else runeError
    else runeError
  else if 0xE0 ≤ b0 ∧ b0 < 0xF0 then
    if s.length > 2 ∧ cont b1 ∧ cont b2 then
      let r := (b0 % 16) * 4096 + (b1 % 64) * 64 + b2 % 64
      if 0x7FF < r ∧ ¬ (0xD800 ≤ r ∧ r ≤ 0xDFFF) then (r, 3) else runeError
    else runeError
  else if 0xF0 ≤ b0 ∧ b0 < 0xF8 then
    if s.length > 3 ∧ cont b1 ∧ cont b2 ∧ cont b3 then
      let r := (b0 % 8) * 262144 + (b1 % 64) * 4096 + (b2 % 64) * 64 + b3 % 64
      if 0xFFFF < r ∧ r ≤ 0x10FFFF then (r, 4) else runeError
    else runeError
  else runeError

/-- The runes a Go `range` loop over the string visits; the first argument is fuel. -/
def runesAux : Nat → List Nat → List Nat
  | 0, _ => []
  | fuel + 1, s =>
    match s with
    | [] => []
    | _ :: _ =>
      let d := decodeRune s
      d.1 :: runesAux fuel (s.drop d.2)

/-- The runes of a Go string, in order. -/
def runes (s : List Nat) : List Nat := runesAux s.length s

/-- The 32-bit hash the loop of hashCurrencyCode computes (offset basis 2166136261,
prime 16777619, one step per rune), before the final reduction. -/
def hashLoop (code : List Nat) : Nat :=
  (runes code).foldl (fun hash c => ((hash ^^^ (c % 2 ^ 32)) * 16777619) % 2 ^ 32) 2166136261

/-- hashCurrencyCode creates a deterministic hash for currency codes > 3 characters,
constrained to 6 digits. -/
def hashCurrencyCode (code : List Nat) : Nat := hashLoop code % 1000000

/-- The `switch` of EncodeLedger on a byte of a short code: `A`..`Z` give 10..35,
`0`..`9` give 0..9, any other byte gives 0. -/
def charSlot (char : Nat) : Nat :=
  if char ≥ 65 ∧ char ≤ 90 then (char - 65) + 10
  else if char ≥ 48 ∧ char ≤ 57 then char - 48
  else 0

/-- The value `n` that EncodeLedger gives to position `i` of a short code
(0 as padding past the end of the code). -/
def codeSlot (code : List Nat) (i : Nat) : Nat :=
  if i < code.length then
    let char := code.getD i 0
    charSlot char
  else 0

/-- The local `codeVal` of EncodeLedger: base-100 encoding of three positions for a
code of at most 3 bytes, hash plus offset for a longer one. -/
def currency.codeVal (c : currency) : Nat :=
  if c.code.length ≤ 3 then
    (List.range 3).foldl (fun codeVal i => (codeVal * 100 + codeSlot c.code i) % 2 ^ 32) 0
  else
    let hash := hashCurrencyCode c.code
    (500000 + hash % 500000) % 2 ^ 32

/-- EncodeLedger generates the LedgerCode (a uint32):
`[3-digit decimal + 100][6-digit currency encoding]`. -/
def currency.EncodeLedger (c : currency) : Nat :=
  let decimalPart := (c.decimal + 100) % 2 ^ 32
  let codeVal := c.codeVal
  (decimalPart * 1000000 + codeVal) % 2 ^ 32

/-- `%d` formatting of an integer. -/
def fmtInt (n : Int) : List Nat :=
  if n < 0 then 45 :: (Nat.toDigits 10 n.natAbs).map Char.toNat
  else (Nat.toDigits 10 n.toNat).map Char.toNat

/-- The byte DecodeLedger writes for a slot value, `0` meaning that nothing is written. -/
def slotChar (charValue : Nat) : Nat :=
  if charValue ≥ 1 ∧ charValue ≤ 9 then (48 + charValue) % 256
  else if charValue ≥ 10 ∧ charValue ≤ 35 then (65 + charValue - 10) % 256
  else 0

/-- DecodeLedger converts the LedgerCode back to human-readable format:
`decimal=<precision>, currency=<code>`. -/
def currency.DecodeLedger (c : currency) : List Nat :=
  let ledgerCode := c.EncodeLedger
  let decimal : Int := ((ledgerCode / 1000000 : Nat) : Int) - 100
  let codeValue := ledgerCode % 1000000
  let currencyCode : List Nat :=
    if codeValue < 500000 then
      let chars := [codeValue / 10000 % 100, codeValue / 100 % 100, codeValue % 100]
      chars.foldl (fun builder charValue =>
        if charValue = 0 then builder
        else
          let ch := slotChar charValue
          if ch ≠ 0 then builder ++ [ch] else builder) []
    else c.code
  bytes "decimal=" ++ fmtInt decimal ++ bytes ", currency=" ++ currencyCode

/-- The characters a short code keeps through EncodeLedger and DecodeLedger:
the upper-case letters `A`..`Z` and the digits `1`..`9`. -/
def isCodeChar (ch : Nat) : Bool := decide ((65 ≤ ch ∧ ch ≤ 90) ∨ (49 ≤ ch ∧ ch ≤ 57))

/-- What DecodeLedger writes for one slot value: nothing for `0` and for a value above 35,
one byte otherwise. -/
def slotOut (charValue : Nat) : List Nat :=
  if charValue = 0 then []
  else if slotChar charValue ≠ 0 then [slotChar charValue] else []

/-! ### Hexadecimal text (`encoding/hex`, `Uint128FromHex`, `Hex`) -/

/-- The digit `hextable[d]` of `encoding/hex`, `hextable = "0123456789abcdef"`. -/
def hexDigit (d : Nat) : Nat := if d < 10 then 48 + d else 87 + d

/-- `hex.EncodeToString`: two lower-case digits per byte, high nibble first. -/
def hexEncode (bs : List Nat) : List Nat :=
  bs.flatMap (fun b => [hexDigit (b / 16), hexDigit (b % 16)])

/-- The value of a hexadecimal digit in the decoding table of `encoding/hex`
(`0`..`9`, `a`..`f`, `A`..`F`), `none` for any other byte. -/
def fromHexChar (c : Nat) : Option Nat :=
  if 48 ≤ c ∧ c ≤ 57 then some (c - 48)
  else if 97 ≤ c ∧ c ≤ 102 then some (c - 97 + 10)
  else if 65 ≤ c ∧ c ≤ 70 then some (c - 65 + 10)
  else none

/-- `hex.Decode`: the decoded bytes, or the error for the first invalid byte, or
`ErrLength` for a trailing single digit. -/
def hexDecode : List Nat → Except Err (List Nat)
  | [] => .ok []
  | [p] =>
    match fromHexChar p with
    | none => .error (.hexInvalidByte p)
    | some _ => .error .hexErrLength
  | p :: q :: rest =>
    match fromHexChar p with
    | none => .error (.hexInvalidByte p)
    | some a =>
      match fromHexChar q with
      | none => .error (.hexInvalidByte q)
      | some b =>
        match hexDecode rest with
        | .error e => .error e
        | .ok bs => .ok ((a * 16 + b) :: bs)

/-- Uint128FromHex decodes a hex string (big-endian, up to 32 chars) into Uint128. -/
def Uint128FromHex (s : List Nat) : Except Err Uint128 :=
  if s.length = 0 then .ok Uint128.zero
  else if s.length > 32 then .error .ErrHexTooLong
  else
    let s := if s.length % 2 = 1 then 48 :: s else s
    match hexDecode s with
    | .error err => .error err
    | .ok decoded =>
      let buf := List.replicate (16 - s.length / 2) 0 ++ decoded
      let hi := beVal ((buf.take 8).drop 0)
      let lo := beVal ((buf.take 16).drop 8)
      .ok ⟨hi, lo⟩

/-- The loop of Hex that trims leading zeros but keeps at least one digit:
`for i < len(s)-1 && s[i] == '0' { i++ }; return s[i:]`. -/
def trimZeros : List Nat → List Nat
  | [] => []
  | [c] => [c]
  | c :: d :: rest => if c = 48 then trimZeros (d :: rest) else c :: d :: rest

/-- Hex returns big-endian hex string without leading zeros. -/
def Uint128.Hex (u : Uint128) : List Nat :=
  let be := beBytes 8 u.Hi ++ beBytes 8 u.Lo
  let s := hexEncode be
  trimZeros s

/-- MarshalText implements encoding.TextMarshaler. -/
def Uint128.MarshalText (u : Uint128) : Except Err (List Nat) := .ok u.Hex

/-- UnmarshalText implements encoding.TextUnmarshaler; the result is the new value of
the receiver, which is left untouched when an error is returned. -/
def Uint128.UnmarshalText (_u : Uint128) (b : List Nat) : Except Err Uint128 :=
  match Uint128FromHex b with
  | .error err => .error err
  | .ok v => .ok v

/-! ### Reference notions for the hexadecimal claims -/

/-- A hexadecimal digit: `0`..`9`, `a`..`f` or `A`..`F`. -/
def isHexDigit (c : Nat) : Bool :=
  decide ((48 ≤ c ∧ c ≤ 57) ∨ (97 ≤ c ∧ c ≤ 102) ∨ (65 ≤ c ∧ c ≤ 70))

/-- The lower-case form of a hexadecimal digit. -/
def toLowerHex (c : Nat) : Nat := if 65 ≤ c ∧ c ≤ 70 then c + 32 else c

/-- A digit string with its leading zeros stripped, at least one digit being kept
(`0` when nothing else remains). -/
def stripLeadingZeros (s : List Nat) : List Nat :=
  match s.dropWhile (fun c => decide (c = 48)) with
  | [] => [48]
  | t => t

/-- The number a string of hexadecimal digits denotes, most significant digit first. -/
def hexVal (s : List Nat) : Nat :=
  s.foldl (fun acc c => acc * 16 + (fromHexChar c).getD 0) 0

/-! ## Statement reconstruction (`account_transfer.go`) -/

/-- TransferFlags defines the behavior of a transfer. -/
structure TransferFlags where
  Linked : Bool
  Pending : Bool
  PostPendingTransfer : Bool
  VoidPendingTransfer : Bool
  BalancingDebit : Bool
  BalancingCredit : Bool
  ClosingDebit : Bool
  ClosingCredit : Bool
  Imported : Bool
  deriving DecidableEq, Repr

/-- An account balance record as the ledger client returns it (`types.AccountBalance`),
its 128-bit fields already read by `fromBinding`. -/
structure TBAccountBalance where
  DebitsPending : Uint128
  DebitsPosted : Uint128
  CreditsPending : Uint128
  CreditsPosted : Uint128
  Timestamp : Nat
  deriving DecidableEq, Repr

/-- A transfer record as the ledger client returns it (`types.Transfer`), its 128-bit
fields already read by `fromBinding` and its flags by `TransferFlags()`. -/
structure TBTransfer where
  ID : Uint128
  DebitAccountID : Uint128
  CreditAccountID : Uint128
  Amount : Uint128
  PendingID : Uint128
  UserData128 : Uint128
  UserData64 : Nat
  UserData32 : Nat
  Timeout : Nat
  Ledger : Nat
  Code : Nat
  Flags : TransferFlags
  Timestamp : Nat
  deriving DecidableEq, Repr

/-- AccountTransferFilter: the fields of the filter that reconstruction reads (the
remaining ones only parameterise the two queries to the ledger). -/
structure AccountTransferFilter where
  AccountID : Uint128
  Monetary : amountCurrency
  deriving DecidableEq, Repr

/-- AccountBalance defines account's balance record. -/
structure AccountBalance where
  Timestamp : Nat
  DebitsPending : amountCurrency
  DebitsPosted : amountCurrency
  CreditsPending : amountCurrency
  CreditsPosted : amountCurrency
  deriving DecidableEq, Repr

/-- AccountTransfer defines account's transfer record. -/
structure AccountTransfer where
  ID : Uint128
  DebitAccountID : Uint128
  CreditAccountID : Uint128
  PendingID : Uint128
  Amount : amountCurrency
  UserData128 : Uint128
  UserData64 : Nat
  Timestamp : Nat
  UserData32 : Nat
  Timeout : Nat
  Ledger : Nat
  Code : Nat
  Flags : TransferFlags
  deriving DecidableEq, Repr

/-- AccountStatement defines account's statement record; `Additional` holds what the
caller's closure returned, of a type `α` chosen by the caller. -/
structure AccountStatement (α : Type) where
  ID : Uint128
  DebitAccountID : Uint128
  CreditAccountID : Uint128
  Debit : amountCurrency
  Credit : amountCurrency
  BalanceBefore : amountCurrency
  BalanceAfter : amountCurrency
  UserData128 : Uint128
  UserData64 : Nat
  Timestamp : Nat
  UserData32 : Nat
  Ledger : Nat
  Code : Nat
  Flags : TransferFlags
  Additional : Option α
  deriving DecidableEq, Repr

/-- StatementClosureFn is closure function of statement. -/
abbrev StatementClosureFn (α : Type) : Type :=
  Uint128 → Uint128 → Nat → Nat → Nat → TransferFlags → Nat → α

/-- One step of the conversion loop of GetHisotricalBalances: every amount is the
filter's Monetary with its Uint128 value set. -/
def toAccountBalance (filter : AccountTransferFilter) (tbAccountBalance : TBAccountBalance) :
    AccountBalance :=
  { Timestamp := tbAccountBalance.Timestamp
    DebitsPending := filter.Monetary.SetUint128Value tbAccountBalance.DebitsPending
    DebitsPosted := filter.Monetary.SetUint128Value tbAccountBalance.DebitsPosted
    CreditsPending := filter.Monetary.SetUint128Value tbAccountBalance.CreditsPending
    CreditsPosted := filter.Monetary.SetUint128Value tbAccountBalance.CreditsPosted }

/-- The conversion loop of GetHisotricalBalances. -/
def toAccountBalances (filter : AccountTransferFilter) (tbAccountBalances : List TBAccountBalance) :
    List AccountBalance :=
  tbAccountBalances.map (toAccountBalance filter)

/-- One step of the conversion loop of GetAccountTransfers. -/
def toAccountTransfer (filter : AccountTransferFilter) (transfer : TBTransfer) : AccountTransfer :=
  { ID := transfer.ID
    DebitAccountID := transfer.DebitAccountID
    CreditAccountID := transfer.CreditAccountID
    Amount := filter.Monetary.SetUint128Value transfer.Amount
    PendingID := transfer.PendingID
    UserData128 := transfer.UserData128
    UserData64 := transfer.UserData64
    Timestamp := transfer.Timestamp
    UserData32 := transfer.UserData32
    Timeout := transfer.Timeout
    Ledger := transfer.Ledger
    Code := transfer.Code
    Flags := transfer.Flags }

/-- The conversion loop of GetAccountTransfers. -/
def toAccountTransfers (filter : AccountTransferFilter) (tbAccountTransfers : List TBTransfer) :
    List AccountTransfer :=
  tbAccountTransfers.map (toAccountTransfer filter)

/-- The direction `switch` at the head of the loop body: `none` when the transfer is
skipped (debit and post-pending), otherwise the final value of `isDebit`. -/
def statementDirection (filter : AccountTransferFilter) (transfer : AccountTransfer) :
    Option Bool :=
  let isDebit := decide (transfer.DebitAccountID = filter.AccountID)
  if isDebit && transfer.Flags.VoidPendingTransfer then some false
  else if isDebit && transfer.Flags.PostPendingTransfer then none
  else some isDebit

/-- The loop body of GetAccountStatements once the direction is known and the balance
snapshot is located (from `// Balance after.` to the `append`): the statement that is
appended, or `none` where the body `continue`s. The statement is written once, with the
final value of every field: `Debit`, `Credit`, `BalanceBefore` and `BalanceAfter` start as
`filter.Monetary.SetFloat64Value(0)` and are overwritten as the body goes. -/
def statementFor {α : Type} (filter : AccountTransferFilter)
    (clsFn : Option (StatementClosureFn α)) (transfer : AccountTransfer) (isDebit : Bool)
    (balance : AccountBalance) : Option (AccountStatement α) :=
  match balance.DebitsPending.Add balance.DebitsPosted.ToUint128FromValue with
  | .error _ => none
  | .ok debit =>
    match balance.CreditsPosted.Sub debit with
    | .error _ => none
    | .ok after =>
      let balanceAfter := filter.Monetary.SetUint128Value after
      let before :=
        if isDebit then balanceAfter.Add transfer.Amount.ToUint128FromValue
        else balanceAfter.Sub transfer.Amount.ToUint128FromValue
      match before with
      | .error _ => none
      | .ok before =>
        some
          { ID := transfer.ID
            DebitAccountID := transfer.DebitAccountID
            CreditAccountID := transfer.CreditAccountID
            Debit :=
              if isDebit then transfer.Amount
              else filter.Monetary.SetFloat64Value Float64.zero
            Credit :=
              if isDebit then filter.Monetary.SetFloat64Value Float64.zero
              else transfer.Amount
            BalanceBefore := filter.Monetary.SetUint128Value before
            BalanceAfter := balanceAfter
            UserData128 := transfer.UserData128
            UserData64 := transfer.UserData64
            Timestamp := transfer.Timestamp
            UserData32 := transfer.UserData32
            Ledger := transfer.Ledger
            Code := transfer.Code
            Flags := transfer.Flags
            Additional :=
              clsFn.map fun f =>
                f transfer.ID transfer.UserData128 transfer.UserData64 transfer.UserData32
                  transfer.Code transfer.Flags transfer.Timestamp }

/-- The body of the loop of GetAccountStatements for one transfer: the statement that is
appended, or `none` where the body `continue`s (skipped direction, no balance snapshot
with the transfer's timestamp, or an arithmetic error). -/
def statementOf {α : Type} (filter : AccountTransferFilter) (balances : List AccountBalance)
    (clsFn : Option (StatementClosureFn α)) (transfer : AccountTransfer) :
    Option (AccountStatement α) :=
  match statementDirection filter transfer with
  | none => none
  | some isDebit =>
    match balances.find? (fun b => decide (b.Timestamp = transfer.Timestamp)) with
    | none => none
    | some balance => statementFor filter clsFn transfer isDebit balance

/-- The reconstruction loop of GetAccountStatements: the statements appended, in the
order of the transfers. -/
def statementsLoop {α : Type} (filter : AccountTransferFilter) (balances : List AccountBalance)
    (transfers : List AccountTransfer) (clsFn : Option (StatementClosureFn α)) :
    List (AccountStatement α) :=
  transfers.filterMap (statementOf filter balances clsFn)

/-- GetAccountStatements, given what the two queries to the ledger returned
(`tbAccountBalances` from `GetAccountBalances`, `tbAccountTransfers` from
`GetAccountTransfers`); the error returns of filter validation and of the client are
outside the model. `closureFn` is the variadic argument. -/
def GetAccountStatements {α : Type} (filter : AccountTransferFilter)
    (tbAccountBalances : List TBAccountBalance) (tbAccountTransfers : List TBTransfer)
    (closureFn : List (Option (StatementClosureFn α))) : List (AccountStatement α) :=
  let balances := toAccountBalances filter tbAccountBalances
  let transfers := toAccountTransfers filter tbAccountTransfers
  let clsFn : Option (StatementClosureFn α) :=
    match closureFn with
    | some f :: _ => some f
    | _ => none
  statementsLoop filter balances transfers clsFn

/-! ### Sample ledger data -/

/-- No transfer flag set. -/
def noFlags : TransferFlags :=
  { Linked := false, Pending := false, PostPendingTransfer := false,
    VoidPendingTransfer := false, BalancingDebit := false, BalancingCredit := false,
    ClosingDebit := false, ClosingCredit := false, Imported := false }

/-- A filter for account 1 whose Monetary is `IDR.NewMonetary()`. -/
def plainFilter : AccountTransferFilter :=
  { AccountID := ⟨0, 1⟩, Monetary := IDR.NewMonetary }

/-- A filter for account 1 whose Monetary is `IDR.NewAmountFromFloat64(1)`. -/
def decimalFilter : AccountTransferFilter :=
  { AccountID := ⟨0, 1⟩, Monetary := IDR.NewAmountFromFloat64 (.fin false 1 0) }

/-- A balance snapshot at the given timestamp with 1000 posted credits and no debits. -/
def creditedSnapshot (timestamp : Nat) : TBAccountBalance :=
  { DebitsPending := ⟨0, 0⟩, DebitsPosted := ⟨0, 0⟩, CreditsPending := ⟨0, 0⟩,
    CreditsPosted := ⟨0, 1000⟩, Timestamp := timestamp }

/-- A transfer of 500 from account 2 to account 1 at timestamp 10. -/
def incomingTransfer : TBTransfer :=
  { ID := ⟨0, 7⟩, DebitAccountID := ⟨0, 2⟩, CreditAccountID := ⟨0, 1⟩, Amount := ⟨0, 500⟩,
    PendingID := ⟨0, 0⟩, UserData128 := ⟨0, 0⟩, UserData64 := 0, UserData32 := 0, Timeout := 0,
    Ledger := 1, Code := 1, Flags := noFlags, Timestamp := 10 }

/-- A void-pending transfer of 500 from account 1 to account 2 at timestamp 20. -/
def voidedTransfer : TBTransfer :=
  { ID := ⟨0, 8⟩, DebitAccountID := ⟨0, 1⟩, CreditAccountID := ⟨0, 2⟩, Amount := ⟨0, 500⟩,
    PendingID := ⟨0, 6⟩, UserData128 := ⟨0, 0⟩, UserData64 := 0, UserData32 := 0, Timeout := 0,
    Ledger := 1, Code := 1, Flags := { noFlags with VoidPendingTransfer := true },
    Timestamp := 20 }

/-- The raw Uint128 values a statement shows: debit, credit, balance before, balance after. -/
def AccountStatement.rawValues {α : Type} (s : AccountStatement α) :
    Uint128 × Uint128 × Uint128 × Uint128 :=
  (s.Debit.uint128Val, s.Credit.uint128Val, s.BalanceBefore.uint128Val,
    s.BalanceAfter.uint128Val)

/-! ### Comparison (`Uint128.Compare`, `amountCurrency.Compare` and its derivatives) -/

/-- Compare compares two Uint128 values: -1 if u<v, 0 if u==v, 1 if u>v. -/
def Uint128.Compare (u v : Uint128) : Int :=
  if u.Hi < v.Hi then -1
  else if u.Hi > v.Hi then 1
  else if u.Lo < v.Lo then -1
  else if u.Lo > v.Lo then 1
  else 0

/-- IsZero returns true if Uint128 is zero. -/
def Uint128.IsZero (u : Uint128) : Bool := decide (u.Hi = 0) && decide (u.Lo = 0)

/-- `(*big.Int).Cmp`: -1 if x < y, 0 if x == y, +1 if x > y. -/
def bigCmp (x y : Int) : Int :=
  if x < y then -1 else if y < x then 1 else 0

/-- `(*big.Int).Sign`: -1 if x < 0, 0 if x == 0, +1 if x > 0. -/
def bigSign (x : Int) : Int :=
  if x < 0 then -1 else if x = 0 then 0 else 1

/-- Compare compares two Uint128 amounts, with a fast path for values that fit in uint64. -/
def amountCurrency.Compare (a : amountCurrency) (b : Uint128) : Int :=
  let x := a.uint128Val
  let aBigInt := x.BigInt
  let bBigInt := b.BigInt
  if isUint64 aBigInt && isUint64 bBigInt then
    let aVal := bigUint64 aBigInt
    let bVal := bigUint64 bBigInt
    if aVal < bVal then -1
    else if aVal > bVal then 1
    else 0
  else bigCmp aBigInt bBigInt

/-- IsZero checks if the Uint128 value represents zero or negative (treated as zero). -/
def amountCurrency.IsZero (a : amountCurrency) : Bool :=
  let val := a.uint128Val
  let bigInt := val.BigInt
  decide (bigSign bigInt ≤ 0)

/-- Equal checks if two Uint128 amounts are equal. -/
def amountCurrency.Equal (a : amountCurrency) (b : Uint128) : Bool := decide (a.Compare b = 0)

/-- GreaterThan checks if a > b. -/
def amountCurrency.GreaterThan (a : amountCurrency) (b : Uint128) : Bool :=
  decide (a.Compare b > 0)

/-- GreaterThanOrEqual checks if a >= b. -/
def amountCurrency.GreaterThanOrEqual (a : amountCurrency) (b : Uint128) : Bool :=
  decide (a.Compare b ≥ 0)

/-- LessThan checks if a < b. -/
def amountCurrency.LessThan (a : amountCurrency) (b : Uint128) : Bool :=
  decide (a.Compare b < 0)

/-- LessThanOrEqual checks if a <= b. -/
def amountCurrency.LessThanOrEqual (a : amountCurrency) (b : Uint128) : Bool :=
  decide (a.Compare b ≤ 0)

/-- Min returns the smaller of two Uint128 amounts. -/
def amountCurrency.Min (a : amountCurrency) (b : Uint128) : Uint128 :=
  if a.LessThan b then a.uint128Val else b

/-- Max returns the larger of two Uint128 amounts. -/
def amountCurrency.Max (a : amountCurrency) (b : Uint128) : Uint128 :=
  if a.GreaterThan b then a.uint128Val else b

/-! ### Setters on the heap (`clone`, `SetUint128Value`, `SetFloat64Value`)

The methods have a pointer receiver and return a pointer. The heap is the list of the
allocated `amountCurrency` structs, a pointer is an index into it, and an allocation
appends a cell. A nil or dangling receiver has no cell: the dereference panics (`none`). -/

/-- The allocated `amountCurrency` structs, addressed by index. -/
abbrev Heap : Type := List amountCurrency

/-- The clone method, `c := *a; return &c`, on the heap: a copy of the receiver's struct
in a fresh cell. -/
def cloneH (heap : Heap) (a : Nat) : Option (Heap × Nat) :=
  match heap.get? a with
  | none => none
  | some v => some (heap ++ [v], heap.length)

/-- SetUint128Value on the heap: `c := a.clone(); c.uint128Val = val; return c`. -/
def SetUint128ValueH (heap : Heap) (a : Nat) (val : Uint128) : Option (Heap × Nat) :=
  match cloneH heap a with
  | none => none
  | some (heap, c) => some (heap.modify (fun v => { v with uint128Val := val }) c, c)

/-- SetFloat64Value on the heap: `c := a.clone(); c.float64Val = val; return c`. -/
def SetFloat64ValueH (heap : Heap) (a : Nat) (val : Float64) : Option (Heap × Nat) :=
  match cloneH heap a with
  | none => none
  | some (heap, c) => some (heap.modify (fun v => { v with float64Val := val }) c, c)

/-- A float64 value greater than zero: `+Inf` or a finite positive value. -/
def Float64.isPositive : Float64 → Prop
  | .inf false => True
  | .fin false m _ => 0 < m
  | _ => False

instance (f : Float64) : Decidable f.isPositive := by
  cases f with
  | nan => exact isFalse (fun h => h)
  | inf neg => cases neg <;> unfold Float64.isPositive <;> infer_instance
  | fin neg m e => cases neg <;> unfold Float64.isPositive <;> infer_instance

/-! ### Reference notions for the reconstruction claims -/

/-- The transfer is one the loop skips as a debit-direction post-pending transfer: it
debits the filter's account, carries the post-pending flag and not the void-pending flag. -/
def skippedPostPending (filter : AccountTransferFilter) (t : AccountTransfer) : Bool :=
  decide (t.DebitAccountID = filter.AccountID) && t.Flags.PostPendingTransfer &&
    !t.Flags.VoidPendingTransfer

/-- The transfer gives a debit line: it debits the filter's account and is not void-pending. -/
def debitDirection (filter : AccountTransferFilter) (t : AccountTransfer) : Bool :=
  decide (t.DebitAccountID = filter.AccountID) && !t.Flags.VoidPendingTransfer

/-- The transfer qualifies for a statement line: it is not skipped as a debit-direction
post-pending transfer, a snapshot has its timestamp, and on the first such snapshot the
balance computations neither overflow nor underflow. The amounts are the values the loop
reads: the raw value of DebitsPending and CreditsPosted, `ToUint128FromValue()` of
DebitsPosted and of the transfer's Amount. -/
def lineQualifies (filter : AccountTransferFilter) (balances : List AccountBalance)
    (t : AccountTransfer) : Bool :=
  !skippedPostPending filter t &&
    match balances.find? (fun b => decide (b.Timestamp = t.Timestamp)) with
    | none => false
    | some b =>
      let debits := b.DebitsPending.uint128Val.toNat + b.DebitsPosted.ToUint128FromValue.toNat
      let credits := b.CreditsPosted.uint128Val.toNat
      let amount := t.Amount.ToUint128FromValue.toNat
      decide (debits ≤ 2 ^ 128 - 1) && decide (debits ≤ credits) &&
        (if debitDirection filter t then decide (credits - debits + amount ≤ 2 ^ 128 - 1)
         else decide (amount ≤ credits - debits))

/-- The line carries its transfer's id, account ids, user data, timestamp, ledger, code
and flags. -/
def carriesTransfer {α : Type} (t : AccountTransfer) (s : AccountStatement α) : Prop :=
  s.ID = t.ID ∧ s.DebitAccountID = t.DebitAccountID ∧ s.CreditAccountID = t.CreditAccountID ∧
  s.UserData128 = t.UserData128 ∧ s.UserData64 = t.UserData64 ∧ s.UserData32 = t.UserData32 ∧
  s.Timestamp = t.Timestamp ∧ s.Ledger = t.Ledger ∧ s.Code = t.Code ∧ s.Flags = t.Flags

/-- A transfer of 500 from account 1 to account 2 at timestamp 30 that carries both the
post-pending and the void-pending flag. -/
def postAndVoidTransfer : TBTransfer :=
  { ID := ⟨0, 9⟩, DebitAccountID := ⟨0, 1⟩, CreditAccountID := ⟨0, 2⟩, Amount := ⟨0, 500⟩,
    PendingID := ⟨0, 6⟩, UserData128 := ⟨0, 0⟩, UserData64 := 0, UserData32 := 0, Timeout := 0,
    Ledger := 1, Code := 1,
    Flags := { noFlags with PostPendingTransfer := true, VoidPendingTransfer := true },
    Timestamp := 30 }

/-- A post-pending transfer of 500 from account 1 to account 2 at timestamp 30. -/
def postedTransfer : TBTransfer :=
  { ID := ⟨0, 10⟩, DebitAccountID := ⟨0, 1⟩, CreditAccountID := ⟨0, 2⟩, Amount := ⟨0, 500⟩,
    PendingID := ⟨0, 6⟩, UserData128 := ⟨0, 0⟩, UserData64 := 0, UserData32 := 0, Timeout := 0,
    Ledger := 1, Code := 1, Flags := { noFlags with PostPendingTransfer := true },
    Timestamp := 30 }

/-- A second balance snapshot at timestamp 10, with 2000 posted credits and no debits. -/
def otherSnapshot : TBAccountBalance :=
  { DebitsPending := ⟨0, 0⟩, DebitsPosted := ⟨0, 0⟩, CreditsPending := ⟨0, 0⟩,
    CreditsPosted := ⟨0, 2000⟩, Timestamp := 10 }

/-! ### More float64 operations -/

namespace Float64

/-- The float64 negation `-a`. -/
def neg : Float64 → Float64
  | .nan => .nan
  | .inf s => .inf (!s)
  | .fin s m e => .fin (!s) m e

/-- The float64 sum `a + b`: the exact sum rounded to nearest, ties to even. -/
def add : Float64 → Float64 → Float64
  | .nan, _ => .nan
  | _, .nan => .nan
  | .inf a, .inf b => if a = b then .inf a else .nan
  | .inf a, .fin _ _ _ => .inf a
  | .fin _ _ _, .inf b => .inf b
  | .fin a m e, .fin b n f =>
    let x := min e f
    let p := m * 2 ^ (e - x).toNat
    let q := n * 2 ^ (f - x).toNat
    if a = b then round64 a (p + q) x
    else if q ≤ p then round64 (a && decide (q < p)) (p - q) x
    else round64 b (q - p) x

/-- The float64 difference `a - b`. -/
def sub (a b : Float64) : Float64 := add a (neg b)

/-- The float64 quotient `a / b`: the exact quotient rounded to nearest, ties to even.
The quotient of the significands is taken with at least 55 bits and a sticky bit for a
non-zero remainder, which rounds like the exact quotient. -/
def div : Float64 → Float64 → Float64
  | .nan, _ => .nan
  | _, .nan => .nan
  | .inf _, .inf _ => .nan
  | .inf a, .fin b _ _ => .inf (a != b)
  | .fin a _ _, .inf b => .fin (a != b) 0 0
  | .fin a m e, .fin b n f =>
    if n = 0 then (if m = 0 then .nan else .inf (a != b))
    else if m = 0 then .fin (a != b) 0 0
    else
      let k := natBitLen n + 55 - natBitLen m
      let q := m * 2 ^ k / n
      let sticky := if m * 2 ^ k % n = 0 then 0 else 1
      round64 (a != b) (2 * q + sticky) (e - f - (k : Int) - 1)

/-- The float64 comparison `f == 0`. -/
def eqZero : Float64 → Bool
  | .fin _ m _ => decide (m = 0)
  | _ => false

/-- Conversion `float64(n)` of an `int64`. -/
def ofInt64 (n : Int) : Float64 := round64 (decide (n < 0)) n.natAbs 0

/-- The result of converting to `int64` a value that `int64` cannot represent (also NaN).
Go leaves it implementation-specific; this is the amd64 result. -/
def int64OutOfRange : Int := -(2 ^ 63)

/-- Conversion `int64(f)`: truncation toward zero. -/
def toInt64 : Float64 → Int
  | .fin s m e =>
    let t := if 0 ≤ e then m * 2 ^ e.toNat else m / 2 ^ (-e).toNat
    if s then (if t ≤ 2 ^ 63 then -(t : Int) else int64OutOfRange)
    else if t < 2 ^ 63 then (t : Int) else int64OutOfRange
  | _ => int64OutOfRange

end Float64

/-! ### big.Float (`math/big`)

A finite `*big.Float`: its precision in bits and its value `(-1)^neg * m * 2^e`, rounded
to nearest even (the default mode). Each setter and operation keeps the receiver's
precision when it is not 0 and otherwise chooses one as documented; the exponent range
of `big.Float` is far beyond any value of the package and is not modelled. -/

/-- A finite big.Float. -/
structure BigFloat where
  prec : Nat
  neg : Bool
  m : Nat
  e : Int
  deriving DecidableEq, Repr

/-- The magnitude `m * 2^e` rounded to `prec` bits, ties to even. -/
def BigFloat.roundMag (prec : Nat) (m : Nat) (e : Int) : Nat × Int :=
  if natBitLen m ≤ prec then (m, e)
  else
    let s := natBitLen m - prec
    let hi := m / 2 ^ s
    let lo := m % 2 ^ s
    let half := 2 ^ (s - 1)
    (if lo > half ∨ (lo = half ∧ hi % 2 = 1) then hi + 1 else hi, e + (s : Int))

/-- The value `(-1)^neg * m * 2^e` as a big.Float of precision `prec`. -/
def BigFloat.round (prec : Nat) (neg : Bool) (m : Nat) (e : Int) : BigFloat :=
  let r := BigFloat.roundMag prec m e
  { prec := prec, neg := neg, m := r.1, e := r.2 }

/-- `z.SetFloat64(x)` for a finite `x`, on a receiver of precision `zprec`: "If z's
precision is 0, it is changed to 53". A non-finite `x` is never passed by the package
(`Div` rejects it first); the zero of the precision stands for it. -/
def BigFloat.SetFloat64 (zprec : Nat) (x : Float64) : BigFloat :=
  let prec := if zprec = 0 then 53 else zprec
  match x with
  | .fin s m e => BigFloat.round prec s m e
  | _ => BigFloat.round prec false 0 0

/-- `z.SetInt(x)`: "If z's precision is 0, it is changed to the larger of x.BitLen() or 64". -/
def BigFloat.SetInt (zprec : Nat) (x : Int) : BigFloat :=
  let prec := if zprec = 0 then max (bitLen x) 64 else zprec
  BigFloat.round prec (decide (x < 0)) x.natAbs 0

/-- `z.SetUint64(x)`: "If z's precision is 0, it is changed to 64". -/
def BigFloat.SetUint64 (zprec : Nat) (x : Nat) : BigFloat :=
  let prec := if zprec = 0 then 64 else zprec
  BigFloat.round prec false x 0

/-- `z.Quo(x, y)` for a non-zero `y`: "If z's precision is 0, it is changed to the larger
of x's or y's precision before the operation"; the exact quotient rounded to that
precision. A zero `y` is never passed by the package; the zero of the precision stands
for the result. -/
def BigFloat.Quo (zprec : Nat) (x y : BigFloat) : BigFloat :=
  let prec := if zprec = 0 then max x.prec y.prec else zprec
  if y.m = 0 ∨ x.m = 0 then BigFloat.round prec (x.neg != y.neg) 0 0
  else
    let k := natBitLen y.m + prec + 2 - natBitLen x.m
    let q := x.m * 2 ^ k / y.m
    let sticky := if x.m * 2 ^ k % y.m = 0 then 0 else 1
    BigFloat.round prec (x.neg != y.neg) (2 * q + sticky) (x.e - y.e - (k : Int) - 1)

/-- `x.Int(nil)`: the value truncated toward zero. -/
def BigFloat.Int (x : BigFloat) : ℤ :=
  let t := if 0 ≤ x.e then x.m * 2 ^ x.e.toNat else x.m / 2 ^ (-x.e).toNat
  if x.neg then -(t : ℤ) else (t : ℤ)

/-- `x.Float64()`: the float64 value nearest to `x`. -/
def BigFloat.Float64 (x : BigFloat) : Tbdb.Float64 := Tbdb.Float64.round64 x.neg x.m x.e

/-- The precisions of the three `*big.Float` values that one call takes from
`bigFloatPool`, in the order of the `Get()` calls. A fresh value has precision 0; a
recycled one keeps the precision of its last use, which the reset before `Put` does not
clear. -/
structure PooledPrecs where
  first : Nat
  second : Nat
  third : Nat
  deriving DecidableEq, Repr

/-- Three fresh values, as an empty pool gives. -/
def PooledPrecs.fresh : PooledPrecs := ⟨0, 0, 0⟩

/-! ### Display and division (`ledger_currency.go`) -/

/-- The Go result pair `(Uint128, error)` of a result: every failing return of the
package returns `Uint128{}` with its error. -/
def goPair (r : Except Err Uint128) : Uint128 × Option Err :=
  match r with
  | .ok u => (u, none)
  | .error e => (Uint128.zero, some e)

/-- Conversion of an integer to `int64`, wrapping around as Go does. -/
def wrapInt64 (x : Int) : Int := (x + 2 ^ 63) % 2 ^ 64 - 2 ^ 63

/-- Adds thousand separators to an integer value: formatWithCommas. -/
def formatWithCommas (value : Int) : List Nat :=
  let str := fmtInt value
  if str.length ≤ 3 then str
  else
    str.enum.foldl (fun result p =>
      let result := if p.1 > 0 ∧ (str.length - p.1) % 3 = 0 then result ++ [44] else result
      result ++ [p.2]) []

/-- Formats a float64 value as a currency string with thousand separators:
formatCurrency. -/
def formatCurrency (value : Float64) (decimal : Nat) : List Nat :=
  if Float64.IsInf value || Float64.IsNaN value then bytes "0"
  else
    let intPart := Float64.toInt64 value
    let fracPart := Float64.sub value (Float64.ofInt64 intPart)
    let intStr := formatWithCommas intPart
    if decimal = 0 then intStr
    else
      let scale := scaleFromDecimals decimal
      let fracScaled :=
        Float64.toInt64 (Float64.Round (Float64.mul fracPart (Float64.ofUint64 scale)))
      let carry : Bool := decide (fracScaled ≥ wrapInt64 scale)
      let intPart := if carry then wrapInt64 (intPart + 1) else intPart
      let fracScaled := if carry then 0 else fracScaled
      let intStr := if carry then formatWithCommas intPart else intStr
      let fracStr := fmtInt fracScaled
      intStr ++ [46] ++ List.replicate (decimal - fracStr.length) 48 ++ fracStr

/-- Converts the raw Uint128 to the human-readable float64: Uint128ToFloat64. The
`pool` gives the precisions of the pooled big.Float values of the slow path. -/
def amountCurrency.Uint128ToFloat64 (a : amountCurrency) (pool : PooledPrecs) : Float64 :=
  let val := a.uint128Val
  let bigInt := val.BigInt
  if bigSign bigInt = 0 then Float64.zero
  else
    let scale := scaleFromDecimals a.curr.decimal
    if isUint64 bigInt then
      let intVal := bigUint64 bigInt
      if a.curr.decimal = 0 then Float64.ofUint64 intVal
      else if a.curr.decimal = 1 then
        Float64.div (Float64.ofUint64 intVal) (Float64.ofUint64 10)
      else if a.curr.decimal = 2 then
        Float64.div (Float64.ofUint64 intVal) (Float64.ofUint64 100)
      else if a.curr.decimal = 6 then
        Float64.div (Float64.ofUint64 intVal) (Float64.ofUint64 1000000)
      else if a.curr.decimal = 8 then
        Float64.div (Float64.ofUint64 intVal) (Float64.ofUint64 100000000)
      else if a.curr.decimal = 18 then
        Float64.div (Float64.ofUint64 intVal) (Float64.ofUint64 1000000000000000000)
      else Float64.div (Float64.ofUint64 intVal) (Float64.ofUint64 scale)
    else
      let floatVal := BigFloat.SetInt pool.first bigInt
      let scaleFloat := BigFloat.SetUint64 pool.second scale
      let result := BigFloat.Quo pool.third floatVal scaleFloat
      result.Float64

/-- Formats the raw amount as a complete currency string: Uint128ToString. -/
def amountCurrency.Uint128ToString (a : amountCurrency) (pool : PooledPrecs) : List Nat :=
  let val := a.uint128Val
  let bigInt := val.BigInt
  if bigSign bigInt = 0 then
    a.curr.code ++ [32] ++ [48] ++
      (if a.curr.decimal > 0 then [46] ++ List.replicate a.curr.decimal 48 else [])
  else
    let humanValue := a.Uint128ToFloat64 pool
    a.curr.code ++ [32] ++ formatCurrency humanValue a.curr.decimal

/-- Divides the raw amount by a floating-point divisor: Div, with its Go result pair.
The `pool` gives the precisions of the pooled big.Float values. -/
def amountCurrency.Div (a : amountCurrency) (divisor : Float64) (pool : PooledPrecs) :
    Uint128 × Option Err :=
  if Float64.eqZero divisor || Float64.IsInf divisor || Float64.IsNaN divisor then
    (Uint128.zero, some .invalidDivisor)
  else
    let amount := a.uint128Val
    let amountBigInt := amount.BigInt
    let divisorBig := BigFloat.SetFloat64 pool.first divisor
    let amountFloat := BigFloat.SetInt pool.second amountBigInt
    let result := BigFloat.Quo pool.third amountFloat divisorBig
    let resultInt := result.Int
    if bigSign resultInt < 0 then (Uint128.zero, some .ErrNegativeOrNilBigInt)
    else goPair (Uint128FromBigInt (some resultInt))

/-- The spec's rounding of a non-negative `m * 2^e` half away from zero:
`⌊m * 2^e + 1/2⌋`. -/
def roundHalfAwayMag (m : Nat) (e : Int) : Nat :=
  if 0 ≤ e then m * 2 ^ e.toNat
  else (2 * m + 2 ^ (-e).toNat) / 2 ^ ((-e).toNat + 1)


/-- The three decimal digits of `x < 1000`, zero-padded. -/
def threeDigits (x : Nat) : List Nat := [48 + x / 100, 48 + x / 10 % 10, 48 + x % 10]

/-- The spec's grouping of a natural number: its decimal digits in groups of three from
the right, separated by commas. The first argument is fuel. -/
def groupThousandsAux : Nat → Nat → List Nat
  | 0, n => fmtInt n
  | fuel + 1, n =>
    if n < 1000 then fmtInt n
    else groupThousandsAux fuel (n / 1000) ++ [44] ++ threeDigits (n % 1000)

/-- The spec's grouping of `n` with commas. -/
def groupThousands (n : Nat) : List Nat := groupThousandsAux n n

/-- The loop of formatWithCommas from index `i` on, for a string of length `len`. -/
def commaSpread (len : Nat) : Nat → List Nat → List Nat
  | _, [] => []
  | i, x :: xs =>
    (if i > 0 ∧ (len - i) % 3 = 0 then [44, x] else [x]) ++ commaSpread len (i + 1) xs


/-- The spec's display of the raw amount `r` in the currency `c`: the code, a space, the
integer part `r div 10^d` grouped in threes and, when `d > 0`, a `.` and `r mod 10^d`
zero-padded to `d` digits. -/
def displaySpec (c : currency) (r : Nat) : List Nat :=
  let frac := fmtInt ((r % 10 ^ c.decimal : Nat) : Int)
  c.code ++ [32] ++ groupThousands (r / 10 ^ c.decimal) ++
    (if c.decimal > 0 then [46] ++ List.replicate (c.decimal - frac.length) 48 ++ frac
     else [])


/-- The spec's logical value of a little-endian buffer: the sum of `b[i] * 256^i`. -/
def leSum (b : List Nat) : Nat := (b.enum.map (fun p => p.2 * 256 ^ p.1)).sum


/-! ### Reference notions for the ledger-code claims -/

/-- The spec's value of a character in a slot: 0..9 for a digit, 10..35 for a letter
`A`..`Z`, 0 for any other character. -/
def slotValue (ch : Nat) : Nat :=
  if 48 ≤ ch ∧ ch ≤ 57 then ch - 48
  else if 65 ≤ ch ∧ ch ≤ 90 then ch - 65 + 10
  else 0

/-- The spec's slot `i` of a code: the value of its `i`-th character, 0 for a position
past the end of the code. -/
def specSlot (code : List Nat) (i : Nat) : Nat :=
  match code[i]? with
  | some ch => slotValue ch
  | none => 0

/-- The standard 32-bit FNV-1a hash of a byte string: from the offset basis 2166136261,
for each byte, xor the byte in and multiply by the prime 16777619 modulo `2^32`. -/
def fnv1a32 (bs : List Nat) : Nat :=
  bs.foldl (fun h b => ((h ^^^ b) * 16777619) % 2 ^ 32) 2166136261


/-! ## Currency construction (`NewCurrency`, with `strings.TrimSpace` and
`strings.ToUpper`) -/

/-- The table `asciiSpace` of package strings: tab, line feed, vertical tab, form feed,
carriage return and space. -/
def asciiSpace (c : Nat) : Bool :=
  decide (c = 9 ∨ c = 10 ∨ c = 11 ∨ c = 12 ∨ c = 13 ∨ c = 32)

/-- `unicode.IsSpace`: the white space of Latin-1 and the Unicode property White_Space. -/
def isSpaceRune (r : Nat) : Bool :=
  decide ((9 ≤ r ∧ r ≤ 13) ∨ r = 32 ∨ r = 0x85 ∨ r = 0xA0 ∨ r = 0x1680 ∨
    (0x2000 ≤ r ∧ r ≤ 0x200A) ∨ r = 0x2028 ∨ r = 0x2029 ∨ r = 0x202F ∨ r = 0x205F ∨
    r = 0x3000)

/-- `utf8.RuneStart`: the byte is not a continuation byte. -/
def runeStart (b : Nat) : Bool := decide (b / 64 % 4 ≠ 2)

/-- `utf8.DecodeLastRuneInString`: the last rune of `s` and its width, U+FFFD of width 1
for an invalid encoding and of width 0 for the empty string. -/
def decodeLastRune (s : List Nat) : Nat × Nat :=
  let stop := s.length
  if stop = 0 then (0xFFFD, 0)
  else
    let last := s.getD (stop - 1) 0
    if last < 0x80 then (last, 1)
    else
      let lim := stop - 4
      let start :=
        if stop ≥ 2 ∧ runeStart (s.getD (stop - 2) 0) then stop - 2
        else if stop ≥ 3 ∧ runeStart (s.getD (stop - 3) 0) then stop - 3
        else if stop ≥ 4 ∧ runeStart (s.getD (stop - 4) 0) then stop - 4
        else lim - 1
      let d := decodeRune (s.drop start)
      if start + d.2 ≠ stop then (0xFFFD, 1) else d

/-- `strings.TrimLeftFunc(s, unicode.IsSpace)`: the leading white-space runes dropped;
the first argument is fuel. -/
def trimLeftSpace : Nat → List Nat → List Nat
  | 0, s => s
  | fuel + 1, s =>
    match s with
    | [] => []
    | _ :: _ =>
      let d := decodeRune s
      if isSpaceRune d.1 then trimLeftSpace fuel (s.drop d.2) else s

/-- The loop `lastIndexFunc(s, unicode.IsSpace, false)`: the index where the last rune
that is not white space starts, looking at `s[0:i]`; `none` is the result -1. The first
argument is fuel. -/
def lastIndexNotSpace : Nat → List Nat → Nat → Option Nat
  | 0, _, _ => none
  | fuel + 1, s, i =>
    if i = 0 then none
    else
      let d := decodeLastRune (s.take i)
      let i := i - d.2
      if isSpaceRune d.1 then lastIndexNotSpace fuel s i else some i

/-- `strings.TrimRightFunc(s, unicode.IsSpace)`. -/
def trimRightSpace (s : List Nat) : List Nat :=
  match lastIndexNotSpace s.length s s.length with
  | some i =>
    if s.getD i 0 ≥ 0x80 then s.take (i + (decodeRune (s.drop i)).2) else s.take (i + 1)
  | none => s.take 0

/-- `strings.TrimSpace`: leading and trailing white space removed, as defined by
Unicode; ASCII white space is stripped byte by byte and the first byte that is not
ASCII hands over to the rune-wise functions. -/
def TrimSpace (s : List Nat) : List Nat :=
  let t := s.dropWhile asciiSpace
  match t with
  | [] => []
  | c :: _ =>
    if c ≥ 0x80 then trimRightSpace (trimLeftSpace t.length t)
    else
      let u := t.reverse.dropWhile asciiSpace
      match u with
      | [] => []
      | c :: _ => if c ≥ 0x80 then trimRightSpace u.reverse else u.reverse

/-- `utf8.AppendRune`: the UTF-8 encoding of a rune, that of U+FFFD for a surrogate or
a value out of range. -/
def utf8Encode (r : Nat) : List Nat :=
  if r < 0x80 then [r]
  else if r < 0x800 then [0xC0 + r / 64, 0x80 + r % 64]
  else if (0xD800 ≤ r ∧ r ≤ 0xDFFF) ∨ 0x10FFFF < r then [0xEF, 0xBF, 0xBD]
  else if r < 0x10000 then [0xE0 + r / 4096, 0x80 + r / 64 % 64, 0x80 + r % 64]
  else [0xF0 + r / 262144, 0x80 + r / 4096 % 64, 0x80 + r / 64 % 64, 0x80 + r % 64]

/-- The upper case of an ASCII byte: `a`..`z` become `A`..`Z`. -/
def upperASCII (c : Nat) : Nat := if 97 ≤ c ∧ c ≤ 122 then c - 32 else c

/-- `unicode.ToUpper`: computed for ASCII, looked up in the case tables of package
unicode otherwise; the tables are the parameter `caseTable`. -/
def unicodeToUpper (caseTable : Nat → Nat) (r : Nat) : Nat :=
  if r ≤ 0x7F then upperASCII r else caseTable r

/-- `strings.ToUpper`: byte by byte on an ASCII string, and otherwise
`strings.Map(unicode.ToUpper, s)`, which writes the encoding of the mapped rune of every
rune of `s` (U+FFFD for an invalid byte). -/
def ToUpper (caseTable : Nat → Nat) (s : List Nat) : List Nat :=
  if s.all (fun c => decide (c < 0x80)) then s.map upperASCII
  else (runes s).flatMap (fun r => utf8Encode (unicodeToUpper caseTable r))

/-- `minCurrencyCodeChar`. -/
def minCurrencyCodeChar : Nat := 1
/-- `maxCurrencyCodeChar`. -/
def maxCurrencyCodeChar : Nat := 6
/-- `maxDecimal`. -/
def maxDecimal : Nat := 99

/-- Creates a new currency without validation: newCurrency. -/
def newCurrency (caseTable : Nat → Nat) (code : List Nat) (decimal : Nat) : currency :=
  let code := ToUpper caseTable (TrimSpace code)
  { code := code, decimal := decimal }

/-- NewCurrency creates a new currency with validation. -/
def NewCurrency (caseTable : Nat → Nat) (code : List Nat) (decimal : Nat) :
    Except Err currency :=
  if decimal > maxDecimal then .error .unsupportedDecimal
  else
    let codelen := (TrimSpace code).length
    if codelen < minCurrencyCodeChar ∨ codelen > maxCurrencyCodeChar then
      .error .unsupportedCodeLength
    else .ok (newCurrency caseTable code decimal)


/-- The spec's trimming of an ASCII string: the white space at both ends removed. -/
def trimSpec (s : List Nat) : List Nat :=
  ((s.dropWhile asciiSpace).reverse.dropWhile asciiSpace).reverse


/-! ## Requests to the ledger (`tbdb.go`, `transfer.go`, `account.go`)

The ledger client is the interface `tb.Client` of the TigerBeetle library: its two
creation calls are functions from the submitted batch to the reply, the list of the
failed events with their index and result code. Every function that can reach the
ledger returns, next to its Go result, the list of the batches it has submitted, in
order; nothing is created in the ledger without a submitted batch. -/

/-- The account flags: AccountFlags. -/
structure AccountFlags where
  Linked : Bool
  DebitsMustNotExceedCredits : Bool
  CreditsMustNotExceedDebits : Bool
  History : Bool
  Imported : Bool
  Closed : Bool
  deriving DecidableEq, Repr

/-- An account record as submitted to the ledger (`types.Account`); its balances are
zero in every request of the package and are left out. -/
structure TBAccount where
  ID : Uint128
  UserData128 : Uint128
  UserData64 : Nat
  UserData32 : Nat
  Ledger : Nat
  Code : Nat
  Flags : AccountFlags
  Timestamp : Nat
  deriving DecidableEq, Repr

/-- One entry of a reply of the ledger: the index of a failed event and its result
code (`types.AccountEventResult`, `types.TransferEventResult`). -/
structure TBEventResult where
  Index : Nat
  Result : Nat
  deriving DecidableEq, Repr

/-- The client `tb.Client`, reduced to the two calls the modelled functions make. -/
structure Client where
  CreateAccounts : List TBAccount → Except Err (List TBEventResult)
  CreateTransfers : List TBTransfer → Except Err (List TBEventResult)

/-- The part of Instance the modelled functions read. The helper validateClient is not
among the sources: the result of `i.Client()` is taken as given. -/
structure Instance where
  Client : Except Err Client

/-- `types.TransferOK` and `types.AccountOK`. -/
def resultOK : Nat := 0

/-- `types.AccountExists`. -/
def AccountExists : Nat := 21

/-- TransferData defines transfer argument for create TigerBeetle's transfer event.
The interface values `Amount` and `Ledger` may be nil. -/
structure TransferData where
  ID : Uint128
  DebitAccountID : Uint128
  CreditAccountID : Uint128
  Amount : Option amountCurrency
  UserData128 : Uint128
  UserData64 : Nat
  UserData32 : Nat
  Ledger : Option currency
  flags : TransferFlags
  pendingID : Uint128
  code : Nat
  timeout : Nat
  timestamp : Nat
  deriving DecidableEq, Repr

/-- TransferEventResult defines result data for create transfer event. -/
structure TransferEventResult where
  Index : Nat
  ID : Uint128
  Result : Nat
  Err : Option Err
  deriving DecidableEq, Repr

/-- TransferEventResults defines result data for create transfer batch event. -/
structure TransferEventResults where
  SuccessCount : Int
  FailedCount : Int
  Results : List TransferEventResult
  deriving DecidableEq, Repr

/-- One iteration of the conversion loop of doTransfers: the identifier kept for the
result and the record appended to the batch. `newID idx` is the value `NewID()` returns
in iteration `idx`. A nil `Amount` panics. -/
def TransferData.toLedger (newID : Nat → Uint128) (idx : Nat) (transfer : TransferData) :
    Except Err (Uint128 × TBTransfer) :=
  let id := if transfer.ID.IsZero then newID idx else transfer.ID
  let ledger :=
    match transfer.Ledger with
    | some l => l.EncodeLedger
    | none => 0
  match transfer.Amount with
  | none => .error .panicNilPointer
  | some amount =>
    .ok (id,
      { ID := id
        DebitAccountID := transfer.DebitAccountID
        CreditAccountID := transfer.CreditAccountID
        Amount := amount.ToUint128FromValue
        PendingID := transfer.pendingID
        UserData128 := transfer.UserData128
        UserData64 := transfer.UserData64
        UserData32 := transfer.UserData32
        Timeout := transfer.timeout
        Ledger := ledger
        Code := transfer.code
        Flags := transfer.flags
        Timestamp := transfer.timestamp })

/-- The conversion loop of doTransfers from index `idx` on. -/
def toLedgerTransfers (newID : Nat → Uint128) :
    Nat → List TransferData → Except Err (List (Uint128 × TBTransfer))
  | _, [] => .ok []
  | idx, transfer :: rest =>
    match transfer.toLedger newID idx with
    | .error e => .error e
    | .ok r =>
      match toLedgerTransfers newID (idx + 1) rest with
      | .error e => .error e
      | .ok rs => .ok (r :: rs)

/-- The last loop of doTransfers: the results of the failed transfers replace the
successful ones. -/
def updateTransferResults (countTransfer : Nat) (generatedIDs : List Uint128)
    (result : TransferEventResults) (tbResults : List TBEventResult) : TransferEventResults :=
  tbResults.foldl (fun result tbResult =>
    if tbResult.Index < countTransfer then
      let failed := decide (tbResult.Result ≠ resultOK)
      let resultErr := if failed then some (Err.creationFailed tbResult.Result) else none
      let errCount : Int := if failed then 1 else 0
      { SuccessCount := result.SuccessCount - errCount
        FailedCount := result.FailedCount + errCount
        Results := result.Results.set tbResult.Index
          { Index := tbResult.Index
            ID := generatedIDs.getD tbResult.Index Uint128.zero
            Result := tbResult.Result
            Err := resultErr } }
    else result) result

/-- The function doTransfers: its Go result and the batches it submits to the ledger. -/
def Instance.doTransfers (i : Instance) (newID : Nat → Uint128)
    (transfers : List TransferData) :
    Except Err TransferEventResults × List (List TBTransfer) :=
  let countTransfer := transfers.length
  if countTransfer = 0 then (.error .noTransfersGiven, [])
  else
    match i.Client with
    | .error err => (.error err, [])
    | .ok cln =>
      match toLedgerTransfers newID 0 transfers with
      | .error e => (.error e, [])
      | .ok built =>
        let tbTransfers := built.map Prod.snd
        let generatedIDs := built.map Prod.fst
        match cln.CreateTransfers tbTransfers with
        | .error err => (.error err, [tbTransfers])
        | .ok tbResults =>
          let result : TransferEventResults :=
            { SuccessCount := countTransfer
              FailedCount := 0
              Results := generatedIDs.enum.map (fun p =>
                { Index := p.1, ID := p.2, Result := resultOK, Err := none }) }
          (.ok (updateTransferResults countTransfer generatedIDs result tbResults),
            [tbTransfers])

/-- `ResolvePendingStatePost`. -/
def ResolvePendingStatePost : Nat := 1
/-- `ResolvePendingStateVoid`. -/
def ResolvePendingStateVoid : Nat := 2

/-- PendingTransfer defines pending transfer data to be resolved. -/
structure PendingTransfer where
  ID : Uint128
  PendingID : Uint128
  Amount : Option amountCurrency
  UserData32 : Nat
  State : Nat
  deriving DecidableEq, Repr

/-- The zero value of TransferFlags. -/
def TransferFlags.zero : TransferFlags :=
  ⟨false, false, false, false, false, false, false, false, false⟩

/-- The `if` of the loop of ResolvePendingTransfers: the update of the variable `flags`
for one entry. -/
def resolveFlags (flags : TransferFlags) (pending : PendingTransfer) : TransferFlags :=
  if pending.State = ResolvePendingStatePost then
    ⟨flags.Linked, flags.Pending, true, flags.VoidPendingTransfer, flags.BalancingDebit,
      flags.BalancingCredit, flags.ClosingDebit, flags.ClosingCredit, flags.Imported⟩
  else
    ⟨flags.Linked, flags.Pending, flags.PostPendingTransfer, true, flags.BalancingDebit,
      flags.BalancingCredit, flags.ClosingDebit, flags.ClosingCredit, flags.Imported⟩

/-- The loop of ResolvePendingTransfers; `flags` is the variable declared before the
loop, which every iteration updates and copies into the transfer it appends. -/
def resolvePendingLoop : TransferFlags → List PendingTransfer → List TransferData
  | _, [] => []
  | flags, pending :: rest =>
    let flags := resolveFlags flags pending
    { ID := pending.ID
      DebitAccountID := Uint128.zero
      CreditAccountID := Uint128.zero
      Amount := pending.Amount
      UserData128 := Uint128.zero
      UserData64 := 0
      UserData32 := pending.UserData32
      Ledger := none
      flags := flags
      pendingID := pending.PendingID
      code := 0
      timeout := 0
      timestamp := 0 } :: resolvePendingLoop flags rest

/-- ResolvePendingTransfers resolves pending transfers based on given state, either
posted or voided. -/
def Instance.ResolvePendingTransfers (i : Instance) (newID : Nat → Uint128)
    (pendings : List PendingTransfer) :
    Except Err TransferEventResults × List (List TBTransfer) :=
  let transfers := resolvePendingLoop TransferFlags.zero pendings
  i.doTransfers newID transfers


/-- A client whose ledger accepts every event. -/
def acceptingClient : Client := ⟨fun _ => .ok [], fun _ => .ok []⟩

/-- An instance with an open connection to such a ledger. -/
def openInstance : Instance := ⟨.ok acceptingClient⟩

/-- Two pending transfers to resolve: the first to post, the second to void. -/
def postThenVoid : List PendingTransfer :=
  [ ⟨⟨0, 21⟩, ⟨0, 11⟩, some IDR.NewMonetary, 0, ResolvePendingStatePost⟩,
    ⟨⟨0, 22⟩, ⟨0, 12⟩, some IDR.NewMonetary, 0, ResolvePendingStateVoid⟩ ]


/-! ### Account creation (`account.go`) -/

/-- `AccountCategoryControl`. -/
def AccountCategoryControl : Nat := 1000
/-- `AccountCategoryBalance`. -/
def AccountCategoryBalance : Nat := 1001
/-- `AccountCategoryIncome`. -/
def AccountCategoryIncome : Nat := 1002
/-- `AccountCategoryLiabilities`. -/
def AccountCategoryLiabilities : Nat := 1003
/-- `AccountCategoryTesting`. -/
def AccountCategoryTesting : Nat := 9999

/-- CreateAccount defines account argument for create single account event. The
interface value `Ledger` may be nil. -/
structure CreateAccount where
  ID : Uint128
  UserData128 : Uint128
  UserData64 : Nat
  UserData32 : Nat
  Ledger : Option currency
  deriving DecidableEq, Repr

/-- CreateAccounts defines account argument for create many account event. -/
structure CreateAccounts extends CreateAccount where
  Code : Nat
  Flags : AccountFlags
  Timestamp : Nat
  deriving DecidableEq, Repr

/-- AccountEventResult defines result data for create single account event. -/
structure AccountEventResult where
  Index : Nat
  ID : Uint128
  Result : Nat
  Err : Option Err
  deriving DecidableEq, Repr

/-- AccountEventResults defines result data for create many account event. -/
structure AccountEventResults where
  SuccessCount : Int
  FailedCount : Int
  Results : List AccountEventResult
  deriving DecidableEq, Repr

/-- The zero value `CreateAccount{}`. -/
def CreateAccount.zero : CreateAccount := ⟨Uint128.zero, Uint128.zero, 0, 0, none⟩

/-- The zero value `AccountFlags{}`. -/
def AccountFlags.zero : AccountFlags := ⟨false, false, false, false, false, false⟩

/-- One iteration of the conversion loop of CreateAccountBatch. `newID idx` is the value
`NewID()` returns in iteration `idx`. A nil `Ledger` panics. -/
def CreateAccounts.toLedger (newID : Nat → Uint128) (idx : Nat) (account : CreateAccounts) :
    Except Err (Uint128 × TBAccount) :=
  let id := if account.ID.IsZero then newID idx else account.ID
  match account.Ledger with
  | none => .error .panicNilPointer
  | some l =>
    .ok (id,
      { ID := id
        UserData128 := account.UserData128
        UserData64 := account.UserData64
        UserData32 := account.UserData32
        Ledger := l.EncodeLedger
        Code := account.Code
        Flags := account.Flags
        Timestamp := account.Timestamp })

/-- The conversion loop of CreateAccountBatch from index `idx` on. -/
def toLedgerAccounts (newID : Nat → Uint128) :
    Nat → List CreateAccounts → Except Err (List (Uint128 × TBAccount))
  | _, [] => .ok []
  | idx, account :: rest =>
    match account.toLedger newID idx with
    | .error e => .error e
    | .ok r =>
      match toLedgerAccounts newID (idx + 1) rest with
      | .error e => .error e
      | .ok rs => .ok (r :: rs)

/-- The last loop of CreateAccountBatch: the results of the failed accounts replace the
successful ones; an account that exists already does not count as failed. -/
def updateAccountResults (countAccount : Nat) (generatedIDs : List Uint128)
    (result : AccountEventResults) (tbResults : List TBEventResult) : AccountEventResults :=
  tbResults.foldl (fun result tbResult =>
    if tbResult.Index < countAccount then
      let failed := decide (tbResult.Result ≠ resultOK ∧ tbResult.Result ≠ AccountExists)
      let resultErr := if failed then some (Err.creationFailed tbResult.Result) else none
      let errCount : Int := if failed then 1 else 0
      { SuccessCount := result.SuccessCount - errCount
        FailedCount := result.FailedCount + errCount
        Results := result.Results.set tbResult.Index
          { Index := tbResult.Index
            ID := generatedIDs.getD tbResult.Index Uint128.zero
            Result := tbResult.Result
            Err := resultErr } }
    else result) result

/-- CreateAccountBatch wraps the ledger's CreateAccounts call: its Go result and the
batches it submits to the ledger. -/
def Instance.CreateAccountBatch (i : Instance) (newID : Nat → Uint128)
    (accounts : List CreateAccounts) :
    Except Err AccountEventResults × List (List TBAccount) :=
  let countAccount := accounts.length
  if countAccount = 0 then (.error .noAccountsGiven, [])
  else
    match i.Client with
    | .error err => (.error err, [])
    | .ok cln =>
      match toLedgerAccounts newID 0 accounts with
      | .error e => (.error e, [])
      | .ok built =>
        let tbAccounts := built.map Prod.snd
        let generatedIDs := built.map Prod.fst
        match cln.CreateAccounts tbAccounts with
        | .error err => (.error err, [tbAccounts])
        | .ok tbResults =>
          let result : AccountEventResults :=
            { SuccessCount := countAccount
              FailedCount := 0
              Results := generatedIDs.enum.map (fun p =>
                { Index := p.1, ID := p.2, Result := resultOK, Err := none }) }
          (.ok (updateAccountResults countAccount generatedIDs result tbResults),
            [tbAccounts])

/-- CreateAccount creates a single account: its Go result and the batches it submits. -/
def Instance.CreateAccount (i : Instance) (newID : Nat → Uint128) (account : CreateAccount)
    (code : Nat) (flags : AccountFlags) :
    Except Err AccountEventResult × List (List TBAccount) :=
  if account = CreateAccount.zero then (.error .accountEmpty, [])
  else if flags.DebitsMustNotExceedCredits ∧ flags.CreditsMustNotExceedDebits then
    (.error .flagsMutuallyExclusive, [])
  else if code = 0 then (.error .codeZero, [])
  else
    let flags : AccountFlags :=
      ⟨false, flags.DebitsMustNotExceedCredits, flags.CreditsMustNotExceedDebits,
        flags.History, false, flags.Closed⟩
    let r := i.CreateAccountBatch newID
      [{ toCreateAccount := account, Code := code, Flags := flags, Timestamp := 0 }]
    match r.1 with
    | .error err => (.error err, r.2)
    | .ok result =>
      match result.Results with
      | [] => (.error .emptyResults, r.2)
      | first :: _ => (.ok first, r.2)

/-- The loop of CreateAccountsWithCategory that builds the linked batch: every account
but the last carries the Linked flag. -/
def linkedBatch (category : Nat) (flags : AccountFlags) (count : Nat) :
    Nat → List CreateAccount → List CreateAccounts
  | _, [] => []
  | idx, account :: rest =>
    let linked := if idx = count - 1 then false else true
    { toCreateAccount := account
      Code := category
      Flags := ⟨linked, flags.DebitsMustNotExceedCredits, flags.CreditsMustNotExceedDebits,
        flags.History, flags.Imported, flags.Closed⟩
      Timestamp := 0 } :: linkedBatch category flags count (idx + 1) rest

/-- CreateAccountsWithCategory creates accounts with a built-in category: its Go result
and the batches it submits to the ledger. -/
def Instance.CreateAccountsWithCategory (i : Instance) (newID : Nat → Uint128)
    (category : Nat) (accounts : List Tbdb.CreateAccount) :
    Except Err AccountEventResults × List (List TBAccount) :=
  if accounts.length = 0 then (.error .atLeastOneAccount, [])
  else if category ≠ AccountCategoryControl ∧ category ≠ AccountCategoryBalance ∧
      category ≠ AccountCategoryIncome ∧ category ≠ AccountCategoryLiabilities ∧
      category ≠ AccountCategoryTesting then
    (.error .ErrUnknownCategory, [])
  else
    let flags : AccountFlags :=
      if category = AccountCategoryBalance ∨ category = AccountCategoryIncome then
        ⟨false, true, false, true, false, false⟩
      else if category = AccountCategoryTesting then
        ⟨false, false, false, false, false, false⟩
      else ⟨false, false, false, true, false, false⟩
    match accounts with
    | [account] =>
      let r := i.CreateAccount newID account category flags
      match r.1 with
      | .error err => (.error err, r.2)
      | .ok result =>
        let failed := result.Err.isSome
        (.ok { SuccessCount := if failed then 0 else 1
               FailedCount := if failed then 1 else 0
               Results := [result] }, r.2)
    | _ => i.CreateAccountBatch newID (linkedBatch category flags accounts.length 0 accounts)

/-! # Properties -/

/-! ## Byte-order lemmas -/

theorem foldl_be (xs : List Nat) (a : Nat) :
    xs.foldl (fun acc b => acc * 256 + b) a = a * 256 ^ xs.length + beVal xs := by
  induction xs generalizing a with
  | nil => simp [beVal]
  | cons x xs ih =>
    simp only [List.foldl_cons, List.length_cons, beVal]
    rw [ih (a * 256 + x), ih (0 * 256 + x)]
    ring

theorem beVal_append (xs ys : List Nat) :
    beVal (xs ++ ys) = beVal xs * 256 ^ ys.length + beVal ys := by
  unfold beVal
  rw [List.foldl_append, foldl_be]
  rfl

theorem beBytes_length (k n : Nat) : (beBytes k n).length = k := by
  induction k generalizing n with
  | zero => rfl
  | succ k ih => simp [beBytes, ih]

theorem beVal_beBytes (k n : Nat) : beVal (beBytes k n) = n % 256 ^ k := by
  induction k generalizing n with
  | zero => simp [beBytes, beVal, Nat.mod_one]
  | succ k ih =>
    rw [beBytes, beVal_append, ih]
    simp only [List.length_singleton, pow_one, beVal, List.foldl_cons, List.foldl_nil, zero_mul,
      zero_add]
    rw [pow_succ, Nat.mul_comm (256 ^ k) 256, Nat.mod_mul]
    ring

theorem beBytes_add (j k n : Nat) :
    beBytes (j + k) n = beBytes j (n / 256 ^ k) ++ beBytes k n := by
  induction k generalizing n with
  | zero => simp [beBytes]
  | succ k ih =>
    rw [← Nat.add_assoc, beBytes, beBytes, ih, List.append_assoc, Nat.div_div_eq_div_mul,
      pow_succ, Nat.mul_comm 256]

theorem leBytes_length (k n : Nat) : (leBytes k n).length = k := by
  induction k generalizing n with
  | zero => rfl
  | succ k ih => simp [leBytes, ih]

theorem leVal_leBytes (k n : Nat) : leVal (leBytes k n) = n % 256 ^ k := by
  induction k generalizing n with
  | zero => simp [leBytes, leVal, Nat.mod_one]
  | succ k ih =>
    have h := ih (n / 256)
    simp only [leVal] at h
    simp only [leBytes, leVal, List.foldr_cons, h]
    rw [pow_succ, Nat.mul_comm (256 ^ k) 256, Nat.mod_mul]

/-! ## Big-integer lemmas -/

theorem bitLenAux_le_iff (fuel n k : Nat) (h : n ≤ fuel) :
    bitLenAux fuel n ≤ k ↔ n < 2 ^ k := by
  induction fuel generalizing n k with
  | zero =>
    have : n = 0 := by omega
    subst this
    simp [bitLenAux]
  | succ fuel ih =>
    unfold bitLenAux
    by_cases hn : n = 0
    · subst hn; simp
    · rw [if_neg hn]
      cases k with
      | zero => simp; omega
      | succ k =>
        have h2 : n / 2 ≤ fuel := by omega
        rw [Nat.add_le_add_iff_right, ih (n / 2) k h2, pow_succ, Nat.div_lt_iff_lt_mul (by norm_num)]

theorem bitLen_gt_iff (n : Int) (k : Nat) : bitLen n > k ↔ 2 ^ k ≤ n.natAbs := by
  unfold bitLen natBitLen
  have := bitLenAux_le_iff n.natAbs n.natAbs k (Nat.le_refl _)
  omega

theorem Uint128.BigInt_eq (u : Uint128) (h : u.wf) : u.BigInt = (u.toNat : Int) := by
  obtain ⟨h1, h2⟩ := h
  simp only [Uint128.BigInt, Uint128.toNat, beVal_append, beVal_beBytes, beBytes_length]
  have e : (256 : Nat) ^ 8 = 2 ^ 64 := by norm_num
  rw [e, Nat.mod_eq_of_lt h1, Nat.mod_eq_of_lt h2]

theorem Uint128.toNat_lt (u : Uint128) (h : u.wf) : u.toNat < 2 ^ 128 := by
  obtain ⟨h1, h2⟩ := h
  unfold Uint128.toNat
  omega

theorem Uint128FromBigInt_ofNat (n : Nat) (h : n < 2 ^ 128) :
    Uint128FromBigInt (some (n : Int)) = .ok ⟨n / 2 ^ 64, n % 2 ^ 64⟩ := by
  have hb : ¬ bitLen (n : Int) > 128 := by
    rw [bitLen_gt_iff]; simp; omega
  have hs : beBytes 16 n = beBytes 8 (n / 256 ^ 8) ++ beBytes 8 n := beBytes_add 8 8 n
  have hl : (beBytes 8 (n / 256 ^ 8)).length = 8 := beBytes_length _ _
  simp only [Uint128FromBigInt, hb, if_false, Int.toNat_ofNat, List.drop_zero]
  have hneg : ¬ ((n : Int) < 0) := by omega
  rw [if_neg hneg, hs]
  have t1 : (beBytes 8 (n / 256 ^ 8) ++ beBytes 8 n).take 8 = beBytes 8 (n / 256 ^ 8) := by
    rw [List.take_append_of_le_length (by omega), List.take_of_length_le (by omega)]
  have t2 : ((beBytes 8 (n / 256 ^ 8) ++ beBytes 8 n).take 16).drop 8 = beBytes 8 n := by
    rw [List.take_of_length_le (by simp [beBytes_length]), List.drop_append_of_le_length (by omega),
      List.drop_of_length_le (by omega), List.nil_append]
  rw [t1, t2, beVal_beBytes, beVal_beBytes]
  have e : (256 : Nat) ^ 8 = 2 ^ 64 := by norm_num
  rw [e]
  congr 2
  apply Nat.mod_eq_of_lt
  rw [Nat.div_lt_iff_lt_mul (by norm_num)]
  omega

/-- The Uint128 with logical value `n` (for `n < 2^128`). -/
theorem Uint128.toNat_mk_divmod (n : Nat) :
    (Uint128.mk (n / 2 ^ 64) (n % 2 ^ 64)).toNat = n := by
  unfold Uint128.toNat
  simp only
  omega

theorem Uint128.wf_mk_divmod (n : Nat) (h : n < 2 ^ 128) :
    (Uint128.mk (n / 2 ^ 64) (n % 2 ^ 64)).wf := by
  unfold Uint128.wf
  simp only
  omega

theorem Uint128.eq_of_toNat_eq (u v : Uint128) (hu : u.wf) (hv : v.wf)
    (h : u.toNat = v.toNat) : u = v := by
  obtain ⟨uh, ul⟩ := u
  obtain ⟨vh, vl⟩ := v
  unfold Uint128.wf at hu hv
  unfold Uint128.toNat at h
  simp only at hu hv h
  have : uh = vh ∧ ul = vl := by omega
  rw [this.1, this.2]

/-! ## Add and Sub -/

/-- Add on well-formed operands: the exact sum when it fits in 128 bits, the overflow
error otherwise. -/
theorem amountCurrency.Add_eq (a : amountCurrency) (b : Uint128)
    (ha : a.uint128Val.wf) (hb : b.wf) :
    a.Add b =
      if a.uint128Val.toNat + b.toNat < 2 ^ 128 then
        .ok ⟨(a.uint128Val.toNat + b.toNat) / 2 ^ 64, (a.uint128Val.toNat + b.toNat) % 2 ^ 64⟩
      else .error .additionOverflow := by
  have hA := Uint128.toNat_lt _ ha
  have hB := Uint128.toNat_lt _ hb
  unfold amountCurrency.Add
  simp only [Uint128.BigInt_eq _ ha, Uint128.BigInt_eq _ hb]
  generalize a.uint128Val.toNat = A at hA ⊢
  generalize b.toNat = B at hB ⊢
  have hslow : (if bitLen ((A : Int) + (B : Int)) > 128 then Except.error Err.additionOverflow
      else Uint128FromBigInt (some ((A : Int) + (B : Int)))) =
      if A + B < 2 ^ 128 then
        (.ok ⟨(A + B) / 2 ^ 64, (A + B) % 2 ^ 64⟩ : Except Err Uint128)
      else .error .additionOverflow := by
    have hc : ((A : Int) + (B : Int)) = ((A + B : Nat) : Int) := by push_cast; rfl
    rw [hc]
    by_cases h : A + B < 2 ^ 128
    · have hb : ¬ bitLen ((A + B : Nat) : Int) > 128 := by
        rw [bitLen_gt_iff, Int.natAbs_ofNat]; omega
      rw [if_neg hb, if_pos h, Uint128FromBigInt_ofNat _ h]
    · have hb : bitLen ((A + B : Nat) : Int) > 128 := by
        rw [bitLen_gt_iff, Int.natAbs_ofNat]; omega
      rw [if_pos hb, if_neg h]
  rw [hslow]
  by_cases hf : A < 2 ^ 64 ∧ B < 2 ^ 64
  · obtain ⟨hA64, hB64⟩ := hf
    have i1 : isUint64 (A : Int) = true := by simp [isUint64]; omega
    have i2 : isUint64 (B : Int) = true := by simp [isUint64]; omega
    simp only [i1, i2, Bool.and_self, if_true, bigUint64, Int.toNat_ofNat, MaxUint64,
      Nat.mod_eq_of_lt hA64, Nat.mod_eq_of_lt hB64]
    by_cases hle : A ≤ 2 ^ 64 - 1 - B
    · rw [if_pos hle, if_pos (by omega)]
      have : (A + B) / 2 ^ 64 = 0 := by omega
      rw [this]
      rfl
    · rw [if_neg hle]
  · have i : (isUint64 (A : Int) && isUint64 (B : Int)) = false := by
      simp only [isUint64, Bool.and_eq_false_iff, decide_eq_false_iff_not]
      omega
    simp only [i, Bool.false_eq_true, if_false]

/-- Sub on well-formed operands: the underflow error when the receiver is smaller,
the exact difference otherwise. -/
theorem amountCurrency.Sub_eq (a : amountCurrency) (b : Uint128)
    (ha : a.uint128Val.wf) (hb : b.wf) :
    a.Sub b =
      if a.uint128Val.toNat < b.toNat then .error .ErrNegativeOrNilBigInt
      else
        .ok ⟨(a.uint128Val.toNat - b.toNat) / 2 ^ 64, (a.uint128Val.toNat - b.toNat) % 2 ^ 64⟩ := by
  have hA := Uint128.toNat_lt _ ha
  have hB := Uint128.toNat_lt _ hb
  unfold amountCurrency.Sub
  simp only [Uint128.BigInt_eq _ ha, Uint128.BigInt_eq _ hb]
  generalize a.uint128Val.toNat = A at hA ⊢
  generalize b.toNat = B at hB ⊢
  by_cases hf : A < 2 ^ 64 ∧ B < 2 ^ 64
  · obtain ⟨hA64, hB64⟩ := hf
    have i1 : isUint64 (A : Int) = true := by simp [isUint64]; omega
    have i2 : isUint64 (B : Int) = true := by simp [isUint64]; omega
    simp only [i1, i2, Bool.and_self, if_true, bigUint64, Int.toNat_ofNat,
      Nat.mod_eq_of_lt hA64, Nat.mod_eq_of_lt hB64]
    by_cases hlt : A < B
    · rw [if_pos hlt, if_pos hlt]
    · rw [if_neg hlt, if_neg hlt]
      have e1 : (A - B) / 2 ^ 64 = 0 := by omega
      have e2 : (A + 2 ^ 64 - B) % 2 ^ 64 = (A - B) % 2 ^ 64 := by omega
      rw [e1, e2]
      rfl
  · have i : (isUint64 (A : Int) && isUint64 (B : Int)) = false := by
      simp only [isUint64, Bool.and_eq_false_iff, decide_eq_false_iff_not]
      omega
    simp only [i, Bool.false_eq_true, if_false]
    by_cases hlt : A < B
    · rw [if_pos (by omega), if_pos hlt]
    · rw [if_neg (by omega), if_neg hlt]
      have hc : ((A : Int) - (B : Int)) = ((A - B : Nat) : Int) := by omega
      rw [hc, Uint128FromBigInt_ofNat _ (by omega)]

/-! ## Claims on Add and Sub -/

/-- C1: for Uint128 values `a` and `b` whose sum is at most `2^128 - 1`, Add on an amount
holding `a` with argument `b` succeeds and returns the Uint128 of value `a + b`, and Sub on
an amount holding that sum with argument `b` succeeds and returns `a` again. The operands
range over all of Uint128, so the 64-bit fast path and the big-integer slow path are both
covered. -/
theorem add_then_sub_roundtrip (c c' : currency) (f f' : Float64) (a b : Uint128)
    (ha : a.wf) (hb : b.wf) (h : a.toNat + b.toNat ≤ 2 ^ 128 - 1) :
    ∃ s : Uint128, amountCurrency.Add ⟨c, f, a⟩ b = .ok s ∧ s.wf ∧
      s.toNat = a.toNat + b.toNat ∧ amountCurrency.Sub ⟨c', f', s⟩ b = .ok a := by
  have hlt : a.toNat + b.toNat < 2 ^ 128 := by omega
  refine ⟨⟨(a.toNat + b.toNat) / 2 ^ 64, (a.toNat + b.toNat) % 2 ^ 64⟩, ?_, ?_, ?_, ?_⟩
  · rw [amountCurrency.Add_eq _ _ ha hb]
    exact if_pos hlt
  · exact Uint128.wf_mk_divmod _ hlt
  · exact Uint128.toNat_mk_divmod _
  · have hs := Uint128.wf_mk_divmod _ hlt
    rw [amountCurrency.Sub_eq _ _ hs hb]
    simp only [Uint128.toNat_mk_divmod]
    rw [if_neg (by omega), Nat.add_sub_cancel]
    congr 1
    exact Uint128.eq_of_toNat_eq _ _ (Uint128.wf_mk_divmod _ (Uint128.toNat_lt _ ha)) ha
      (Uint128.toNat_mk_divmod _)

/-- Witness of C1 on the big-integer path: `(2^64 + 5) + 7`. -/
theorem add_then_sub_roundtrip_witness :
    (Uint128.mk 1 5).wf ∧ (Uint128.mk 0 7).wf ∧
    (Uint128.mk 1 5).toNat + (Uint128.mk 0 7).toNat ≤ 2 ^ 128 - 1 ∧
    ∃ s : Uint128, amountCurrency.Add ⟨USD, Float64.zero, ⟨1, 5⟩⟩ ⟨0, 7⟩ = .ok s ∧ s.wf ∧
      s.toNat = (Uint128.mk 1 5).toNat + (Uint128.mk 0 7).toNat ∧
      amountCurrency.Sub ⟨USD, Float64.zero, s⟩ ⟨0, 7⟩ = .ok ⟨1, 5⟩ :=
  ⟨by decide, by decide, by decide,
    add_then_sub_roundtrip USD USD Float64.zero Float64.zero ⟨1, 5⟩ ⟨0, 7⟩
      (by decide) (by decide) (by decide)⟩

/-- C2: for Uint128 values `a` and `b`, Sub on an amount holding `a` with argument `b`
fails with ErrNegativeOrNilBigInt whenever `a < b`, and whenever `a >= b` it succeeds and
returns exactly the Uint128 of value `a - b`. -/
theorem sub_underflow_or_exact (c : currency) (f : Float64) (a b : Uint128)
    (ha : a.wf) (hb : b.wf) :
    (a.toNat < b.toNat →
      amountCurrency.Sub ⟨c, f, a⟩ b = .error .ErrNegativeOrNilBigInt) ∧
    (b.toNat ≤ a.toNat →
      ∃ r : Uint128, amountCurrency.Sub ⟨c, f, a⟩ b = .ok r ∧ r.wf ∧
        r.toNat = a.toNat - b.toNat) := by
  have hA := Uint128.toNat_lt _ ha
  constructor
  · intro hlt
    rw [amountCurrency.Sub_eq _ _ ha hb]
    exact if_pos hlt
  · intro hle
    refine ⟨⟨(a.toNat - b.toNat) / 2 ^ 64, (a.toNat - b.toNat) % 2 ^ 64⟩, ?_, ?_, ?_⟩
    · rw [amountCurrency.Sub_eq _ _ ha hb]
      exact if_neg (by simp only; omega)
    · exact Uint128.wf_mk_divmod _ (by omega)
    · exact Uint128.toNat_mk_divmod _

/-- Witness of C2: `5 - 2^64` underflows and `2^64 - 5` is exact. -/
theorem sub_underflow_or_exact_witness :
    (Uint128.mk 0 5).wf ∧ (Uint128.mk 1 0).wf ∧
    amountCurrency.Sub ⟨USD, Float64.zero, ⟨0, 5⟩⟩ ⟨1, 0⟩ = .error .ErrNegativeOrNilBigInt :=
  ⟨by decide, by decide,
    (sub_underflow_or_exact USD Float64.zero ⟨0, 5⟩ ⟨1, 0⟩ (by decide) (by decide)).1
      (by decide)⟩

/-- C3: for Uint128 values `a` and `b`, Add on an amount holding `a` with argument `b`
returns an error if and only if `a + b` exceeds `2^128 - 1`, that error is the overflow
error, and a successful result is the exact sum, never a wrapped-around one. -/
theorem add_overflow_iff (c : currency) (f : Float64) (a b : Uint128)
    (ha : a.wf) (hb : b.wf) :
    ((∃ e, amountCurrency.Add ⟨c, f, a⟩ b = .error e) ↔ 2 ^ 128 - 1 < a.toNat + b.toNat) ∧
    (∀ e, amountCurrency.Add ⟨c, f, a⟩ b = .error e → e = .additionOverflow) ∧
    (∀ r, amountCurrency.Add ⟨c, f, a⟩ b = .ok r → r.wf ∧ r.toNat = a.toNat + b.toNat) := by
  rw [amountCurrency.Add_eq _ _ ha hb]
  simp only
  by_cases h : a.toNat + b.toNat < 2 ^ 128
  · rw [if_pos h]
    refine ⟨⟨?_, ?_⟩, ?_, ?_⟩
    · rintro ⟨e, he⟩
      cases he
    · intro h'
      omega
    · intro e he
      cases he
    · intro r hr
      cases hr
      exact ⟨Uint128.wf_mk_divmod _ h, Uint128.toNat_mk_divmod _⟩
  · rw [if_neg h]
    refine ⟨⟨?_, ?_⟩, ?_, ?_⟩
    · intro _
      omega
    · intro _
      exact ⟨_, rfl⟩
    · intro e he
      cases he
      rfl
    · intro r hr
      cases hr

/-- Witness of C3: `(2^128 - 1) + 1` overflows. -/
theorem add_overflow_iff_witness :
    (Uint128.mk (2 ^ 64 - 1) (2 ^ 64 - 1)).wf ∧ (Uint128.mk 0 1).wf ∧
    ((∃ e, amountCurrency.Add ⟨USD, Float64.zero, ⟨2 ^ 64 - 1, 2 ^ 64 - 1⟩⟩ ⟨0, 1⟩ = .error e) ↔
      2 ^ 128 - 1 < (Uint128.mk (2 ^ 64 - 1) (2 ^ 64 - 1)).toNat + (Uint128.mk 0 1).toNat) :=
  ⟨by decide, by decide,
    (add_overflow_iff USD Float64.zero ⟨2 ^ 64 - 1, 2 ^ 64 - 1⟩ ⟨0, 1⟩ (by decide) (by decide)).1⟩

/-! ## Ledger code -/

theorem codeSlot_le (code : List Nat) (i : Nat) : codeSlot code i ≤ 35 := by
  unfold codeSlot
  split
  · simp only [charSlot]
    split
    · omega
    · split <;> omega
  · omega

theorem hashCurrencyCode_lt (code : List Nat) : hashCurrencyCode code < 1000000 := by
  unfold hashCurrencyCode
  exact Nat.mod_lt _ (by norm_num)

theorem currency.codeVal_short (c : currency) (h : c.code.length ≤ 3) :
    c.codeVal = codeSlot c.code 0 * 10000 + codeSlot c.code 1 * 100 + codeSlot c.code 2 := by
  have h0 := codeSlot_le c.code 0
  have h1 := codeSlot_le c.code 1
  have h2 := codeSlot_le c.code 2
  unfold currency.codeVal
  rw [if_pos h]
  simp only [List.range, List.range.loop, List.foldl_cons, List.foldl_nil, Nat.reducePow]
  omega

theorem currency.codeVal_le (c : currency) : c.codeVal ≤ 999999 := by
  by_cases h : c.code.length ≤ 3
  · have h0 := codeSlot_le c.code 0
    have h1 := codeSlot_le c.code 1
    have h2 := codeSlot_le c.code 2
    rw [currency.codeVal_short c h]
    omega
  · unfold currency.codeVal
    rw [if_neg h]
    simp only [Nat.reducePow]
    omega

theorem currency.EncodeLedger_eq (c : currency) (hd : c.decimal < 256) :
    c.EncodeLedger = (c.decimal + 100) * 1000000 + c.codeVal := by
  have h := currency.codeVal_le c
  unfold currency.EncodeLedger
  simp only [Nat.reducePow]
  omega

/-- C5: for every currency descriptor with decimal precision `d` in `0..99` and any code,
EncodeLedger equals `(d+100)*1,000,000 + codeValue` with `0 <= codeValue <= 999,999`, so the
ledger code divided by 1,000,000 is `d+100`, a value in `100..199` (102 for USD, 118 for
ETH), and the code fits in 32 bits. -/
theorem encode_ledger_layout (c : currency) (hd : c.decimal ≤ 99) :
    c.EncodeLedger = (c.decimal + 100) * 1000000 + c.codeVal ∧
    0 ≤ c.codeVal ∧ c.codeVal ≤ 999999 ∧
    c.EncodeLedger / 1000000 = c.decimal + 100 ∧
    100 ≤ c.EncodeLedger / 1000000 ∧ c.EncodeLedger / 1000000 ≤ 199 ∧
    c.EncodeLedger < 2 ^ 32 ∧
    USD.EncodeLedger / 1000000 = 102 ∧ ETH.EncodeLedger / 1000000 = 118 := by
  have h := currency.codeVal_le c
  have e := currency.EncodeLedger_eq c (by omega)
  refine ⟨e, Nat.zero_le _, h, ?_, ?_, ?_, ?_, by decide, by decide⟩
  · omega
  · omega
  · omega
  · rw [e]
    simp only [Nat.reducePow]
    omega

/-- Witness of C5: the built-in rupiah, 2 decimals. -/
theorem encode_ledger_layout_witness :
    IDR.decimal ≤ 99 ∧ IDR.EncodeLedger = (IDR.decimal + 100) * 1000000 + IDR.codeVal ∧
    IDR.EncodeLedger / 1000000 = IDR.decimal + 100 :=
  ⟨by decide, (encode_ledger_layout IDR (by decide)).1, (encode_ledger_layout IDR (by decide)).2.2.2.1⟩

theorem slotOut_charSlot (ch : Nat) :
    slotOut (charSlot ch) = if isCodeChar ch then [ch] else [] := by
  unfold slotOut charSlot slotChar isCodeChar
  by_cases h1 : ch ≥ 65 ∧ ch ≤ 90
  · have e1 : ch - 65 + 10 ≠ 0 := by omega
    have e2 : ¬ (ch - 65 + 10 ≥ 1 ∧ ch - 65 + 10 ≤ 9) := by omega
    have e3 : ch - 65 + 10 ≥ 10 ∧ ch - 65 + 10 ≤ 35 := by omega
    have e4 : (65 + (ch - 65 + 10) - 10) % 256 = ch := by omega
    have e5 : ch ≠ 0 := by omega
    have e6 : (65 ≤ ch ∧ ch ≤ 90) ∨ (49 ≤ ch ∧ ch ≤ 57) := Or.inl h1
    rw [if_pos h1, if_neg e1, if_neg e2, if_pos e3, e4, if_pos e5, decide_eq_true e6]
    rfl
  · rw [if_neg h1]
    by_cases h2 : ch ≥ 48 ∧ ch ≤ 57
    · rw [if_pos h2]
      by_cases h3 : ch = 48
      · subst h3
        decide
      · have e1 : ch - 48 ≠ 0 := by omega
        have e2 : ch - 48 ≥ 1 ∧ ch - 48 ≤ 9 := by omega
        have e4 : (48 + (ch - 48)) % 256 = ch := by omega
        have e5 : ch ≠ 0 := by omega
        have e6 : (65 ≤ ch ∧ ch ≤ 90) ∨ (49 ≤ ch ∧ ch ≤ 57) := Or.inr (by omega)
        rw [if_neg e1, if_pos e2, e4, if_pos e5, decide_eq_true e6]
        rfl
    · have e6 : ¬ ((65 ≤ ch ∧ ch ≤ 90) ∨ (49 ≤ ch ∧ ch ≤ 57)) := by omega
      rw [if_neg h2, decide_eq_false e6]
      rfl

theorem codeSlot_filter (code : List Nat) (h : code.length ≤ 3) :
    slotOut (codeSlot code 0) ++ slotOut (codeSlot code 1) ++ slotOut (codeSlot code 2) =
      code.filter isCodeChar := by
  have z : slotOut 0 = [] := by decide
  match code, h with
  | [], _ => simp [codeSlot, z]
  | [a], _ =>
    have ha := slotOut_charSlot a
    cases ea : isCodeChar a <;> simp [codeSlot, z, ha, List.filter_cons, ea]
  | [a, b], _ =>
    have ha := slotOut_charSlot a
    have hb := slotOut_charSlot b
    cases ea : isCodeChar a <;> cases eb : isCodeChar b <;>
      simp [codeSlot, z, ha, hb, List.filter_cons, ea, eb]
  | [a, b, c], _ =>
    have ha := slotOut_charSlot a
    have hb := slotOut_charSlot b
    have hc := slotOut_charSlot c
    cases ea : isCodeChar a <;> cases eb : isCodeChar b <;> cases ec : isCodeChar c <;>
      simp [codeSlot, ha, hb, hc, List.filter_cons, ea, eb, ec]
  | _ :: _ :: _ :: _ :: _, h => simp at h

theorem decode_fold (s0 s1 s2 : Nat) :
    [s0, s1, s2].foldl (fun builder charValue =>
        if charValue = 0 then builder
        else
          let ch := slotChar charValue
          if ch ≠ 0 then builder ++ [ch] else builder) [] =
      slotOut s0 ++ slotOut s1 ++ slotOut s2 := by
  simp only [List.foldl_cons, List.foldl_nil, slotOut]
  by_cases h0 : s0 = 0 <;> by_cases h1 : s1 = 0 <;> by_cases h2 : s2 = 0 <;>
    by_cases c0 : slotChar s0 = 0 <;> by_cases c1 : slotChar s1 = 0 <;>
    by_cases c2 : slotChar s2 = 0 <;> simp [h0, h1, h2, c0, c1, c2]

theorem currency.DecodeLedger_short (c : currency) (hlen : c.code.length ≤ 3)
    (hd : c.decimal < 256) :
    c.DecodeLedger =
      bytes "decimal=" ++ fmtInt c.decimal ++ bytes ", currency=" ++ c.code.filter isCodeChar := by
  have h0 := codeSlot_le c.code 0
  have h1 := codeSlot_le c.code 1
  have h2 := codeSlot_le c.code 2
  have hf := codeSlot_filter c.code hlen
  unfold currency.DecodeLedger
  simp only [currency.EncodeLedger_eq c hd, currency.codeVal_short c hlen]
  generalize codeSlot c.code 0 = s0 at h0 hf ⊢
  generalize codeSlot c.code 1 = s1 at h1 hf ⊢
  generalize codeSlot c.code 2 = s2 at h2 hf ⊢
  have e1 : ((c.decimal + 100) * 1000000 + (s0 * 10000 + s1 * 100 + s2)) / 1000000 =
      c.decimal + 100 := by omega
  have e2 : ((c.decimal + 100) * 1000000 + (s0 * 10000 + s1 * 100 + s2)) % 1000000 =
      s0 * 10000 + s1 * 100 + s2 := by omega
  have e3 : s0 * 10000 + s1 * 100 + s2 < 500000 := by omega
  have e4 : (s0 * 10000 + s1 * 100 + s2) / 10000 % 100 = s0 := by omega
  have e5 : (s0 * 10000 + s1 * 100 + s2) / 100 % 100 = s1 := by omega
  have e6 : (s0 * 10000 + s1 * 100 + s2) % 100 = s2 := by omega
  have e7 : (((c.decimal + 100 : Nat) : Int) - 100) = (c.decimal : Int) := by omega
  rw [e1, e2, if_pos e3, e4, e5, e6, e7, decode_fold, hf]

/-- C4 (amended): for every currency descriptor whose code has at most 3 characters, each
of them an upper-case letter `A`..`Z` or a digit `1`..`9`, DecodeLedger recovers the exact
code and decimal precision: it returns `decimal=<d>, currency=<code>` with the
descriptor's own `d` and code. -/
theorem decode_ledger_short_code (c : currency) (hlen : c.code.length ≤ 3)
    (hd : c.decimal < 256) (hall : ∀ ch ∈ c.code, isCodeChar ch = true) :
    c.DecodeLedger = bytes "decimal=" ++ fmtInt c.decimal ++ bytes ", currency=" ++ c.code := by
  rw [currency.DecodeLedger_short c hlen hd, List.filter_eq_self.mpr hall]

/-- Witness of C4 (amended): the built-in dollar decodes to its own code. -/
theorem decode_ledger_short_code_witness :
    USD.code.length ≤ 3 ∧ USD.decimal < 256 ∧ (∀ ch ∈ USD.code, isCodeChar ch = true) ∧
    USD.DecodeLedger = bytes "decimal=" ++ fmtInt USD.decimal ++ bytes ", currency=" ++ USD.code :=
  ⟨by decide, by decide, by decide,
    decode_ledger_short_code USD (by decide) (by decide) (by decide)⟩

/-- C4 as stated fails: the two-character code `A0` and the three-character code `A-B`
are not recovered, DecodeLedger reports `A` and `AB`. -/
theorem decode_ledger_short_code_counterexample :
    (currency.mk (bytes "A0") 2).code.length ≤ 3 ∧
    (currency.mk (bytes "A0") 2).DecodeLedger = bytes "decimal=2, currency=A" ∧
    (currency.mk (bytes "A0") 2).DecodeLedger ≠ bytes "decimal=2, currency=A0" ∧
    (currency.mk (bytes "A-B") 2).code.length ≤ 3 ∧
    (currency.mk (bytes "A-B") 2).DecodeLedger = bytes "decimal=2, currency=AB" ∧
    (currency.mk (bytes "A-B") 2).DecodeLedger ≠ bytes "decimal=2, currency=A-B" := by
  decide

/-! ## Hexadecimal text -/

theorem beVal_snoc (xs : List Nat) (b : Nat) : beVal (xs ++ [b]) = beVal xs * 256 + b := by
  rw [beVal_append]
  simp [beVal]

theorem beVal_cons (b : Nat) (xs : List Nat) :
    beVal (b :: xs) = b * 256 ^ xs.length + beVal xs := by
  have := beVal_append [b] xs
  simpa [beVal] using this

theorem beVal_lt (bs : List Nat) (h : ∀ b ∈ bs, b < 256) : beVal bs < 256 ^ bs.length := by
  induction bs using List.reverseRecOn with
  | nil => simp [beVal]
  | append_singleton xs b ih =>
    have h1 : ∀ x ∈ xs, x < 256 := fun x hx => h x (by simp [hx])
    have h2 : b < 256 := h b (by simp)
    have := ih h1
    rw [beVal_snoc, List.length_append, List.length_singleton, pow_succ]
    omega

theorem beBytes_beVal (bs : List Nat) (h : ∀ b ∈ bs, b < 256) :
    beBytes bs.length (beVal bs) = bs := by
  induction bs using List.reverseRecOn with
  | nil => rfl
  | append_singleton xs b ih =>
    have h1 : ∀ x ∈ xs, x < 256 := fun x hx => h x (by simp [hx])
    have h2 : b < 256 := h b (by simp)
    rw [beVal_snoc, List.length_append, List.length_singleton, beBytes]
    have e1 : (beVal xs * 256 + b) / 256 = beVal xs := by omega
    have e2 : (beVal xs * 256 + b) % 256 = b := by omega
    rw [e1, e2, ih h1]

theorem beVal_replicate_zero (n : Nat) : beVal (List.replicate n 0) = 0 := by
  induction n with
  | zero => rfl
  | succ n ih => rw [List.replicate_succ, beVal_cons, ih]; simp

theorem foldl_hex (xs : List Nat) (a : Nat) :
    xs.foldl (fun acc c => acc * 16 + (fromHexChar c).getD 0) a =
      a * 16 ^ xs.length + hexVal xs := by
  induction xs generalizing a with
  | nil => simp [hexVal]
  | cons x xs ih =>
    simp only [List.foldl_cons, List.length_cons, hexVal]
    rw [ih (a * 16 + _), ih (0 * 16 + _)]
    ring

theorem hexVal_cons (c : Nat) (xs : List Nat) :
    hexVal (c :: xs) = (fromHexChar c).getD 0 * 16 ^ xs.length + hexVal xs := by
  unfold hexVal
  rw [List.foldl_cons, foldl_hex]
  simp [hexVal]

theorem fromHexChar_of_isHexDigit (c : Nat) (h : isHexDigit c = true) :
    ∃ d, fromHexChar c = some d ∧ d < 16 ∧ hexDigit d = toLowerHex c := by
  unfold isHexDigit at h
  simp only [decide_eq_true_eq] at h
  unfold fromHexChar hexDigit toLowerHex
  rcases h with h | h | h
  · refine ⟨c - 48, by rw [if_pos h], by omega, ?_⟩
    rw [if_pos (by omega), if_neg (by omega)]
    omega
  · refine ⟨c - 97 + 10, by rw [if_neg (by omega), if_pos h], by omega, ?_⟩
    rw [if_neg (by omega), if_neg (by omega)]
    omega
  · refine ⟨c - 65 + 10, by rw [if_neg (by omega), if_neg (by omega), if_pos h], by omega, ?_⟩
    rw [if_neg (by omega), if_pos h]
    omega

/-- Decoding an even number of hexadecimal digits succeeds; the bytes re-encode to the
lower-cased digits and have the value the digits denote. -/
theorem hexDecode_valid : ∀ (h : List Nat), h.length % 2 = 0 →
    (∀ c ∈ h, isHexDigit c = true) →
    ∃ dec, hexDecode h = .ok dec ∧ dec.length = h.length / 2 ∧ (∀ b ∈ dec, b < 256) ∧
      hexEncode dec = h.map toLowerHex ∧ beVal dec = hexVal h
  | [], _, _ => ⟨[], rfl, rfl, by simp, rfl, rfl⟩
  | [p], hlen, _ => by simp at hlen
  | p :: q :: rest, hlen, hv => by
    have hrl : rest.length % 2 = 0 := by
      simp only [List.length_cons] at hlen
      omega
    obtain ⟨dec, hd, hl, hb, he, hval⟩ :=
      hexDecode_valid rest hrl (fun c hc => hv c (by simp [hc]))
    obtain ⟨a, ha, ha16, hae⟩ := fromHexChar_of_isHexDigit p (hv p (by simp))
    obtain ⟨b, hb1, hb16, hbe⟩ := fromHexChar_of_isHexDigit q (hv q (by simp))
    refine ⟨(a * 16 + b) :: dec, ?_, ?_, ?_, ?_, ?_⟩
    · simp only [hexDecode, ha, hb1, hd]
    · simp only [List.length_cons, hl]
      omega
    · intro x hx
      rcases List.mem_cons.mp hx with hx | hx
      · omega
      · exact hb x hx
    · have e1 : (a * 16 + b) / 16 = a := by omega
      have e2 : (a * 16 + b) % 16 = b := by omega
      simp only [hexEncode, List.flatMap_cons, e1, e2, hae, hbe, List.map_cons] at he ⊢
      rw [he]
      rfl
    · rw [beVal_cons, hexVal_cons, hexVal_cons, hval, ha, hb1, hl]
      simp only [Option.getD_some, List.length_cons]
      have e : (256 : Nat) ^ (rest.length / 2) = 16 ^ rest.length := by
        have : rest.length = 2 * (rest.length / 2) := by omega
        conv_rhs => rw [this, pow_mul]
        norm_num
      rw [e, pow_succ]
      ring

/-- A 16-byte big-endian buffer read as two 64-bit halves. -/
theorem split16 (buf : List Nat) (hlen : buf.length = 16) (hb : ∀ b ∈ buf, b < 256) :
    (Uint128.mk (beVal ((buf.take 8).drop 0)) (beVal ((buf.take 16).drop 8))).wf ∧
    (Uint128.mk (beVal ((buf.take 8).drop 0)) (beVal ((buf.take 16).drop 8))).toNat = beVal buf ∧
    beBytes 8 (beVal ((buf.take 8).drop 0)) ++ beBytes 8 (beVal ((buf.take 16).drop 8)) = buf := by
  have t16 : buf.take 16 = buf := List.take_of_length_le (by omega)
  rw [t16, List.drop_zero]
  have l1 : (buf.take 8).length = 8 := by rw [List.length_take]; omega
  have l2 : (buf.drop 8).length = 8 := by rw [List.length_drop]; omega
  have b1 : ∀ b ∈ buf.take 8, b < 256 := fun b hx => hb b (List.mem_of_mem_take hx)
  have b2 : ∀ b ∈ buf.drop 8, b < 256 := fun b hx => hb b (List.mem_of_mem_drop hx)
  have v1 := beVal_lt _ b1
  have v2 := beVal_lt _ b2
  rw [l1] at v1
  rw [l2] at v2
  have e : (256 : Nat) ^ 8 = 2 ^ 64 := by norm_num
  rw [e] at v1 v2
  have hsplit : beVal buf = beVal (buf.take 8) * 2 ^ 64 + beVal (buf.drop 8) := by
    conv_lhs => rw [← List.take_append_drop 8 buf]
    rw [beVal_append, l2, e]
  refine ⟨⟨v1, v2⟩, ?_, ?_⟩
  · rw [hsplit]
    rfl
  · have r1 := beBytes_beVal _ b1
    have r2 := beBytes_beVal _ b2
    rw [l1] at r1
    rw [l2] at r2
    rw [r1, r2, List.take_append_drop]

theorem hexVal_zero_cons (h : List Nat) : hexVal (48 :: h) = hexVal h := by
  rw [hexVal_cons]
  simp [fromHexChar]

/-- What Uint128FromHex computes on a non-empty string of at most 32 hexadecimal digits:
the 16-byte buffer is the zero-padded decoding of the digits. -/
theorem Uint128FromHex_valid (h : List Nat) (hne : h ≠ []) (hlen : h.length ≤ 32)
    (hv : ∀ c ∈ h, isHexDigit c = true) :
    ∃ buf : List Nat, buf.length = 16 ∧ (∀ b ∈ buf, b < 256) ∧
      Uint128FromHex h = .ok ⟨beVal ((buf.take 8).drop 0), beVal ((buf.take 16).drop 8)⟩ ∧
      beVal buf = hexVal h ∧
      ∃ n, hexEncode buf =
        List.replicate n 48 ++ (if h.length % 2 = 1 then 48 :: h else h).map toLowerHex := by
  have hpos : 0 < h.length := List.length_pos.mpr hne
  have hl' : (if h.length % 2 = 1 then 48 :: h else h).length % 2 = 0 := by
    split <;> (try simp only [List.length_cons]) <;> omega
  have hv' : ∀ c ∈ (if h.length % 2 = 1 then 48 :: h else h), isHexDigit c = true := by
    intro c hc
    split at hc
    · rcases List.mem_cons.mp hc with hc | hc
      · subst hc; decide
      · exact hv c hc
    · exact hv c hc
  have hval' : hexVal (if h.length % 2 = 1 then 48 :: h else h) = hexVal h := by
    split
    · exact hexVal_zero_cons h
    · rfl
  have hlen' : (if h.length % 2 = 1 then 48 :: h else h).length / 2 ≤ 16 := by
    split <;> (try simp only [List.length_cons]) <;> omega
  obtain ⟨dec, hd, hdl, hdb, hde, hdv⟩ := hexDecode_valid _ hl' hv'
  refine ⟨List.replicate (16 - (if h.length % 2 = 1 then 48 :: h else h).length / 2) 0 ++ dec,
    ?_, ?_, ?_, ?_, ?_⟩
  · rw [List.length_append, List.length_replicate, hdl]
    omega
  · intro b hb
    rcases List.mem_append.mp hb with hb | hb
    · rw [List.eq_of_mem_replicate hb]
      norm_num
    · exact hdb b hb
  · unfold Uint128FromHex
    rw [if_neg (by omega), if_neg (by omega)]
    simp only [hd]
  · rw [beVal_append, beVal_replicate_zero, hdv, hval']
    simp
  · refine ⟨2 * (16 - (if h.length % 2 = 1 then 48 :: h else h).length / 2), ?_⟩
    rw [← hde]
    generalize (16 - (if h.length % 2 = 1 then 48 :: h else h).length / 2) = m
    unfold hexEncode
    rw [List.flatMap_append]
    congr 1
    induction m with
    | zero => rfl
    | succ m ih =>
      rw [List.replicate_succ, List.flatMap_cons, ih]
      have : 2 * (m + 1) = (2 * m + 1) + 1 := by ring
      rw [this, List.replicate_succ, List.replicate_succ]
      rfl

theorem trimZeros_zero_cons (t : List Nat) (ht : t ≠ []) : trimZeros (48 :: t) = trimZeros t := by
  cases t with
  | nil => exact absurd rfl ht
  | cons d rest => simp [trimZeros]

theorem trimZeros_replicate (n : Nat) (t : List Nat) (ht : t ≠ []) :
    trimZeros (List.replicate n 48 ++ t) = trimZeros t := by
  induction n with
  | zero => rfl
  | succ n ih =>
    rw [List.replicate_succ, List.cons_append, trimZeros_zero_cons _ (by simp [ht]), ih]

theorem stripLeadingZeros_zero_cons (t : List Nat) :
    stripLeadingZeros (48 :: t) = stripLeadingZeros t := by
  simp [stripLeadingZeros, List.dropWhile]

theorem trimZeros_eq_strip : ∀ (t : List Nat), t ≠ [] → trimZeros t = stripLeadingZeros t
  | [], h => absurd rfl h
  | [c], _ => by
    by_cases hc : c = 48
    · subst hc; decide
    · simp [trimZeros, stripLeadingZeros, List.dropWhile, hc]
  | c :: d :: rest, _ => by
    by_cases hc : c = 48
    · subst hc
      rw [stripLeadingZeros_zero_cons, ← trimZeros_eq_strip (d :: rest) (by simp)]
      simp [trimZeros]
    · simp [trimZeros, stripLeadingZeros, List.dropWhile, hc]

/-- C6 (amended): for every string `h` of at most 32 hexadecimal digits, Uint128FromHex
succeeds and Hex of the result reproduces `h` in lower case with its leading zeros
stripped, at least one digit being kept (`0` when no other digit remains). -/
theorem hex_of_from_hex (h : List Nat) (hlen : h.length ≤ 32)
    (hv : ∀ c ∈ h, isHexDigit c = true) :
    ∃ u : Uint128, Uint128FromHex h = .ok u ∧ u.wf ∧
      u.Hex = stripLeadingZeros (h.map toLowerHex) := by
  by_cases hne : h = []
  · subst hne
    exact ⟨Uint128.zero, rfl, by decide, by decide⟩
  · obtain ⟨buf, hbl, hbb, hok, _, n, henc⟩ := Uint128FromHex_valid h hne hlen hv
    obtain ⟨hwf, _, hbytes⟩ := split16 buf hbl hbb
    refine ⟨_, hok, hwf, ?_⟩
    unfold Uint128.Hex
    simp only [hbytes, henc]
    have hne' : (if h.length % 2 = 1 then 48 :: h else h).map toLowerHex ≠ [] := by
      split <;> simp [hne]
    rw [trimZeros_replicate _ _ hne', trimZeros_eq_strip _ hne']
    split
    · have : toLowerHex 48 = 48 := by decide
      rw [List.map_cons, this, stripLeadingZeros_zero_cons]
    · rfl

/-- Witness of C6 (amended): `00Ab` gives the value 171 and prints as `ab`. -/
theorem hex_of_from_hex_witness :
    (bytes "00Ab").length ≤ 32 ∧ (∀ c ∈ bytes "00Ab", isHexDigit c = true) ∧
    ∃ u : Uint128, Uint128FromHex (bytes "00Ab") = .ok u ∧ u.wf ∧
      u.Hex = stripLeadingZeros ((bytes "00Ab").map toLowerHex) :=
  ⟨by decide, by decide, hex_of_from_hex (bytes "00Ab") (by decide) (by decide)⟩

/-- C6 as stated fails on upper-case digits: `AB` is accepted, and Hex of the result is
`ab`, which is not `AB` with its leading zeros stripped. -/
theorem hex_of_from_hex_counterexample :
    (bytes "AB").length ≤ 32 ∧ (∀ c ∈ bytes "AB", isHexDigit c = true) ∧
    Uint128FromHex (bytes "AB") = .ok ⟨0, 171⟩ ∧
    (Uint128.mk 0 171).Hex = bytes "ab" ∧
    (Uint128.mk 0 171).Hex ≠ stripLeadingZeros (bytes "AB") := by
  decide

/-- C7: for every Uint128 `v`, Uint128FromBytesLE applied to the 16 bytes of `v.BytesLE()`
succeeds and returns `v`. -/
theorem from_bytes_le_of_bytes_le (v : Uint128) (hv : v.wf) :
    v.BytesLE.length = 16 ∧ Uint128FromBytesLE v.BytesLE = .ok v := by
  obtain ⟨h1, h2⟩ := hv
  have hl : v.BytesLE.length = 16 := by
    simp [Uint128.BytesLE, leBytes_length]
  refine ⟨hl, ?_⟩
  unfold Uint128FromBytesLE
  rw [if_neg (by omega)]
  unfold Uint128.BytesLE
  have l1 : (leBytes 8 v.Lo).length = 8 := leBytes_length _ _
  have l2 : (leBytes 8 v.Hi).length = 8 := leBytes_length _ _
  have t1 : ((leBytes 8 v.Lo ++ leBytes 8 v.Hi).take 8).drop 0 = leBytes 8 v.Lo := by
    rw [List.drop_zero, List.take_append_of_le_length (by omega),
      List.take_of_length_le (by omega)]
  have t2 : ((leBytes 8 v.Lo ++ leBytes 8 v.Hi).take 16).drop 8 = leBytes 8 v.Hi := by
    rw [List.take_of_length_le (by simp [leBytes_length]),
      List.drop_append_of_le_length (by omega), List.drop_of_length_le (by omega),
      List.nil_append]
  have e : (256 : Nat) ^ 8 = 2 ^ 64 := by norm_num
  simp only [t1, t2, leVal_leBytes, e, Nat.mod_eq_of_lt h1, Nat.mod_eq_of_lt h2]

/-- Witness of C7: a value with both halves set. -/
theorem from_bytes_le_of_bytes_le_witness :
    (Uint128.mk 2 1).wf ∧ Uint128FromBytesLE (Uint128.mk 2 1).BytesLE = .ok ⟨2, 1⟩ :=
  ⟨by decide, (from_bytes_le_of_bytes_le ⟨2, 1⟩ (by decide)).2⟩

theorem beBytes_lt (k n : Nat) : ∀ b ∈ beBytes k n, b < 256 := by
  induction k generalizing n with
  | zero => simp [beBytes]
  | succ k ih =>
    intro b hb
    rw [beBytes] at hb
    rcases List.mem_append.mp hb with hb | hb
    · exact ih _ b hb
    · rw [List.mem_singleton.mp hb]
      omega

theorem hexDigit_spec (d : Nat) (h : d < 16) :
    isHexDigit (hexDigit d) = true ∧ fromHexChar (hexDigit d) = some d := by
  have : d = 0 ∨ d = 1 ∨ d = 2 ∨ d = 3 ∨ d = 4 ∨ d = 5 ∨ d = 6 ∨ d = 7 ∨ d = 8 ∨ d = 9 ∨
      d = 10 ∨ d = 11 ∨ d = 12 ∨ d = 13 ∨ d = 14 ∨ d = 15 := by omega
  rcases this with h | h | h | h | h | h | h | h | h | h | h | h | h | h | h | h <;>
    subst h <;> decide

theorem hexEncode_spec (bs : List Nat) (hb : ∀ b ∈ bs, b < 256) :
    (∀ c ∈ hexEncode bs, isHexDigit c = true) ∧ (hexEncode bs).length = 2 * bs.length ∧
      hexVal (hexEncode bs) = beVal bs := by
  induction bs with
  | nil => exact ⟨by simp [hexEncode], rfl, rfl⟩
  | cons b bs ih =>
    obtain ⟨i1, i2, i3⟩ := ih (fun x hx => hb x (by simp [hx]))
    have hb256 : b < 256 := hb b (by simp)
    have d1 := hexDigit_spec (b / 16) (by omega)
    have d2 := hexDigit_spec (b % 16) (by omega)
    have hc : hexEncode (b :: bs) = hexDigit (b / 16) :: hexDigit (b % 16) :: hexEncode bs := by
      simp [hexEncode]
    rw [hc]
    refine ⟨?_, ?_, ?_⟩
    · intro c hc'
      rcases List.mem_cons.mp hc' with h | h
      · rw [h]; exact d1.1
      · rcases List.mem_cons.mp h with h | h
        · rw [h]; exact d2.1
        · exact i1 c h
    · simp only [List.length_cons, i2]
      omega
    · rw [hexVal_cons, hexVal_cons, d1.2, d2.2, beVal_cons, i3]
      simp only [Option.getD_some, List.length_cons, i2]
      have e : (16 : Nat) ^ (2 * bs.length) = 256 ^ bs.length := by
        rw [pow_mul]; norm_num
      rw [pow_succ, e]
      have : b = b / 16 * 16 + b % 16 := by omega
      conv_rhs => rw [this]
      ring

theorem trimZeros_spec : ∀ (s : List Nat),
    (∀ c ∈ trimZeros s, c ∈ s) ∧ (trimZeros s).length ≤ s.length ∧
      (s ≠ [] → trimZeros s ≠ []) ∧ hexVal (trimZeros s) = hexVal s
  | [] => ⟨by simp [trimZeros], by simp [trimZeros], by simp, rfl⟩
  | [c] => ⟨by simp [trimZeros], by simp [trimZeros], by simp [trimZeros], rfl⟩
  | c :: d :: rest => by
    obtain ⟨i1, i2, i3, i4⟩ := trimZeros_spec (d :: rest)
    by_cases hc : c = 48
    · subst hc
      have e : trimZeros (48 :: d :: rest) = trimZeros (d :: rest) := by simp [trimZeros]
      rw [e, hexVal_zero_cons]
      refine ⟨fun x hx => List.mem_cons_of_mem _ (i1 x hx), ?_, fun _ => i3 (by simp), i4⟩
      simp only [List.length_cons] at i2 ⊢
      omega
    · have e : trimZeros (c :: d :: rest) = c :: d :: rest := by simp [trimZeros, hc]
      rw [e]
      exact ⟨fun x hx => hx, Nat.le_refl _, fun h => h, rfl⟩

/-- The text Hex produces: between 1 and 32 hexadecimal digits denoting the value. -/
theorem Uint128.Hex_spec (v : Uint128) (hv : v.wf) :
    v.Hex ≠ [] ∧ v.Hex.length ≤ 32 ∧ (∀ c ∈ v.Hex, isHexDigit c = true) ∧
      hexVal v.Hex = v.toNat := by
  obtain ⟨h1, h2⟩ := hv
  have hb : ∀ b ∈ beBytes 8 v.Hi ++ beBytes 8 v.Lo, b < 256 := by
    intro b hb
    rcases List.mem_append.mp hb with hb | hb
    · exact beBytes_lt _ _ b hb
    · exact beBytes_lt _ _ b hb
  obtain ⟨e1, e2, e3⟩ := hexEncode_spec _ hb
  obtain ⟨t1, t2, t3, t4⟩ := trimZeros_spec (hexEncode (beBytes 8 v.Hi ++ beBytes 8 v.Lo))
  have hl : (beBytes 8 v.Hi ++ beBytes 8 v.Lo).length = 16 := by
    simp [beBytes_length]
  rw [hl] at e2
  unfold Uint128.Hex
  simp only
  refine ⟨t3 ?_, by omega, fun c hc => e1 c (t1 c hc), ?_⟩
  · intro h0
    rw [h0] at e2
    simp at e2
  · rw [t4, e3, beVal_append, beVal_beBytes, beVal_beBytes, beBytes_length]
    have e : (256 : Nat) ^ 8 = 2 ^ 64 := by norm_num
    rw [e, Nat.mod_eq_of_lt h1, Nat.mod_eq_of_lt h2]
    rfl

/-- C8: for every Uint128 `v`, `Uint128FromHex(v.Hex())` succeeds and equals `v`, so text
serialization round-trips exactly: UnmarshalText applied to the output of MarshalText
restores `v`, whatever the receiver held before. -/
theorem from_hex_of_hex (v : Uint128) (hv : v.wf) :
    Uint128FromHex v.Hex = .ok v ∧
    ∃ b, v.MarshalText = .ok b ∧ ∀ u0 : Uint128, u0.UnmarshalText b = .ok v := by
  obtain ⟨hne, hlen, hdig, hval⟩ := Uint128.Hex_spec v hv
  obtain ⟨buf, hbl, hbb, hok, hbv, _⟩ := Uint128FromHex_valid v.Hex hne hlen hdig
  obtain ⟨hwf, hnat, _⟩ := split16 buf hbl hbb
  have heq : Uint128.mk (beVal ((buf.take 8).drop 0)) (beVal ((buf.take 16).drop 8)) = v :=
    Uint128.eq_of_toNat_eq _ _ hwf hv (by rw [hnat, hbv, hval])
  rw [heq] at hok
  refine ⟨hok, v.Hex, rfl, ?_⟩
  intro u0
  unfold Uint128.UnmarshalText
  rw [hok]

/-- Witness of C8: a value with both halves set. -/
theorem from_hex_of_hex_witness :
    (Uint128.mk 2 1).wf ∧ Uint128FromHex (Uint128.mk 2 1).Hex = .ok ⟨2, 1⟩ :=
  ⟨by decide, (from_hex_of_hex ⟨2, 1⟩ (by decide)).1⟩

/-! ## Statement reconstruction -/

theorem amountCurrency.ToUint128FromValue_of_not_pos (a : amountCurrency)
    (h : Float64.lt Float64.zero a.float64Val = false) : a.ToUint128FromValue = a.uint128Val := by
  unfold amountCurrency.ToUint128FromValue
  rw [h]
  rfl

theorem find_toAccountBalances (filter : AccountTransferFilter) (bs : List TBAccountBalance)
    (ts : Nat) :
    (toAccountBalances filter bs).find? (fun b => decide (b.Timestamp = ts)) =
      (bs.find? (fun b => decide (b.Timestamp = ts))).map (toAccountBalance filter) := by
  induction bs with
  | nil => rfl
  | cons b bs ih =>
    unfold toAccountBalances at ih ⊢
    simp only [List.map_cons, List.find?_cons]
    have e : (toAccountBalance filter b).Timestamp = b.Timestamp := rfl
    rw [e]
    by_cases h : b.Timestamp = ts
    · simp [h]
    · simp [h, ih]

/-- The loop body after the snapshot is located, on records converted with a Monetary
whose decimal value is not positive: an appended statement carries the exact balances. -/
theorem statementFor_plain {α : Type} (filter : AccountTransferFilter)
    (clsFn : Option (StatementClosureFn α)) (t : TBTransfer) (isDebit : Bool)
    (b : TBAccountBalance) (s : AccountStatement α)
    (hplain : Float64.lt Float64.zero filter.Monetary.float64Val = false)
    (hb : b.DebitsPending.wf ∧ b.DebitsPosted.wf ∧ b.CreditsPosted.wf)
    (ht : t.Amount.wf)
    (h : statementFor filter clsFn (toAccountTransfer filter t) isDebit
      (toAccountBalance filter b) = some s) :
    b.DebitsPending.toNat + b.DebitsPosted.toNat ≤ b.CreditsPosted.toNat ∧
    s.BalanceAfter.uint128Val.wf ∧
    s.BalanceAfter.uint128Val.toNat =
      b.CreditsPosted.toNat - (b.DebitsPending.toNat + b.DebitsPosted.toNat) ∧
    s.BalanceBefore.uint128Val.wf ∧
    (isDebit = true →
      s.Debit = filter.Monetary.SetUint128Value t.Amount ∧
      s.Credit = filter.Monetary.SetFloat64Value Float64.zero ∧
      s.BalanceBefore.uint128Val.toNat = s.BalanceAfter.uint128Val.toNat + t.Amount.toNat) ∧
    (isDebit = false →
      s.Credit = filter.Monetary.SetUint128Value t.Amount ∧
      s.Debit = filter.Monetary.SetFloat64Value Float64.zero ∧
      t.Amount.toNat ≤ s.BalanceAfter.uint128Val.toNat ∧
      s.BalanceBefore.uint128Val.toNat = s.BalanceAfter.uint128Val.toNat - t.Amount.toNat) := by
  obtain ⟨w1, w2, w3⟩ := hb
  have p1 : (toAccountBalance filter b).DebitsPosted.ToUint128FromValue = b.DebitsPosted :=
    amountCurrency.ToUint128FromValue_of_not_pos _ hplain
  have p2 : (toAccountTransfer filter t).Amount.ToUint128FromValue = t.Amount :=
    amountCurrency.ToUint128FromValue_of_not_pos _ hplain
  have q1 : (toAccountBalance filter b).DebitsPending.uint128Val = b.DebitsPending := rfl
  have q2 : (toAccountBalance filter b).CreditsPosted.uint128Val = b.CreditsPosted := rfl
  have hP := Uint128.toNat_lt _ w1
  have hQ := Uint128.toNat_lt _ w2
  have hC := Uint128.toNat_lt _ w3
  have hT := Uint128.toNat_lt _ ht
  unfold statementFor at h
  rw [p1, p2, amountCurrency.Add_eq _ _ (q1 ▸ w1) w2, q1] at h
  by_cases hsum : b.DebitsPending.toNat + b.DebitsPosted.toNat < 2 ^ 128
  · rw [if_pos hsum] at h
    simp only at h
    have wd := Uint128.wf_mk_divmod _ hsum
    rw [amountCurrency.Sub_eq _ _ (q2 ▸ w3) wd, q2, Uint128.toNat_mk_divmod] at h
    by_cases hlt : b.CreditsPosted.toNat < b.DebitsPending.toNat + b.DebitsPosted.toNat
    · rw [if_pos hlt] at h
      simp only at h
      cases h
    · rw [if_neg hlt] at h
      simp only at h
      have hA : b.CreditsPosted.toNat - (b.DebitsPending.toNat + b.DebitsPosted.toNat) < 2 ^ 128 := by
        omega
      have wa := Uint128.wf_mk_divmod _ hA
      have na := Uint128.toNat_mk_divmod
        (b.CreditsPosted.toNat - (b.DebitsPending.toNat + b.DebitsPosted.toNat))
      have q3 : ∀ u : Uint128, (filter.Monetary.SetUint128Value u).uint128Val = u := fun _ => rfl
      cases isDebit with
      | true =>
        simp only [if_true] at h
        rw [amountCurrency.Add_eq _ _ ((q3 _).symm ▸ wa) ht, q3, na] at h
        by_cases hov : b.CreditsPosted.toNat - (b.DebitsPending.toNat + b.DebitsPosted.toNat) +
            t.Amount.toNat < 2 ^ 128
        · rw [if_pos hov] at h
          simp only [Option.some.injEq] at h
          subst h
          refine ⟨by omega, wa, na, Uint128.wf_mk_divmod _ hov, ?_, ?_⟩
          · intro _
            refine ⟨rfl, rfl, ?_⟩
            simp only [q3, na, Uint128.toNat_mk_divmod]
          · intro hc
            cases hc
        · rw [if_neg hov] at h
          simp only at h
          cases h
      | false =>
        simp only [Bool.false_eq_true, if_false] at h
        rw [amountCurrency.Sub_eq _ _ ((q3 _).symm ▸ wa) ht, q3, na] at h
        by_cases hun : b.CreditsPosted.toNat - (b.DebitsPending.toNat + b.DebitsPosted.toNat) <
            t.Amount.toNat
        · rw [if_pos hun] at h
          simp only at h
          cases h
        · rw [if_neg hun] at h
          simp only [Option.some.injEq] at h
          subst h
          refine ⟨by omega, wa, na, Uint128.wf_mk_divmod _ (by omega), ?_, ?_⟩
          · intro hc
            cases hc
          · intro _
            refine ⟨rfl, rfl, ?_, ?_⟩
            · simp only [q3, na]
              omega
            · simp only [q3, na, Uint128.toNat_mk_divmod]
  · rw [if_neg hsum] at h
    simp only at h
    cases h

/-- The loop body on records converted with a Monetary whose decimal value is not
positive: when a statement is appended, it is built from the first snapshot with the
transfer's timestamp, with exact balances. -/
theorem statementOf_plain {α : Type} (filter : AccountTransferFilter)
    (bs : List TBAccountBalance) (clsFn : Option (StatementClosureFn α)) (t : TBTransfer)
    (s : AccountStatement α)
    (hplain : Float64.lt Float64.zero filter.Monetary.float64Val = false)
    (hb : ∀ b ∈ bs, b.DebitsPending.wf ∧ b.DebitsPosted.wf ∧ b.CreditsPosted.wf)
    (ht : t.Amount.wf)
    (h : statementOf filter (toAccountBalances filter bs) clsFn (toAccountTransfer filter t) =
      some s) :
    ∃ isDebit b, statementDirection filter (toAccountTransfer filter t) = some isDebit ∧
      bs.find? (fun b => decide (b.Timestamp = t.Timestamp)) = some b ∧
      b.DebitsPending.toNat + b.DebitsPosted.toNat ≤ b.CreditsPosted.toNat ∧
      s.BalanceAfter.uint128Val.wf ∧
      s.BalanceAfter.uint128Val.toNat =
        b.CreditsPosted.toNat - (b.DebitsPending.toNat + b.DebitsPosted.toNat) ∧
      s.BalanceBefore.uint128Val.wf ∧
      (isDebit = true →
        s.Debit = filter.Monetary.SetUint128Value t.Amount ∧
        s.Credit = filter.Monetary.SetFloat64Value Float64.zero ∧
        s.BalanceBefore.uint128Val.toNat = s.BalanceAfter.uint128Val.toNat + t.Amount.toNat) ∧
      (isDebit = false →
        s.Credit = filter.Monetary.SetUint128Value t.Amount ∧
        s.Debit = filter.Monetary.SetFloat64Value Float64.zero ∧
        t.Amount.toNat ≤ s.BalanceAfter.uint128Val.toNat ∧
        s.BalanceBefore.uint128Val.toNat = s.BalanceAfter.uint128Val.toNat - t.Amount.toNat) := by
  unfold statementOf at h
  cases hd : statementDirection filter (toAccountTransfer filter t) with
  | none => rw [hd] at h; cases h
  | some isDebit =>
    rw [hd] at h
    dsimp only at h
    have hts : (toAccountTransfer filter t).Timestamp = t.Timestamp := rfl
    rw [hts, find_toAccountBalances] at h
    cases hf : bs.find? (fun b => decide (b.Timestamp = t.Timestamp)) with
    | none => rw [hf] at h; cases h
    | some b =>
      rw [hf] at h
      simp only [Option.map_some'] at h
      exact ⟨isDebit, b, rfl, rfl,
        statementFor_plain filter clsFn t isDebit b s hplain
          (hb b (List.mem_of_find?_eq_some hf)) ht h⟩

/-- Every statement GetAccountStatements returns is the loop body's result on one of the
transfers. -/
theorem GetAccountStatements_mem {α : Type} (filter : AccountTransferFilter)
    (tbBalances : List TBAccountBalance) (tbTransfers : List TBTransfer)
    (closureFn : List (Option (StatementClosureFn α))) (s : AccountStatement α)
    (h : s ∈ GetAccountStatements filter tbBalances tbTransfers closureFn) :
    ∃ t ∈ tbTransfers, ∃ clsFn,
      statementOf filter (toAccountBalances filter tbBalances) clsFn
        (toAccountTransfer filter t) = some s := by
  unfold GetAccountStatements statementsLoop toAccountTransfers at h
  simp only [List.mem_filterMap, List.mem_map] at h
  obtain ⟨_, ⟨t, ht, rfl⟩, hs⟩ := h
  exact ⟨t, ht, _, hs⟩

/-- With a Monetary that carries no positive decimal value (as `NewMonetary()` gives),
every statement line is exact: BalanceAfter is the snapshot's creditsPosted minus
(debitsPending + debitsPosted); a debit line has Debit = transfer amount and
BalanceBefore = BalanceAfter + amount; a credit line has Credit = transfer amount and
BalanceBefore = BalanceAfter - amount. -/
theorem statements_exact_of_plain_monetary {α : Type} (filter : AccountTransferFilter)
    (tbBalances : List TBAccountBalance) (tbTransfers : List TBTransfer)
    (closureFn : List (Option (StatementClosureFn α)))
    (hplain : Float64.lt Float64.zero filter.Monetary.float64Val = false)
    (hb : ∀ b ∈ tbBalances, b.DebitsPending.wf ∧ b.DebitsPosted.wf ∧ b.CreditsPosted.wf)
    (ht : ∀ t ∈ tbTransfers, t.Amount.wf) :
    ∀ s ∈ GetAccountStatements filter tbBalances tbTransfers closureFn,
      ∃ t ∈ tbTransfers, ∃ isDebit b,
        statementDirection filter (toAccountTransfer filter t) = some isDebit ∧
        tbBalances.find? (fun b => decide (b.Timestamp = t.Timestamp)) = some b ∧
        s.BalanceAfter.uint128Val.toNat =
          b.CreditsPosted.toNat - (b.DebitsPending.toNat + b.DebitsPosted.toNat) ∧
        b.DebitsPending.toNat + b.DebitsPosted.toNat ≤ b.CreditsPosted.toNat ∧
        (isDebit = true →
          s.Debit.uint128Val = t.Amount ∧
          s.BalanceBefore.uint128Val.toNat =
            s.BalanceAfter.uint128Val.toNat + t.Amount.toNat) ∧
        (isDebit = false →
          s.Credit.uint128Val = t.Amount ∧
          t.Amount.toNat ≤ s.BalanceAfter.uint128Val.toNat ∧
          s.BalanceBefore.uint128Val.toNat =
            s.BalanceAfter.uint128Val.toNat - t.Amount.toNat) := by
  intro s hs
  obtain ⟨t, htm, clsFn, hst⟩ := GetAccountStatements_mem filter tbBalances tbTransfers closureFn s hs
  obtain ⟨isDebit, b, hd, hf, hle, _, hafter, _, hdeb, hcred⟩ :=
    statementOf_plain filter tbBalances clsFn t s hplain hb (ht t htm) hst
  refine ⟨t, htm, isDebit, b, hd, hf, hafter, hle, ?_, ?_⟩
  · intro hi
    obtain ⟨h1, _, h3⟩ := hdeb hi
    exact ⟨by rw [h1]; rfl, h3⟩
  · intro hi
    obtain ⟨h1, _, h3, h4⟩ := hcred hi
    exact ⟨by rw [h1]; rfl, h3, h4⟩

/-- A void-pending transfer debiting the filter's account takes the credit direction. -/
theorem statementDirection_void (filter : AccountTransferFilter) (t : TBTransfer)
    (hacc : t.DebitAccountID = filter.AccountID) (hvoid : t.Flags.VoidPendingTransfer = true) :
    statementDirection filter (toAccountTransfer filter t) = some false := by
  unfold statementDirection toAccountTransfer
  simp [hacc, hvoid]

/-- With a Monetary that carries no positive decimal value, every statement line produced
for a void-pending transfer that debits the filter's account is a credit line: Credit is
the transfer amount, Debit keeps its initial value, BalanceBefore = BalanceAfter - amount. -/
theorem void_line_is_credit_of_plain_monetary {α : Type} (filter : AccountTransferFilter)
    (bs : List TBAccountBalance) (clsFn : Option (StatementClosureFn α)) (t : TBTransfer)
    (s : AccountStatement α)
    (hplain : Float64.lt Float64.zero filter.Monetary.float64Val = false)
    (hb : ∀ b ∈ bs, b.DebitsPending.wf ∧ b.DebitsPosted.wf ∧ b.CreditsPosted.wf)
    (ht : t.Amount.wf)
    (hacc : t.DebitAccountID = filter.AccountID) (hvoid : t.Flags.VoidPendingTransfer = true)
    (h : statementOf filter (toAccountBalances filter bs) clsFn (toAccountTransfer filter t) =
      some s) :
    s.Credit = filter.Monetary.SetUint128Value t.Amount ∧
    s.Debit = filter.Monetary.SetFloat64Value Float64.zero ∧
    t.Amount.toNat ≤ s.BalanceAfter.uint128Val.toNat ∧
    s.BalanceBefore.uint128Val.toNat = s.BalanceAfter.uint128Val.toNat - t.Amount.toNat := by
  obtain ⟨isDebit, b, hd, _, _, _, _, _, _, hcred⟩ :=
    statementOf_plain filter bs clsFn t s hplain hb ht h
  rw [statementDirection_void filter t hacc hvoid] at hd
  cases hd
  exact hcred rfl

set_option maxRecDepth 100000 in
/-- C9, evaluated at a failing input: the filter's Monetary is
`IDR.NewAmountFromFloat64(1)`, the snapshot at timestamp 10 has creditsPosted 1000 and no
debits, the transfer credits 500 to the account. The emitted credit line has
BalanceAfter 900 and BalanceBefore 800, while creditsPosted - (debitsPending +
debitsPosted) is 1000 and BalanceAfter - amount is 400. With `IDR.NewMonetary()` the same
records give 1000 and 500. -/
theorem statement_balances_with_decimal_monetary :
    (GetAccountStatements (α := Unit) decimalFilter [creditedSnapshot 10] [incomingTransfer]
        []).map AccountStatement.rawValues =
      [(⟨0, 0⟩, ⟨0, 500⟩, ⟨0, 800⟩, ⟨0, 900⟩)] ∧
    (creditedSnapshot 10).CreditsPosted.toNat -
        ((creditedSnapshot 10).DebitsPending.toNat + (creditedSnapshot 10).DebitsPosted.toNat) =
      1000 ∧
    (GetAccountStatements (α := Unit) plainFilter [creditedSnapshot 10] [incomingTransfer]
        []).map AccountStatement.rawValues =
      [(⟨0, 0⟩, ⟨0, 500⟩, ⟨0, 500⟩, ⟨0, 1000⟩)] := by
  decide

set_option maxRecDepth 100000 in
/-- C10, evaluated at a failing input: the filter's Monetary is
`IDR.NewAmountFromFloat64(1)`, the snapshot at timestamp 20 has creditsPosted 1000 and no
debits, the transfer is a void-pending transfer of 500 debiting the account. The line is a
credit line (Credit holds the amount 500, Debit stays 0), but BalanceBefore is 800 and
BalanceAfter is 900: their difference is 100, not the amount. -/
theorem void_line_with_decimal_monetary :
    voidedTransfer.Flags.VoidPendingTransfer = true ∧
    voidedTransfer.DebitAccountID = decimalFilter.AccountID ∧
    (GetAccountStatements (α := Unit) decimalFilter [creditedSnapshot 20] [voidedTransfer]
        []).map AccountStatement.rawValues =
      [(⟨0, 0⟩, ⟨0, 500⟩, ⟨0, 800⟩, ⟨0, 900⟩)] ∧
    (Uint128.mk 0 900).toNat - voidedTransfer.Amount.toNat ≠ (Uint128.mk 0 800).toNat := by
  decide

/-! ## Comparison -/

/-- Compare on well-formed values is the three-way comparison of the logical values. -/
theorem Uint128.Compare_eq (u v : Uint128) (hu : u.wf) (hv : v.wf) :
    u.Compare v = if u.toNat < v.toNat then -1 else if u.toNat = v.toNat then 0 else 1 := by
  obtain ⟨h1, h2⟩ := hu
  obtain ⟨h3, h4⟩ := hv
  unfold Uint128.Compare Uint128.toNat
  by_cases a1 : u.Hi < v.Hi
  · rw [if_pos a1, if_pos (by omega)]
  · rw [if_neg a1]
    by_cases a2 : u.Hi > v.Hi
    · rw [if_pos a2, if_neg (by omega), if_neg (by omega)]
    · rw [if_neg a2]
      have e : u.Hi = v.Hi := by omega
      by_cases a3 : u.Lo < v.Lo
      · rw [if_pos a3, if_pos (by omega)]
      · rw [if_neg a3]
        by_cases a4 : u.Lo > v.Lo
        · rw [if_pos a4, if_neg (by omega), if_neg (by omega)]
        · rw [if_neg a4, if_neg (by omega), if_pos (by omega)]

/-- The amount's Compare on well-formed operands is the three-way comparison of the
logical values, on both paths. -/
theorem amountCurrency.Compare_cases (a : amountCurrency) (b : Uint128)
    (ha : a.uint128Val.wf) (hb : b.wf) :
    a.Compare b =
      if a.uint128Val.toNat < b.toNat then -1
      else if a.uint128Val.toNat = b.toNat then 0 else 1 := by
  have hA := Uint128.toNat_lt _ ha
  have hB := Uint128.toNat_lt _ hb
  unfold amountCurrency.Compare
  simp only [Uint128.BigInt_eq _ ha, Uint128.BigInt_eq _ hb]
  generalize a.uint128Val.toNat = A at hA ⊢
  generalize b.toNat = B at hB ⊢
  by_cases hf : A < 2 ^ 64 ∧ B < 2 ^ 64
  · obtain ⟨hA64, hB64⟩ := hf
    have i1 : isUint64 (A : Int) = true := by simp [isUint64]; omega
    have i2 : isUint64 (B : Int) = true := by simp [isUint64]; omega
    simp only [i1, i2, Bool.and_self, if_true, bigUint64, Int.toNat_ofNat,
      Nat.mod_eq_of_lt hA64, Nat.mod_eq_of_lt hB64]
    by_cases h1 : A < B
    · rw [if_pos h1, if_pos h1]
    · rw [if_neg h1, if_neg h1]
      by_cases h2 : A > B
      · rw [if_pos h2, if_neg (by omega)]
      · rw [if_neg h2, if_pos (by omega)]
  · have i : (isUint64 (A : Int) && isUint64 (B : Int)) = false := by
      simp only [isUint64, Bool.and_eq_false_iff, decide_eq_false_iff_not]
      omega
    simp only [i, Bool.false_eq_true, if_false, bigCmp]
    by_cases h1 : A < B
    · rw [if_pos (by omega), if_pos h1]
    · rw [if_neg (by omega), if_neg h1]
      by_cases h2 : A = B
      · rw [if_neg (by omega), if_pos h2]
      · rw [if_pos (by omega), if_neg h2]

/-- C20: for all Uint128 `u` and `v`, `u.Compare(v)` is -1, 0 or 1 according as the logical
value `u.Hi*2^64+u.Lo` is less than, equal to or greater than `v.Hi*2^64+v.Lo`; it is a
total order: `Compare(u,v) = 0` iff `u = v`, `Compare(v,u) = -Compare(u,v)`, and it is
transitive. -/
theorem uint128_compare_total_order (u v w : Uint128) (hu : u.wf) (hv : v.wf) (hw : w.wf) :
    (u.toNat < v.toNat → u.Compare v = -1) ∧
    (u.toNat = v.toNat → u.Compare v = 0) ∧
    (u.toNat > v.toNat → u.Compare v = 1) ∧
    (u.Compare v = 0 ↔ u = v) ∧
    v.Compare u = - u.Compare v ∧
    (u.Compare v ≤ 0 → v.Compare w ≤ 0 → u.Compare w ≤ 0) ∧
    (u.Compare v < 0 → v.Compare w < 0 → u.Compare w < 0) := by
  rw [Uint128.Compare_eq u v hu hv, Uint128.Compare_eq v u hv hu, Uint128.Compare_eq v w hv hw,
    Uint128.Compare_eq u w hu hw]
  have inj : u.toNat = v.toNat ↔ u = v :=
    ⟨Uint128.eq_of_toNat_eq u v hu hv, fun h => by rw [h]⟩
  rw [← inj]
  generalize u.toNat = a
  generalize v.toNat = b
  generalize w.toNat = c
  refine ⟨?_, ?_, ?_, ?_, ?_, ?_, ?_⟩
  · intro h; rw [if_pos h]
  · intro h; rw [if_neg (by omega), if_pos h]
  · intro h; rw [if_neg (by omega), if_neg (by omega)]
  · constructor
    · intro h
      by_contra hne
      by_cases h1 : a < b
      · rw [if_pos h1] at h; omega
      · rw [if_neg h1, if_neg hne] at h; omega
    · intro h; rw [if_neg (by omega), if_pos h]
  · by_cases h1 : a < b
    · rw [if_pos h1, if_neg (by omega), if_neg (by omega)]; rfl
    · by_cases h2 : a = b
      · rw [if_neg h1, if_pos h2, if_neg (by omega), if_pos h2.symm]; rfl
      · rw [if_neg h1, if_neg h2, if_pos (by omega)]
  · intro h1 h2
    have ab : a ≤ b := by
      by_contra hc
      rw [if_neg (by omega), if_neg (by omega)] at h1
      omega
    have bc : b ≤ c := by
      by_contra hc
      rw [if_neg (by omega), if_neg (by omega)] at h2
      omega
    by_cases h3 : a < c
    · rw [if_pos h3]; omega
    · rw [if_neg h3, if_pos (by omega)]
  · intro h1 h2
    have ab : a < b := by
      by_contra hc
      rw [if_neg hc] at h1
      split at h1 <;> omega
    have bc : b < c := by
      by_contra hc
      rw [if_neg hc] at h2
      split at h2 <;> omega
    rw [if_pos (by omega)]
    omega

/-- Witness of C20: values that differ in the high half only, then in the low half only. -/
theorem uint128_compare_total_order_witness :
    (Uint128.mk 1 0).wf ∧ (Uint128.mk 1 5).wf ∧ (Uint128.mk 2 0).wf ∧
    ((Uint128.mk 1 0).Compare ⟨1, 5⟩ ≤ 0 → (Uint128.mk 1 5).Compare ⟨2, 0⟩ ≤ 0 →
      (Uint128.mk 1 0).Compare ⟨2, 0⟩ ≤ 0) :=
  ⟨by decide, by decide, by decide,
    (uint128_compare_total_order ⟨1, 0⟩ ⟨1, 5⟩ ⟨2, 0⟩ (by decide) (by decide)
      (by decide)).2.2.2.2.2.1⟩

/-- C19: for all Uint128 values `a` and `b`, Compare on an amount holding `a` with
argument `b` returns the same -1/0/1 as `Uint128.Compare(a, b)` (the operands range over
all of Uint128, so both the 64-bit fast path and the big-integer path are covered);
Equal, GreaterThan, GreaterThanOrEqual, LessThan and LessThanOrEqual are the relations
=, >, >=, <, <= on the 128-bit values, and Min and Max return the numerically smaller and
larger of `a` and `b`. -/
theorem amount_compare_is_uint128_order (c : currency) (f : Float64) (a b : Uint128)
    (ha : a.wf) (hb : b.wf) :
    amountCurrency.Compare ⟨c, f, a⟩ b = a.Compare b ∧
    (amountCurrency.Equal ⟨c, f, a⟩ b = true ↔ a = b) ∧
    (amountCurrency.GreaterThan ⟨c, f, a⟩ b = true ↔ a.toNat > b.toNat) ∧
    (amountCurrency.GreaterThanOrEqual ⟨c, f, a⟩ b = true ↔ a.toNat ≥ b.toNat) ∧
    (amountCurrency.LessThan ⟨c, f, a⟩ b = true ↔ a.toNat < b.toNat) ∧
    (amountCurrency.LessThanOrEqual ⟨c, f, a⟩ b = true ↔ a.toNat ≤ b.toNat) ∧
    (amountCurrency.Min ⟨c, f, a⟩ b).toNat = min a.toNat b.toNat ∧
    (amountCurrency.Max ⟨c, f, a⟩ b).toNat = max a.toNat b.toNat ∧
    (amountCurrency.Min ⟨c, f, a⟩ b = a ∨ amountCurrency.Min ⟨c, f, a⟩ b = b) ∧
    (amountCurrency.Max ⟨c, f, a⟩ b = a ∨ amountCurrency.Max ⟨c, f, a⟩ b = b) := by
  have hc := amountCurrency.Compare_cases ⟨c, f, a⟩ b ha hb
  have hu := Uint128.Compare_eq a b ha hb
  simp only at hc
  have inj : a.toNat = b.toNat ↔ a = b :=
    ⟨Uint128.eq_of_toNat_eq a b ha hb, fun h => by rw [h]⟩
  have hlt : amountCurrency.LessThan ⟨c, f, a⟩ b = true ↔ a.toNat < b.toNat := by
    unfold amountCurrency.LessThan
    rw [hc, decide_eq_true_iff]
    by_cases h1 : a.toNat < b.toNat
    · rw [if_pos h1]; simp [h1]
    · rw [if_neg h1]; split <;> simp [h1]
  have hgt : amountCurrency.GreaterThan ⟨c, f, a⟩ b = true ↔ a.toNat > b.toNat := by
    unfold amountCurrency.GreaterThan
    rw [hc, decide_eq_true_iff]
    by_cases h1 : a.toNat < b.toNat
    · rw [if_pos h1]; simp; omega
    · rw [if_neg h1]
      by_cases h2 : a.toNat = b.toNat
      · rw [if_pos h2]; simp; omega
      · rw [if_neg h2]; simp; omega
  refine ⟨by rw [hc, hu], ?_, hgt, ?_, hlt, ?_, ?_, ?_, ?_, ?_⟩
  · unfold amountCurrency.Equal
    rw [hc, decide_eq_true_iff, ← inj]
    by_cases h1 : a.toNat < b.toNat
    · rw [if_pos h1]; simp; omega
    · rw [if_neg h1]
      by_cases h2 : a.toNat = b.toNat
      · rw [if_pos h2]; simp [h2]
      · rw [if_neg h2]; simp [h2]
  · unfold amountCurrency.GreaterThanOrEqual
    rw [hc, decide_eq_true_iff]
    by_cases h1 : a.toNat < b.toNat
    · rw [if_pos h1]; simp; omega
    · rw [if_neg h1]; split <;> simp <;> omega
  · unfold amountCurrency.LessThanOrEqual
    rw [hc, decide_eq_true_iff]
    by_cases h1 : a.toNat < b.toNat
    · rw [if_pos h1]; simp; omega
    · rw [if_neg h1]
      by_cases h2 : a.toNat = b.toNat
      · rw [if_pos h2]; simp; omega
      · rw [if_neg h2]; simp; omega
  · unfold amountCurrency.Min
    by_cases h1 : a.toNat < b.toNat
    · rw [if_pos (hlt.mpr h1)]; simp only; omega
    · rw [if_neg (fun h => h1 (hlt.mp h))]; omega
  · unfold amountCurrency.Max
    by_cases h1 : a.toNat > b.toNat
    · rw [if_pos (hgt.mpr h1)]; simp only; omega
    · rw [if_neg (fun h => h1 (hgt.mp h))]; omega
  · unfold amountCurrency.Min
    split
    · exact Or.inl rfl
    · exact Or.inr rfl
  · unfold amountCurrency.Max
    split
    · exact Or.inl rfl
    · exact Or.inr rfl

/-- Witness of C19: operands on the big-integer path. -/
theorem amount_compare_is_uint128_order_witness :
    (Uint128.mk 1 5).wf ∧ (Uint128.mk 0 7).wf ∧
    amountCurrency.Compare ⟨USD, Float64.zero, ⟨1, 5⟩⟩ ⟨0, 7⟩ = (Uint128.mk 1 5).Compare ⟨0, 7⟩ :=
  ⟨by decide, by decide,
    (amount_compare_is_uint128_order USD Float64.zero ⟨1, 5⟩ ⟨0, 7⟩ (by decide) (by decide)).1⟩

/-! ## Amount values and setters -/

theorem Float64.lt_zero_iff (f : Float64) : Float64.lt Float64.zero f = true ↔ f.isPositive := by
  cases f with
  | nan => simp [Float64.lt, Float64.zero, Float64.isPositive]
  | inf neg => cases neg <;> simp [Float64.lt, Float64.zero, Float64.isPositive]
  | fin neg m e =>
    cases neg
    · simp only [Float64.lt, Float64.zero, Float64.isPositive, Float64.magLt]
      split
      · simp only [zero_mul, decide_eq_true_eq]
        constructor
        · intro h
          by_contra hm
          have : m = 0 := by omega
          subst this
          simp at h
        · intro h
          exact Nat.mul_pos h (by positivity)
      · simp only [zero_mul, decide_eq_true_eq]
    · simp [Float64.lt, Float64.zero, Float64.isPositive]

/-- C17: for every amount, ToUint128FromValue gives priority to the decimal value exactly
when it is positive: if the float64 value is greater than 0 it returns the result of
Float64ToUint128 (zero if that conversion fails), and if it is not positive (at most 0, or
NaN) it returns the raw Uint128 field unchanged. -/
theorem to_uint128_from_value_priority (a : amountCurrency) :
    (a.float64Val.isPositive →
      a.ToUint128FromValue =
        match a.Float64ToUint128 with
        | .ok u => u
        | .error _ => Uint128.zero) ∧
    (¬ a.float64Val.isPositive → a.ToUint128FromValue = a.uint128Val) := by
  constructor
  · intro h
    unfold amountCurrency.ToUint128FromValue
    rw [if_pos ((Float64.lt_zero_iff _).mpr h)]
    cases a.Float64ToUint128 <;> rfl
  · intro h
    unfold amountCurrency.ToUint128FromValue
    have : ¬ (Float64.lt Float64.zero a.float64Val = true) :=
      fun hc => h ((Float64.lt_zero_iff _).mp hc)
    rw [if_neg this]

/-- Witness of C17: the decimal value 1 takes priority over the raw value 7 (rupiah,
two decimals, so 100), and the decimal value 0 does not. -/
theorem to_uint128_from_value_priority_witness :
    (Float64.fin false 1 0).isPositive ∧ ¬ (Float64.fin false 0 0).isPositive ∧
    amountCurrency.ToUint128FromValue ⟨IDR, .fin false 1 0, ⟨0, 7⟩⟩ = ⟨0, 100⟩ ∧
    amountCurrency.ToUint128FromValue ⟨IDR, .fin false 0 0, ⟨0, 7⟩⟩ = ⟨0, 7⟩ :=
  ⟨by decide, by decide,
    ((to_uint128_from_value_priority ⟨IDR, .fin false 1 0, ⟨0, 7⟩⟩).1 (by decide)).trans
      (by decide),
    (to_uint128_from_value_priority ⟨IDR, .fin false 0 0, ⟨0, 7⟩⟩).2 (by decide)⟩

theorem cloneH_spec (heap : Heap) (a : Nat) (v : amountCurrency) (ha : heap.get? a = some v) :
    cloneH heap a = some (heap ++ [v], heap.length) ∧ a < heap.length := by
  unfold cloneH
  rw [ha]
  refine ⟨rfl, ?_⟩
  rw [List.get?_eq_getElem?] at ha
  exact (List.getElem?_eq_some_iff.mp ha).1

theorem modify_last (heap : Heap) (v : amountCurrency) (g : amountCurrency → amountCurrency) :
    (heap ++ [v]).modify g heap.length = heap ++ [g v] := by
  induction heap with
  | nil => rfl
  | cons x xs ih => simp [List.modify_succ_cons, ih]

/-- C18: SetUint128Value and SetFloat64Value never mutate the receiver: each returns a new
amount, in a cell of its own, that differs from the receiver only in the field being set,
with the currency and the other value field carried over unchanged; the receiver, like
every other allocated amount, holds the same fields after the call as before. -/
theorem setters_copy_on_write (heap : Heap) (a : Nat) (v : amountCurrency) (uval : Uint128)
    (fval : Float64) (ha : heap.get? a = some v) :
    (∃ heap' c, SetUint128ValueH heap a uval = some (heap', c) ∧ c ≠ a ∧
      (∀ i, i < heap.length → heap'.get? i = heap.get? i) ∧ heap'.get? a = some v ∧
      heap'.get? c =
        some { curr := v.curr, float64Val := v.float64Val, uint128Val := uval } ∧
      heap'.get? c = some (v.SetUint128Value uval)) ∧
    (∃ heap' c, SetFloat64ValueH heap a fval = some (heap', c) ∧ c ≠ a ∧
      (∀ i, i < heap.length → heap'.get? i = heap.get? i) ∧ heap'.get? a = some v ∧
      heap'.get? c =
        some { curr := v.curr, float64Val := fval, uint128Val := v.uint128Val } ∧
      heap'.get? c = some (v.SetFloat64Value fval)) := by
  obtain ⟨hc, hlt⟩ := cloneH_spec heap a v ha
  have frame : ∀ (w : amountCurrency) (i : Nat), i < heap.length →
      (heap ++ [w]).get? i = heap.get? i := by
    intro w i hi
    simp only [List.get?_eq_getElem?]
    exact List.getElem?_append_left hi
  have last : ∀ (w : amountCurrency), (heap ++ [w]).get? heap.length = some w := by
    intro w
    simp [List.get?_eq_getElem?]
  constructor
  · refine ⟨heap ++ [{ v with uint128Val := uval }], heap.length, ?_, by omega, frame _, ?_,
      last _, last _⟩
    · unfold SetUint128ValueH
      rw [hc]
      simp only [modify_last]
    · rw [frame _ a hlt, ha]
  · refine ⟨heap ++ [{ v with float64Val := fval }], heap.length, ?_, by omega, frame _, ?_,
      last _, last _⟩
    · unfold SetFloat64ValueH
      rw [hc]
      simp only [modify_last]
    · rw [frame _ a hlt, ha]

/-- Witness of C18: the second of two allocated amounts as receiver. -/
theorem setters_copy_on_write_witness :
    [IDR.NewMonetary, USD.NewMonetary].get? 1 = some USD.NewMonetary ∧
    ∃ heap' c, SetUint128ValueH [IDR.NewMonetary, USD.NewMonetary] 1 ⟨0, 5⟩ = some (heap', c) ∧
      c ≠ 1 ∧
      (∀ i, i < [IDR.NewMonetary, USD.NewMonetary].length →
        heap'.get? i = [IDR.NewMonetary, USD.NewMonetary].get? i) ∧
      heap'.get? 1 = some USD.NewMonetary ∧
      heap'.get? c =
        some { curr := USD.NewMonetary.curr, float64Val := USD.NewMonetary.float64Val,
               uint128Val := ⟨0, 5⟩ } ∧
      heap'.get? c = some (USD.NewMonetary.SetUint128Value ⟨0, 5⟩) :=
  ⟨rfl,
    (setters_copy_on_write [IDR.NewMonetary, USD.NewMonetary] 1 USD.NewMonetary ⟨0, 5⟩
      Float64.zero rfl).1⟩

/-! ## Which transfers give a line -/

theorem statementDirection_eq (filter : AccountTransferFilter) (t : AccountTransfer) :
    statementDirection filter t =
      if skippedPostPending filter t then none else some (debitDirection filter t) := by
  unfold statementDirection skippedPostPending debitDirection
  by_cases h1 : t.DebitAccountID = filter.AccountID <;>
    cases h2 : t.Flags.VoidPendingTransfer <;>
    cases h3 : t.Flags.PostPendingTransfer <;> simp [h1, h2, h3]

theorem statementOf_skipped {α : Type} (filter : AccountTransferFilter)
    (balances : List AccountBalance) (clsFn : Option (StatementClosureFn α))
    (t : AccountTransfer) (h : skippedPostPending filter t = true) :
    statementOf filter balances clsFn t = none := by
  unfold statementOf
  rw [statementDirection_eq, if_pos h]

theorem Float64.toUint64_lt (f : Float64) : f.toUint64 < 2 ^ 64 := by
  unfold Float64.toUint64 Float64.uint64OutOfRange
  cases f with
  | nan => norm_num
  | inf neg => norm_num
  | fin neg m e =>
    simp only
    split_ifs <;> omega

theorem amountCurrency.Float64ToUint128_wf (a : amountCurrency) (u : Uint128)
    (h : a.Float64ToUint128 = .ok u) : u.wf := by
  unfold amountCurrency.Float64ToUint128 at h
  simp only at h
  generalize (if a.float64Val.lt Float64.zero = true then Float64.zero else a.float64Val) = val
    at h
  by_cases h1 : (val.IsInf || val.IsNaN) = true
  · rw [if_pos h1] at h
    cases h
    decide
  · rw [if_neg h1] at h
    by_cases h2 : (Float64.ofUint64 MaxUint64).lt
        (val.mul (Float64.ofUint64 (scaleFromDecimals a.curr.decimal))).Round = true
    · rw [if_pos h2] at h
      cases h
    · rw [if_neg h2] at h
      cases h
      exact ⟨by simp [Uint128FromUint64], Float64.toUint64_lt _⟩

theorem amountCurrency.ToUint128FromValue_wf (a : amountCurrency) (h : a.uint128Val.wf) :
    a.ToUint128FromValue.wf := by
  unfold amountCurrency.ToUint128FromValue
  split
  · cases hf : a.Float64ToUint128 with
    | error e => simp only; decide
    | ok u => exact amountCurrency.Float64ToUint128_wf a u hf
  · exact h

theorem statementFor_carries {α : Type} (filter : AccountTransferFilter)
    (clsFn : Option (StatementClosureFn α)) (t : AccountTransfer) (isDebit : Bool)
    (b : AccountBalance) (s : AccountStatement α)
    (h : statementFor filter clsFn t isDebit b = some s) : carriesTransfer t s := by
  unfold statementFor at h
  split at h
  · cases h
  · split at h
    · cases h
    · simp only at h
      split at h
      · cases h
      · simp only [Option.some.injEq] at h
        subst h
        exact ⟨rfl, rfl, rfl, rfl, rfl, rfl, rfl, rfl, rfl, rfl⟩

/-- When the loop body appends a statement after the snapshot is located: exactly when
the balance computations neither overflow nor underflow. -/
theorem statementFor_isSome {α : Type} (filter : AccountTransferFilter)
    (clsFn : Option (StatementClosureFn α)) (t : AccountTransfer) (isDebit : Bool)
    (b : AccountBalance)
    (w1 : b.DebitsPending.uint128Val.wf) (w2 : b.DebitsPosted.uint128Val.wf)
    (w3 : b.CreditsPosted.uint128Val.wf) (ht : t.Amount.uint128Val.wf) :
    (statementFor filter clsFn t isDebit b).isSome =
      (decide (b.DebitsPending.uint128Val.toNat + b.DebitsPosted.ToUint128FromValue.toNat ≤
          2 ^ 128 - 1) &&
        decide (b.DebitsPending.uint128Val.toNat + b.DebitsPosted.ToUint128FromValue.toNat ≤
          b.CreditsPosted.uint128Val.toNat) &&
        (if isDebit then
          decide (b.CreditsPosted.uint128Val.toNat -
            (b.DebitsPending.uint128Val.toNat + b.DebitsPosted.ToUint128FromValue.toNat) +
            t.Amount.ToUint128FromValue.toNat ≤ 2 ^ 128 - 1)
         else
          decide (t.Amount.ToUint128FromValue.toNat ≤ b.CreditsPosted.uint128Val.toNat -
            (b.DebitsPending.uint128Val.toNat + b.DebitsPosted.ToUint128FromValue.toNat)))) := by
  have v2 := amountCurrency.ToUint128FromValue_wf _ w2
  have vt := amountCurrency.ToUint128FromValue_wf _ ht
  have hP := Uint128.toNat_lt _ w1
  have hQ := Uint128.toNat_lt _ v2
  have hC := Uint128.toNat_lt _ w3
  have hT := Uint128.toNat_lt _ vt
  have q3 : ∀ u : Uint128, (filter.Monetary.SetUint128Value u).uint128Val = u := fun _ => rfl
  unfold statementFor
  rw [amountCurrency.Add_eq _ _ w1 v2]
  generalize b.DebitsPending.uint128Val.toNat = P at hP ⊢
  generalize b.DebitsPosted.ToUint128FromValue.toNat = Q at hQ ⊢
  by_cases hsum : P + Q < 2 ^ 128
  · rw [if_pos hsum]
    simp only
    have wd := Uint128.wf_mk_divmod _ hsum
    rw [amountCurrency.Sub_eq _ _ w3 wd, Uint128.toNat_mk_divmod]
    generalize b.CreditsPosted.uint128Val.toNat = C at hC ⊢
    by_cases hlt : C < P + Q
    · rw [if_pos hlt]
      simp only [Option.isSome_none]
      have e2 : decide (P + Q ≤ C) = false := decide_eq_false (by omega)
      rw [e2, Bool.and_false]
      rfl
    · rw [if_neg hlt]
      simp only
      have hA : C - (P + Q) < 2 ^ 128 := by omega
      have wa := Uint128.wf_mk_divmod _ hA
      have na := Uint128.toNat_mk_divmod (C - (P + Q))
      have e1 : decide (P + Q ≤ 2 ^ 128 - 1) = true := decide_eq_true (by omega)
      have e2 : decide (P + Q ≤ C) = true := decide_eq_true (by omega)
      rw [e1, e2]
      cases isDebit with
      | true =>
        simp only [if_true, Bool.true_and]
        rw [amountCurrency.Add_eq _ _ ((q3 _).symm ▸ wa) vt, q3, na]
        by_cases hov : C - (P + Q) + t.Amount.ToUint128FromValue.toNat < 2 ^ 128
        · rw [if_pos hov]
          simp only [Option.isSome_some]
          exact (decide_eq_true (by omega)).symm
        · rw [if_neg hov]
          simp only [Option.isSome_none]
          exact (decide_eq_false (by omega)).symm
      | false =>
        simp only [Bool.false_eq_true, if_false, Bool.true_and]
        rw [amountCurrency.Sub_eq _ _ ((q3 _).symm ▸ wa) vt, q3, na]
        by_cases hun : C - (P + Q) < t.Amount.ToUint128FromValue.toNat
        · rw [if_pos hun]
          simp only [Option.isSome_none]
          exact (decide_eq_false (by omega)).symm
        · rw [if_neg hun]
          simp only [Option.isSome_some]
          exact (decide_eq_true (by omega)).symm
  · rw [if_neg hsum]
    simp only [Option.isSome_none]
    have e1 : decide (P + Q ≤ 2 ^ 128 - 1) = false := decide_eq_false (by omega)
    rw [e1]
    rfl

theorem statementOf_carries {α : Type} (filter : AccountTransferFilter)
    (balances : List AccountBalance) (clsFn : Option (StatementClosureFn α))
    (t : AccountTransfer) (s : AccountStatement α)
    (h : statementOf filter balances clsFn t = some s) : carriesTransfer t s := by
  unfold statementOf at h
  split at h
  · cases h
  · split at h
    · cases h
    · exact statementFor_carries _ _ _ _ _ _ h

/-- The loop body appends a statement for a transfer exactly when the transfer qualifies. -/
theorem statementOf_isSome {α : Type} (filter : AccountTransferFilter)
    (balances : List AccountBalance) (clsFn : Option (StatementClosureFn α))
    (t : AccountTransfer)
    (hb : ∀ b ∈ balances, b.DebitsPending.uint128Val.wf ∧ b.DebitsPosted.uint128Val.wf ∧
      b.CreditsPosted.uint128Val.wf)
    (ht : t.Amount.uint128Val.wf) :
    (statementOf filter balances clsFn t).isSome = lineQualifies filter balances t := by
  unfold statementOf lineQualifies
  rw [statementDirection_eq]
  cases hs : skippedPostPending filter t with
  | true => simp
  | false =>
    simp only [Bool.false_eq_true, if_false, Bool.not_false, Bool.true_and]
    cases hf : balances.find? (fun b => decide (b.Timestamp = t.Timestamp)) with
    | none => rfl
    | some b =>
      obtain ⟨w1, w2, w3⟩ := hb b (List.mem_of_find?_eq_some hf)
      simp only
      rw [statementFor_isSome filter clsFn t (debitDirection filter t) b w1 w2 w3 ht]

/-- The lines `filterMap` keeps pair up, in order, with the elements on which the
function is defined. -/
theorem forall2_filter_filterMap {β γ : Type} (f : β → Option γ) (l : List β) :
    List.Forall₂ (fun x y => f x = some y) (l.filter (fun x => (f x).isSome)) (l.filterMap f) := by
  induction l with
  | nil => exact List.Forall₂.nil
  | cons x xs ih =>
    cases hx : f x with
    | none =>
      rw [List.filter_cons_of_neg (by simp [hx]), List.filterMap_cons_none hx]
      exact ih
    | some y =>
      rw [List.filter_cons_of_pos (by simp [hx]), List.filterMap_cons_some hx]
      exact List.Forall₂.cons hx ih

/-- C12: the reconstruction loop is total, and its output is, in input transfer order,
exactly one line for each transfer that is not skipped as a debit-direction post-pending
transfer, that has a snapshot with its timestamp, and whose balance computations neither
overflow nor underflow; every other transfer is dropped. The ids of the output form a
subsequence of the ids of the input, each line carrying its transfer's id, account ids,
user data, timestamp, ledger, code and flags. -/
theorem statements_are_the_qualifying_transfers {α : Type} (filter : AccountTransferFilter)
    (balances : List AccountBalance) (transfers : List AccountTransfer)
    (clsFn : Option (StatementClosureFn α))
    (hb : ∀ b ∈ balances, b.DebitsPending.uint128Val.wf ∧ b.DebitsPosted.uint128Val.wf ∧
      b.CreditsPosted.uint128Val.wf)
    (ht : ∀ t ∈ transfers, t.Amount.uint128Val.wf) :
    List.Forall₂ (fun t s => statementOf filter balances clsFn t = some s ∧ carriesTransfer t s)
      (transfers.filter (lineQualifies filter balances))
      (statementsLoop filter balances transfers clsFn) ∧
    (statementsLoop filter balances transfers clsFn).length =
      (transfers.filter (lineQualifies filter balances)).length ∧
    (statementsLoop filter balances transfers clsFn).map (fun s => s.ID) =
      (transfers.filter (lineQualifies filter balances)).map (fun t => t.ID) ∧
    List.Sublist ((statementsLoop filter balances transfers clsFn).map (fun s => s.ID))
      (transfers.map (fun t => t.ID)) ∧
    (∀ t ∈ transfers, lineQualifies filter balances t = false →
      statementOf filter balances clsFn t = none) := by
  have hq : transfers.filter (lineQualifies filter balances) =
      transfers.filter (fun t => (statementOf filter balances clsFn t).isSome) := by
    apply List.filter_congr
    intro t htm
    rw [statementOf_isSome filter balances clsFn t hb (ht t htm)]
  have h2 : List.Forall₂
      (fun t s => statementOf filter balances clsFn t = some s ∧ carriesTransfer t s)
      (transfers.filter (lineQualifies filter balances))
      (statementsLoop filter balances transfers clsFn) := by
    rw [hq]
    unfold statementsLoop
    exact (forall2_filter_filterMap (statementOf filter balances clsFn) transfers).imp
      (fun t s h => ⟨h, statementOf_carries _ _ _ _ _ h⟩)
  have hids : (statementsLoop filter balances transfers clsFn).map (fun s => s.ID) =
      (transfers.filter (lineQualifies filter balances)).map (fun t => t.ID) := by
    generalize statementsLoop filter balances transfers clsFn = out at h2
    generalize transfers.filter (lineQualifies filter balances) = ts at h2
    induction h2 with
    | nil => rfl
    | cons h _ ih =>
      simp only [List.map_cons, ih]
      rw [h.2.1]
  refine ⟨h2, h2.length_eq.symm, hids, ?_, ?_⟩
  · rw [hids]
    exact (List.filter_sublist transfers).map _
  · intro t htm hqf
    have := statementOf_isSome filter balances clsFn t hb (ht t htm)
    rw [hqf] at this
    cases hs : statementOf filter balances clsFn t with
    | none => rfl
    | some s => rw [hs] at this; cases this

/-- Witness of C12: of an incoming transfer with a snapshot and a post-pending debit
without one, exactly the first gives a line. -/
theorem statements_are_the_qualifying_transfers_witness :
    (∀ b ∈ toAccountBalances plainFilter [creditedSnapshot 10],
      b.DebitsPending.uint128Val.wf ∧ b.DebitsPosted.uint128Val.wf ∧
        b.CreditsPosted.uint128Val.wf) ∧
    (∀ t ∈ toAccountTransfers plainFilter [incomingTransfer, postedTransfer],
      t.Amount.uint128Val.wf) ∧
    (statementsLoop (α := Unit) plainFilter (toAccountBalances plainFilter [creditedSnapshot 10])
        (toAccountTransfers plainFilter [incomingTransfer, postedTransfer]) none).map
        (fun s => s.ID) =
      ((toAccountTransfers plainFilter [incomingTransfer, postedTransfer]).filter
        (lineQualifies plainFilter (toAccountBalances plainFilter [creditedSnapshot 10]))).map
        (fun t => t.ID) :=
  ⟨by decide, by decide,
    (statements_are_the_qualifying_transfers plainFilter
      (toAccountBalances plainFilter [creditedSnapshot 10])
      (toAccountTransfers plainFilter [incomingTransfer, postedTransfer]) none
      (by decide) (by decide)).2.2.1⟩

theorem filterMap_filter_of_none {β γ : Type} (f : β → Option γ) (p : β → Bool) (l : List β)
    (h : ∀ x, p x = false → f x = none) : l.filterMap f = (l.filter p).filterMap f := by
  induction l with
  | nil => rfl
  | cons x xs ih =>
    cases hp : p x with
    | true =>
      rw [List.filter_cons_of_pos (by simp [hp])]
      cases hx : f x with
      | none => rw [List.filterMap_cons_none hx, List.filterMap_cons_none hx, ih]
      | some y => rw [List.filterMap_cons_some hx, List.filterMap_cons_some hx, ih]
    | false =>
      rw [List.filter_cons_of_neg (by simp [hp]), List.filterMap_cons_none (h x hp), ih]

/-- C11 (amended): the reconstructed output contains no statement line for a transfer that
carries the post-pending flag, does not carry the void-pending flag, and whose
debitAccountID equals the filter's account: the loop body appends nothing for it, and
the output is that of the input without such transfers. -/
theorem post_pending_debit_has_no_line {α : Type} (filter : AccountTransferFilter)
    (tbBalances : List TBAccountBalance) (tbTransfers : List TBTransfer)
    (closureFn : List (Option (StatementClosureFn α))) :
    (∀ (t : TBTransfer) (clsFn : Option (StatementClosureFn α)),
      t.DebitAccountID = filter.AccountID → t.Flags.PostPendingTransfer = true →
      t.Flags.VoidPendingTransfer = false →
      statementOf filter (toAccountBalances filter tbBalances) clsFn
        (toAccountTransfer filter t) = none) ∧
    GetAccountStatements filter tbBalances tbTransfers closureFn =
      GetAccountStatements filter tbBalances
        (tbTransfers.filter (fun t =>
          !(decide (t.DebitAccountID = filter.AccountID) && t.Flags.PostPendingTransfer &&
            !t.Flags.VoidPendingTransfer)))
        closureFn := by
  have key : ∀ (t : TBTransfer) (clsFn : Option (StatementClosureFn α)),
      (!(decide (t.DebitAccountID = filter.AccountID) && t.Flags.PostPendingTransfer &&
        !t.Flags.VoidPendingTransfer)) = false →
      statementOf filter (toAccountBalances filter tbBalances) clsFn
        (toAccountTransfer filter t) = none := by
    intro t clsFn h
    apply statementOf_skipped
    unfold skippedPostPending
    simpa [toAccountTransfer] using h
  constructor
  · intro t clsFn h1 h2 h3
    apply key
    simp [h1, h2, h3]
  · unfold GetAccountStatements statementsLoop toAccountTransfers
    simp only [List.filterMap_map]
    exact filterMap_filter_of_none _ _ _ (fun t h => key t _ h)

/-- Witness of C11 (amended): a post-pending transfer debiting account 1 gives no line,
even with a snapshot at its timestamp. -/
theorem post_pending_debit_has_no_line_witness :
    postedTransfer.DebitAccountID = plainFilter.AccountID ∧
    postedTransfer.Flags.PostPendingTransfer = true ∧
    postedTransfer.Flags.VoidPendingTransfer = false ∧
    statementOf (α := Unit) plainFilter (toAccountBalances plainFilter [creditedSnapshot 30]) none
      (toAccountTransfer plainFilter postedTransfer) = none :=
  ⟨by decide, by decide, by decide,
    (post_pending_debit_has_no_line plainFilter [creditedSnapshot 30] [postedTransfer] []).1
      postedTransfer none (by decide) (by decide) (by decide)⟩

set_option maxRecDepth 100000 in
/-- C11 as stated fails: a transfer that debits the filter's account and carries the
post-pending flag together with the void-pending flag takes the void branch of the
direction switch and gets a (credit) line. -/
theorem post_pending_debit_has_no_line_counterexample :
    postAndVoidTransfer.Flags.PostPendingTransfer = true ∧
    postAndVoidTransfer.DebitAccountID = plainFilter.AccountID ∧
    (GetAccountStatements (α := Unit) plainFilter [creditedSnapshot 30] [postAndVoidTransfer]
        []).map (fun s => s.ID) = [postAndVoidTransfer.ID] := by
  decide

/-! ## Order of the snapshots -/

theorem find_timestamp_perm (l1 l2 : List AccountBalance) (k : Nat) (hperm : l1.Perm l2)
    (hkeys : (l1.map (fun b => b.Timestamp)).Nodup) :
    l1.find? (fun b => decide (b.Timestamp = k)) =
      l2.find? (fun b => decide (b.Timestamp = k)) := by
  induction hperm with
  | nil => rfl
  | cons x _ ih =>
    simp only [List.map_cons, List.nodup_cons] at hkeys
    simp only [List.find?_cons]
    rw [ih hkeys.2]
  | swap x y l =>
    simp only [List.map_cons, List.nodup_cons, List.mem_cons, not_or] at hkeys
    simp only [List.find?_cons]
    by_cases hx : x.Timestamp = k
    · by_cases hy : y.Timestamp = k
      · exact absurd (hy.trans hx.symm) hkeys.1.1
      · simp [hx, hy]
    · by_cases hy : y.Timestamp = k
      · simp [hx, hy]
      · simp [hx, hy]
  | trans p1 _ ih1 ih2 =>
    rw [ih1 hkeys, ih2 ((p1.map _).nodup_iff.mp hkeys)]

/-- The loop's output does not depend on the order of snapshots with distinct timestamps. -/
theorem statementsLoop_perm {α : Type} (filter : AccountTransferFilter)
    (balances balances' : List AccountBalance) (transfers : List AccountTransfer)
    (clsFn : Option (StatementClosureFn α)) (hperm : balances.Perm balances')
    (hkeys : (balances.map (fun b => b.Timestamp)).Nodup) :
    statementsLoop filter balances transfers clsFn =
      statementsLoop filter balances' transfers clsFn := by
  unfold statementsLoop
  congr 1
  funext t
  unfold statementOf
  rw [find_timestamp_perm balances balances' t.Timestamp hperm hkeys]

/-- C13 (amended): for a fixed account and list of transfers, statement reconstruction
returns the same lines for any two snapshot lists that are permutations of one another
and whose timestamps are pairwise distinct, and running it on identical input gives
identical output. -/
theorem statements_independent_of_snapshot_order {α : Type} (filter : AccountTransferFilter)
    (tbBalances tbBalances' : List TBAccountBalance) (tbTransfers : List TBTransfer)
    (closureFn : List (Option (StatementClosureFn α)))
    (hperm : tbBalances.Perm tbBalances')
    (hkeys : (tbBalances.map (fun b => b.Timestamp)).Nodup) :
    GetAccountStatements filter tbBalances tbTransfers closureFn =
      GetAccountStatements filter tbBalances' tbTransfers closureFn ∧
    (∀ tbBalances₂ tbTransfers₂, tbBalances₂ = tbBalances → tbTransfers₂ = tbTransfers →
      GetAccountStatements filter tbBalances₂ tbTransfers₂ closureFn =
        GetAccountStatements filter tbBalances tbTransfers closureFn) := by
  constructor
  · unfold GetAccountStatements
    simp only
    apply statementsLoop_perm
    · exact hperm.map _
    · unfold toAccountBalances
      rw [List.map_map]
      exact hkeys
  · intro b2 t2 h1 h2
    rw [h1, h2]

/-- Witness of C13 (amended): two snapshots at timestamps 10 and 20, in either order. -/
theorem statements_independent_of_snapshot_order_witness :
    [creditedSnapshot 10, creditedSnapshot 20].Perm [creditedSnapshot 20, creditedSnapshot 10] ∧
    ([creditedSnapshot 10, creditedSnapshot 20].map (fun b => b.Timestamp)).Nodup ∧
    GetAccountStatements (α := Unit) plainFilter [creditedSnapshot 10, creditedSnapshot 20]
        [incomingTransfer, voidedTransfer] [] =
      GetAccountStatements plainFilter [creditedSnapshot 20, creditedSnapshot 10]
        [incomingTransfer, voidedTransfer] [] :=
  ⟨List.Perm.swap _ _ _, by decide,
    (statements_independent_of_snapshot_order plainFilter
      [creditedSnapshot 10, creditedSnapshot 20] [creditedSnapshot 20, creditedSnapshot 10]
      [incomingTransfer, voidedTransfer] [] (List.Perm.swap _ _ _) (by decide)).1⟩

set_option maxRecDepth 100000 in
/-- C13 as stated fails: two snapshots with the same timestamp 10 and different balances,
supplied in the two possible orders, give different lines (BalanceAfter 1000 and 2000),
because the lookup takes the first snapshot with the transfer's timestamp. -/
theorem statements_independent_of_snapshot_order_counterexample :
    [creditedSnapshot 10, otherSnapshot].Perm [otherSnapshot, creditedSnapshot 10] ∧
    (GetAccountStatements (α := Unit) plainFilter [creditedSnapshot 10, otherSnapshot]
        [incomingTransfer] []).map AccountStatement.rawValues =
      [(⟨0, 0⟩, ⟨0, 500⟩, ⟨0, 500⟩, ⟨0, 1000⟩)] ∧
    (GetAccountStatements (α := Unit) plainFilter [otherSnapshot, creditedSnapshot 10]
        [incomingTransfer] []).map AccountStatement.rawValues =
      [(⟨0, 0⟩, ⟨0, 500⟩, ⟨0, 1500⟩, ⟨0, 2000⟩)] ∧
    GetAccountStatements (α := Unit) plainFilter [creditedSnapshot 10, otherSnapshot]
        [incomingTransfer] [] ≠
      GetAccountStatements plainFilter [otherSnapshot, creditedSnapshot 10]
        [incomingTransfer] [] :=
  ⟨List.Perm.swap _ _ _, by decide, by decide, by decide⟩


/-- C15: for every amount (any raw value, any currency) and any pooled precisions, Div
with a divisor that is 0 (of either sign), +Inf, -Inf or NaN fails with the "invalid
divisor" error and returns the zero Uint128. -/
theorem div_rejects_invalid_divisor (a : amountCurrency) (divisor : Float64)
    (pool : PooledPrecs)
    (h : divisor.eqZero = true ∨ divisor = .inf false ∨ divisor = .inf true ∨
      divisor = .nan) :
    a.Div divisor pool = (Uint128.zero, some Err.invalidDivisor) := by
  unfold amountCurrency.Div
  rcases h with h | h | h | h
  · simp [h]
  · subst h; simp [Float64.IsInf]
  · subst h; simp [Float64.IsInf]
  · subst h; simp [Float64.IsNaN]

/-- Witness of C15: a division of 10.00 dollars by zero, and by negative zero. -/
theorem div_rejects_invalid_divisor_witness :
    amountCurrency.Div ⟨USD, Float64.zero, ⟨0, 1000⟩⟩ (.fin false 0 0) PooledPrecs.fresh =
      (Uint128.zero, some Err.invalidDivisor) ∧
    amountCurrency.Div ⟨USD, Float64.zero, ⟨0, 1000⟩⟩ (.fin true 0 0) PooledPrecs.fresh =
      (Uint128.zero, some Err.invalidDivisor) ∧
    amountCurrency.Div ⟨USD, Float64.zero, ⟨0, 1000⟩⟩ (.fin false 1 2) PooledPrecs.fresh =
      (⟨0, 250⟩, none) :=
  ⟨div_rejects_invalid_divisor _ _ _ (Or.inl (by decide)),
    div_rejects_invalid_divisor _ _ _ (Or.inl (by decide)), by decide⟩


/-! ### Float64ToUint128 -/

theorem Float64.ofUint64_MaxUint64 :
    Float64.ofUint64 MaxUint64 = .fin false (2 ^ 53) 11 := by decide

theorem Float64.round64_shape (s : Bool) (m : Nat) (e : Int) :
    Float64.round64 s m e = .inf s ∨
      ∃ k f, Float64.round64 s m e = .fin s k f ∧ (m = 0 → k = 0) := by
  unfold Float64.round64
  cases h : Float64.roundMag m e with
  | none => exact Or.inl rfl
  | some r =>
    obtain ⟨k, f⟩ := r
    refine Or.inr ⟨k, f, rfl, fun hm => ?_⟩
    subst hm
    simp only [Float64.roundMag, if_true, Option.some.injEq, Prod.mk.injEq] at h
    exact h.1.symm

theorem Float64.ofUint64_scale (d : Nat) :
    ∃ n f, Float64.ofUint64 (scaleFromDecimals d) = .fin false n f := by
  unfold scaleFromDecimals
  by_cases h : d < 31
  · rw [if_pos h]
    interval_cases d <;> exact ⟨_, _, rfl⟩
  · rw [if_neg h]
    exact ⟨_, _, rfl⟩

theorem roundHalfAway_div (m P : Nat) (hP : 0 < P) :
    (2 * m + P) / (2 * P) = if P ≤ 2 * (m % P) then m / P + 1 else m / P := by
  have hm := Nat.div_add_mod m P
  have hr := Nat.mod_lt m hP
  generalize m / P = q at *
  generalize m % P = r at *
  generalize hA : P * q = A at *
  split
  · apply Nat.div_eq_of_lt_le
    · have : (q + 1) * (2 * P) = 2 * A + 2 * P := by rw [← hA]; ring
      omega
    · have : (q + 1 + 1) * (2 * P) = 2 * A + 4 * P := by rw [← hA]; ring
      omega
  · apply Nat.div_eq_of_lt_le
    · have : q * (2 * P) = 2 * A := by rw [← hA]; ring
      omega
    · have : (q + 1) * (2 * P) = 2 * A + 2 * P := by rw [← hA]; ring
      omega

theorem Float64.Round_mag (s : Bool) (m : Nat) (e : Int) :
    ∃ k f, Float64.Round (.fin s m e) = .fin s k f ∧ 0 ≤ f ∧
      k * 2 ^ f.toNat = roundHalfAwayMag m e := by
  unfold Float64.Round roundHalfAwayMag
  by_cases he : 0 ≤ e
  · exact ⟨m, e, by simp [he], he, by simp [he]⟩
  · refine ⟨_, 0, by simp only [if_neg he]; rfl, le_refl _, ?_⟩
    rw [if_neg he]
    have hP : 0 < 2 ^ (-e).toNat := by positivity
    have := roundHalfAway_div m (2 ^ (-e).toNat) hP
    rw [pow_succ, Nat.mul_comm (2 ^ (-e).toNat) 2, this]
    simp

theorem Float64.magLt_two64 (k : Nat) (e : Int) (he : 0 ≤ e) :
    Float64.magLt (2 ^ 53) 11 k e = true ↔ 2 ^ 64 < k * 2 ^ e.toNat := by
  obtain ⟨n, rfl⟩ := Int.eq_ofNat_of_zero_le he
  unfold Float64.magLt
  simp only [Int.toNat_ofNat]
  by_cases h : (11 : Int) ≤ (n : Int)
  · rw [if_pos h]
    have e1 : ((n : Int) - 11).toNat = n - 11 := by omega
    have e2 : 2 ^ n = 2 ^ (n - 11) * 2048 := by
      rw [show (2048 : Nat) = 2 ^ 11 by norm_num, ← pow_add]
      congr 1; omega
    rw [e1, e2, decide_eq_true_eq, ← Nat.mul_assoc]
    generalize k * 2 ^ (n - 11) = x
    omega
  · rw [if_neg h]
    have hn : n < 11 := by omega
    rw [decide_eq_true_eq]
    interval_cases n <;> simp <;> omega

theorem Float64.toUint64_integral (k : Nat) (e : Int) (he : 0 ≤ e)
    (h : k * 2 ^ e.toNat < 2 ^ 64) :
    Float64.toUint64 (.fin false k e) = k * 2 ^ e.toNat := by
  unfold Float64.toUint64
  simp only [if_pos he]
  split_ifs with h1 h2
  · exact h1.symm
  · exact absurd h2 (by decide)
  · rfl


theorem amountCurrency.Float64ToUint128_clamped (a : amountCurrency)
    (h : a.float64Val.lt Float64.zero = true) :
    a.Float64ToUint128 =
      amountCurrency.Float64ToUint128 ⟨a.curr, Float64.zero, a.uint128Val⟩ := by
  have hz : Float64.lt Float64.zero Float64.zero = false := by decide
  unfold amountCurrency.Float64ToUint128
  simp only [h, hz, if_true, Bool.false_eq_true, if_false]

theorem amountCurrency.Float64ToUint128_of_product (a : amountCurrency)
    (hlt : a.float64Val.lt Float64.zero = false) (hinf : a.float64Val.IsInf = false)
    (hnan : a.float64Val.IsNaN = false) :
    a.Float64ToUint128 =
      if Float64.lt (Float64.ofUint64 MaxUint64)
          (Float64.Round (Float64.mul a.float64Val
            (Float64.ofUint64 (scaleFromDecimals a.curr.decimal)))) = true
      then .error .valueTooLarge
      else .ok (Uint128FromUint64 (Float64.toUint64 (Float64.Round
        (Float64.mul a.float64Val (Float64.ofUint64 (scaleFromDecimals a.curr.decimal)))))) := by
  unfold amountCurrency.Float64ToUint128
  simp only [hlt, hinf, hnan, Bool.false_eq_true, if_false, Bool.or_self]

theorem Float64.tail_of_fin (k : Nat) (g : Int) :
    (roundHalfAwayMag k g < 2 ^ 64 →
      (if Float64.lt (Float64.ofUint64 MaxUint64) (Float64.Round (.fin false k g)) = true
        then (.error .valueTooLarge : Except Err Uint128)
        else .ok (Uint128FromUint64 (Float64.toUint64 (Float64.Round (.fin false k g))))) =
        .ok (Uint128FromUint64 (roundHalfAwayMag k g))) ∧
    (2 ^ 64 < roundHalfAwayMag k g →
      (if Float64.lt (Float64.ofUint64 MaxUint64) (Float64.Round (.fin false k g)) = true
        then (.error .valueTooLarge : Except Err Uint128)
        else .ok (Uint128FromUint64 (Float64.toUint64 (Float64.Round (.fin false k g))))) =
        .error .valueTooLarge) := by
  obtain ⟨k', g', hR, hg, hv⟩ := Float64.Round_mag false k g
  rw [hR, Float64.ofUint64_MaxUint64, ← hv]
  have hm := Float64.magLt_two64 k' g' hg
  have hl : Float64.lt (.fin false (2 ^ 53) 11) (.fin false k' g') =
      Float64.magLt (2 ^ 53) 11 k' g' := rfl
  rw [hl]
  constructor
  · intro h
    have : ¬ Float64.magLt (2 ^ 53) 11 k' g' = true := by rw [hm]; omega
    rw [if_neg this, Float64.toUint64_integral k' g' hg h]
  · intro h
    rw [if_pos (hm.mpr h)]


theorem Float64.mul_scale_shape (s : Bool) (m : Nat) (e : Int) (d : Nat)
    (hs : s = false ∨ m = 0) :
    Float64.mul (.fin s m e) (Float64.ofUint64 (scaleFromDecimals d)) = .inf false ∨
    (∃ k g, Float64.mul (.fin s m e) (Float64.ofUint64 (scaleFromDecimals d)) =
      .fin false k g) ∨
    Float64.mul (.fin s m e) (Float64.ofUint64 (scaleFromDecimals d)) = .fin true 0 0 := by
  obtain ⟨n, f, hn⟩ := Float64.ofUint64_scale d
  rw [hn]
  rcases hs with rfl | rfl
  · have hm : Float64.mul (.fin false m e) (.fin false n f) =
        Float64.round64 false (m * n) (e + f) := rfl
    rw [hm]
    rcases Float64.round64_shape false (m * n) (e + f) with h | ⟨k, g, h, -⟩
    · exact Or.inl h
    · exact Or.inr (Or.inl ⟨k, g, h⟩)
  · have hm : Float64.mul (.fin s 0 e) (.fin false n f) = .fin (s != false) 0 0 := by
      simp [Float64.mul, Float64.round64, Float64.roundMag]
    rw [hm]
    cases s
    · exact Or.inr (Or.inl ⟨0, 0, rfl⟩)
    · exact Or.inr (Or.inr rfl)

theorem Float64.nonneg_shape (s : Bool) (m : Nat) (e : Int)
    (h : Float64.lt (.fin s m e) Float64.zero = false) : s = false ∨ m = 0 := by
  cases s
  · exact Or.inl rfl
  · right
    by_contra hm
    simp [Float64.lt, Float64.zero, hm] at h

/-- C16 (amended): Float64ToUint128 returns zero with no error when the decimal value
is negative, +Inf, -Inf or NaN. Otherwise the float64 product `p` of the value and the
scale is never NaN; when `p` is finite with magnitude `pm * 2^pe` and `R` is `p` rounded
half away from zero, the function returns `R` whenever `R < 2^64` and fails with the
overflow error whenever `R > 2^64`; it also fails when `p` is infinite. -/
theorem float64_to_uint128_rounds_float_product (a : amountCurrency) :
    ((a.float64Val.lt Float64.zero = true ∨ a.float64Val.IsInf = true ∨
        a.float64Val.IsNaN = true) →
      a.Float64ToUint128 = .ok Uint128.zero) ∧
    (a.float64Val.lt Float64.zero = false → a.float64Val.IsInf = false →
        a.float64Val.IsNaN = false →
      Float64.mul a.float64Val (Float64.ofUint64 (scaleFromDecimals a.curr.decimal)) ≠
        .nan ∧
      (∀ s, Float64.mul a.float64Val
          (Float64.ofUint64 (scaleFromDecimals a.curr.decimal)) = .inf s →
        a.Float64ToUint128 = .error .valueTooLarge) ∧
      (∀ s pm pe, Float64.mul a.float64Val
          (Float64.ofUint64 (scaleFromDecimals a.curr.decimal)) = .fin s pm pe →
        (roundHalfAwayMag pm pe < 2 ^ 64 →
          a.Float64ToUint128 = .ok (Uint128FromUint64 (roundHalfAwayMag pm pe))) ∧
        (2 ^ 64 < roundHalfAwayMag pm pe →
          a.Float64ToUint128 = .error .valueTooLarge))) := by
  have key : ∀ b : amountCurrency, b.float64Val.lt Float64.zero = false →
      b.float64Val.IsInf = false → b.float64Val.IsNaN = false →
      Float64.mul b.float64Val (Float64.ofUint64 (scaleFromDecimals b.curr.decimal)) ≠
        .nan ∧
      (∀ s, Float64.mul b.float64Val
          (Float64.ofUint64 (scaleFromDecimals b.curr.decimal)) = .inf s →
        b.Float64ToUint128 = .error .valueTooLarge) ∧
      (∀ s pm pe, Float64.mul b.float64Val
          (Float64.ofUint64 (scaleFromDecimals b.curr.decimal)) = .fin s pm pe →
        (roundHalfAwayMag pm pe < 2 ^ 64 →
          b.Float64ToUint128 = .ok (Uint128FromUint64 (roundHalfAwayMag pm pe))) ∧
        (2 ^ 64 < roundHalfAwayMag pm pe →
          b.Float64ToUint128 = .error .valueTooLarge)) := by
    intro b hlt hinf hnan
    rw [amountCurrency.Float64ToUint128_of_product b hlt hinf hnan]
    cases hv : b.float64Val with
    | nan => rw [hv] at hnan; cases hnan
    | inf s => rw [hv] at hinf; cases hinf
    | fin s m e =>
      rw [hv] at hlt
      rcases Float64.mul_scale_shape s m e b.curr.decimal (Float64.nonneg_shape s m e hlt)
        with hp | ⟨k, g, hp⟩ | hp
      · rw [hp]
        exact ⟨fun h => Float64.noConfusion h, fun _ _ => rfl,
          fun _ _ _ h => Float64.noConfusion h⟩
      · rw [hp]
        refine ⟨fun h => Float64.noConfusion h, fun _ h => Float64.noConfusion h, ?_⟩
        intro s' pm pe h
        cases h
        exact Float64.tail_of_fin _ _
      · rw [hp]
        refine ⟨fun h => Float64.noConfusion h, fun _ h => Float64.noConfusion h, ?_⟩
        intro s' pm pe h
        cases h
        exact ⟨fun _ => rfl, fun h => absurd h (by decide)⟩
  constructor
  · intro h
    by_cases hlt : a.float64Val.lt Float64.zero = true
    · rw [amountCurrency.Float64ToUint128_clamped a hlt]
      have hk := (key ⟨a.curr, Float64.zero, a.uint128Val⟩ rfl rfl rfl).2.2
      have hz : Float64.mul Float64.zero
          (Float64.ofUint64 (scaleFromDecimals a.curr.decimal)) = .fin false 0 0 := by
        obtain ⟨n, f, hn⟩ := Float64.ofUint64_scale a.curr.decimal
        rw [hn]
        simp [Float64.zero, Float64.mul, Float64.round64, Float64.roundMag]
      exact (hk false 0 0 hz).1 (by decide)
    · have hlt2 : a.float64Val.lt Float64.zero = false := by simpa using hlt
      have hinf : (a.float64Val.IsInf || a.float64Val.IsNaN) = true := by
        rcases h with h | h | h
        · exact absurd h hlt
        · simp [h]
        · simp [h]
      unfold amountCurrency.Float64ToUint128
      simp only [hlt2, Bool.false_eq_true, if_false, hinf, if_true]
  · exact key a

/-- Witness of C16 (amended): a negative value is zero, 0.125 dollars is 13 cents (the
product 12.5 rounds away from zero), and `2^65` dong overflows. -/
theorem float64_to_uint128_rounds_float_product_witness :
    amountCurrency.Float64ToUint128 ⟨USD, .fin true 3 0, Uint128.zero⟩ = .ok Uint128.zero ∧
    amountCurrency.Float64ToUint128 ⟨USD, .fin false 1 (-3), Uint128.zero⟩ = .ok ⟨0, 13⟩ ∧
    amountCurrency.Float64ToUint128 ⟨VND, .fin false 1 65, Uint128.zero⟩ =
      .error .valueTooLarge :=
  ⟨(float64_to_uint128_rounds_float_product ⟨USD, .fin true 3 0, Uint128.zero⟩).1
      (Or.inl (by decide)),
    ((((float64_to_uint128_rounds_float_product ⟨USD, .fin false 1 (-3), Uint128.zero⟩).2
      (by decide) (by decide) (by decide)).2.2 false 100 (-3) (by decide)).1 (by decide)).trans
      (by decide),
    (((float64_to_uint128_rounds_float_product ⟨VND, .fin false 1 65, Uint128.zero⟩).2
      (by decide) (by decide) (by decide)).2.2 false 1 65 (by decide)).2 (by decide)⟩

/-- Counterexample to C16 as stated. The double nearest to 0.015 is below 0.015, so its
exact product with the scale 100 of the dollar rounds to 1, yet the float64 product is
exactly 1.5 and the function returns 2. And the value `2^64` in dong, whose rounded
scaled value exceeds 64 bits, is not rejected: the comparison is with
`float64(MaxUint64)`, which is `2^64`. -/
theorem float64_to_uint128_exact_rounding_counterexample :
    roundHalfAwayMag (8646911284551352 * scaleFromDecimals USD.decimal) (-59) = 1 ∧
    amountCurrency.Float64ToUint128 ⟨USD, .fin false 8646911284551352 (-59), Uint128.zero⟩ =
      .ok ⟨0, 2⟩ ∧
    roundHalfAwayMag (1 * scaleFromDecimals VND.decimal) 64 = 2 ^ 64 ∧
    2 ^ 64 - 1 < roundHalfAwayMag (1 * scaleFromDecimals VND.decimal) 64 ∧
    amountCurrency.Float64ToUint128 ⟨VND, .fin false 1 64, Uint128.zero⟩ =
      .ok ⟨0, Float64.uint64OutOfRange⟩ := by
  decide


/-! ## Error bounds of the float64 operations -/

theorem natBitLen_le_iff (m k : Nat) : natBitLen m ≤ k ↔ m < 2 ^ k :=
  bitLenAux_le_iff m m k (Nat.le_refl _)

theorem natBitLen_lt (m : Nat) : m < 2 ^ natBitLen m :=
  (natBitLen_le_iff m _).mp (Nat.le_refl _)

theorem natBitLen_ge (m : Nat) (hm : 0 < natBitLen m) : 2 ^ (natBitLen m - 1) ≤ m := by
  by_contra h
  have := (natBitLen_le_iff m (natBitLen m - 1)).mpr (by omega)
  omega

theorem Float64.round64_small (m : Nat) (e : Int) (hm : m ≠ 0) (hL : natBitLen m ≤ 53)
    (he : -1074 ≤ e) (hu : e + natBitLen m ≤ 1024) :
    Float64.round64 false m e = .fin false m e := by
  have hq : max (e + (natBitLen m : Int) - 53) (-1074) ≤ e := by omega
  have h2 : ¬ ((natBitLen m : Int) + e > 1024) := by omega
  simp only [Float64.round64, Float64.roundMag, if_neg hm, if_pos hq, if_neg h2]

/-- Rounding of a significand of more than 53 bits: `s` bits are dropped, the result is
within half a unit of the last place, and exact when the dropped bits are zero. -/
theorem Float64.round64_large (m : Nat) (e : Int) (hL : 53 < natBitLen m)
    (he : -1000 ≤ e) (hu : e + natBitLen m ≤ 1000) :
    ∃ m' : Nat,
      Float64.round64 false m e = .fin false m' (e + ((natBitLen m - 53 : Nat) : Int)) ∧
      2 * (m' * 2 ^ (natBitLen m - 53)) ≤ 2 * m + 2 ^ (natBitLen m - 53) ∧
      2 * m ≤ 2 * (m' * 2 ^ (natBitLen m - 53)) + 2 ^ (natBitLen m - 53) ∧
      (m % 2 ^ (natBitLen m - 53) = 0 → m' * 2 ^ (natBitLen m - 53) = m) ∧
      2 ^ 52 ≤ m' ∧ m' ≤ 2 ^ 53 := by
  have hm : m ≠ 0 := by
    rintro rfl
    have : natBitLen 0 = 0 := rfl
    omega
  obtain ⟨s, hs⟩ : ∃ s, natBitLen m - 53 = s + 1 := ⟨natBitLen m - 54, by omega⟩
  have hLs : natBitLen m = s + 54 := by omega
  have hlt := natBitLen_lt m
  have hge := natBitLen_ge m (by omega)
  rw [hLs] at hlt hge
  rw [hs]
  have hP : (2 : Nat) ^ (s + 1) = 2 * 2 ^ s := by rw [pow_succ]; ring
  have hH : 0 < 2 ^ s := by positivity
  have hdm := Nat.div_add_mod m (2 ^ (s + 1))
  have hml := Nat.mod_lt m (show 0 < 2 ^ (s + 1) by positivity)
  have e1 : (2 : Nat) ^ (s + 54 - 1) = 2 ^ 52 * (2 * 2 ^ s) := by
    rw [show s + 54 - 1 = 52 + (s + 1) by omega, pow_add, hP]
  have e2 : (2 : Nat) ^ (s + 54) = 2 ^ 53 * (2 * 2 ^ s) := by
    rw [show s + 54 = 53 + (s + 1) by omega, pow_add, hP]
  rw [e1] at hge
  rw [e2] at hlt
  obtain ⟨hi, hhi⟩ : ∃ hi, m / 2 ^ (s + 1) = hi := ⟨_, rfl⟩
  obtain ⟨lo, hlo⟩ : ∃ lo, m % 2 ^ (s + 1) = lo := ⟨_, rfl⟩
  obtain ⟨H, hHd⟩ : ∃ H, 2 ^ s = H := ⟨_, rfl⟩
  rw [hhi, hlo, hP, hHd] at hdm
  rw [hlo, hP, hHd] at hml
  rw [hHd] at hge hlt hH
  have hlo2 : m % (2 * H) = lo := by rw [← hHd, ← hP]; exact hlo
  have hhi52 : 2 ^ 52 ≤ hi := by
    by_contra hc
    have : hi + 1 ≤ 2 ^ 52 := by omega
    have : (hi + 1) * (2 * H) ≤ 2 ^ 52 * (2 * H) := Nat.mul_le_mul_right _ this
    have e3 : (hi + 1) * (2 * H) = 2 * H * hi + 2 * H := by ring
    omega
  have hhi53 : hi < 2 ^ 53 := by
    by_contra hc
    have : 2 ^ 53 ≤ hi := by omega
    have : 2 ^ 53 * (2 * H) ≤ hi * (2 * H) := Nat.mul_le_mul_right _ this
    have e3 : hi * (2 * H) = 2 * H * hi := by ring
    omega
  rw [hP, hHd, hlo2]
  refine ⟨if lo > H ∨ (lo = H ∧ hi % 2 = 1) then hi + 1 else hi, ?_, ?_, ?_, ?_, ?_, ?_⟩
  · have hq : max (e + ((s + 54 : Nat) : Int) - 53) (-1074) = e + ((s + 1 : Nat) : Int) := by
      push_cast
      omega
    have hne : ¬ (e + ((s + 1 : Nat) : Int) ≤ e) := by
      push_cast
      omega
    have hsub : (e + ((s + 1 : Nat) : Int) - e).toNat = s + 1 := by
      push_cast
      omega
    have hb : natBitLen (if lo > H ∨ (lo = H ∧ hi % 2 = 1) then hi + 1 else hi) ≤ 54 := by
      rw [natBitLen_le_iff]
      split <;> omega
    have h2 : ¬ ((natBitLen (if lo > H ∨ (lo = H ∧ hi % 2 = 1) then hi + 1 else hi) : Int) +
        (e + ((s + 1 : Nat) : Int)) > 1024) := by
      push_cast
      omega
    simp only [Float64.round64, Float64.roundMag, if_neg hm, hLs, hq, if_neg hne, hsub,
      Nat.add_sub_cancel, hhi, hlo, hHd, if_neg h2]
  · split
    · have e3 : (hi + 1) * (2 * H) = 2 * H * hi + 2 * H := by ring
      omega
    · have e3 : hi * (2 * H) = 2 * H * hi := by ring
      omega
  · split
    · have e3 : (hi + 1) * (2 * H) = 2 * H * hi + 2 * H := by ring
      omega
    · have e3 : hi * (2 * H) = 2 * H * hi := by ring
      omega
  · intro h0
    subst h0
    have hn : ¬ (0 > H ∨ (0 = H ∧ hi % 2 = 1)) := by omega
    rw [if_neg hn]
    have e3 : hi * (2 * H) = 2 * H * hi := by ring
    omega
  · split <;> omega
  · split <;> omega

theorem mod_pow_of_small_factor (c w : Nat) (hc : c ≤ 2 ^ 53) :
    (c * 2 ^ w) % 2 ^ (natBitLen (c * 2 ^ w) - 53) = 0 := by
  by_cases h53 : c = 2 ^ 53
  · subst h53
    rw [← pow_add]
    have hb : natBitLen (2 ^ (53 + w)) ≤ 54 + w := by
      rw [natBitLen_le_iff]
      exact Nat.pow_lt_pow_right (by norm_num) (by omega)
    apply Nat.mod_eq_zero_of_dvd
    exact pow_dvd_pow 2 (by omega)
  · have hb : natBitLen (c * 2 ^ w) ≤ 53 + w := by
      rw [natBitLen_le_iff, pow_add]
      have : 0 < 2 ^ w := by positivity
      exact Nat.mul_lt_mul_of_pos_right (by omega) this
    apply Nat.mod_eq_zero_of_dvd
    exact Dvd.dvd.mul_left (pow_dvd_pow 2 (by omega)) c

/-- The value of a rounded significand: within a relative error of `2^-53`, and exact
when the significand is a number of at most 53 bits times a power of two. -/
theorem Float64.round64_val (m : Nat) (e : Int) (hm : 0 < m) (he : -1000 ≤ e)
    (hu : e + natBitLen m ≤ 1000) :
    ∃ (m' : Nat) (e' : Int), Float64.round64 false m e = .fin false m' e' ∧
      0 < m' ∧ m' ≤ 2 ^ 53 ∧ e ≤ e' ∧ e' ≤ e + natBitLen m ∧ (53 < natBitLen m → 2 ^ 52 ≤ m') ∧
      |(m' : ℚ) * 2 ^ e' - m * 2 ^ e| * 2 ^ 53 ≤ (m : ℚ) * 2 ^ e ∧
      (∀ c w : Nat, c ≤ 2 ^ 53 → m = c * 2 ^ w → (m' : ℚ) * 2 ^ e' = m * 2 ^ e) := by
  have hpos : (0 : ℚ) < 2 ^ e := by positivity
  by_cases hL : natBitLen m ≤ 53
  · refine ⟨m, e, Float64.round64_small m e (by omega) hL (by omega) (by omega), hm, ?_,
      le_refl _, by omega, fun h => absurd h (by omega), ?_, fun _ _ _ _ => rfl⟩
    · have := (natBitLen_le_iff m 53).mp hL
      omega
    · rw [sub_self, abs_zero, zero_mul]
      positivity
  · obtain ⟨m', hr, h1, h2, h3, h4, h5⟩ := Float64.round64_large m e (by omega) he hu
    have hge := natBitLen_ge m (by omega)
    obtain ⟨s, hs⟩ : ∃ s, natBitLen m - 53 = s := ⟨_, rfl⟩
    rw [hs] at hr h1 h2 h3
    have hs1 : natBitLen m - 1 = 52 + s := by omega
    rw [hs1, pow_add] at hge
    have hz : (2 : ℚ) ^ (e + (s : Int)) = 2 ^ e * 2 ^ s := by
      rw [zpow_add₀ (by norm_num : (2 : ℚ) ≠ 0), zpow_natCast]
    have q1 : (2 : ℚ) * (m' * 2 ^ s) ≤ 2 * m + 2 ^ s := by exact_mod_cast h1
    have q2 : (2 : ℚ) * m ≤ 2 * (m' * 2 ^ s) + 2 ^ s := by exact_mod_cast h2
    have q3 : (2 : ℚ) ^ 52 * 2 ^ s ≤ m := by exact_mod_cast hge
    refine ⟨m', e + (s : Int), hr, by omega, h5, by omega, by omega, fun _ => h4, ?_, ?_⟩
    · rw [hz]
      have e1 : (m' : ℚ) * (2 ^ e * 2 ^ s) - m * 2 ^ e = 2 ^ e * (m' * 2 ^ s - m) := by ring
      rw [e1, abs_mul, abs_of_pos hpos, mul_assoc, mul_comm (m : ℚ) (2 ^ e)]
      apply mul_le_mul_of_nonneg_left _ (le_of_lt hpos)
      have habs : |(m' : ℚ) * 2 ^ s - m| ≤ 2 ^ s / 2 := by
        rw [abs_le]
        constructor <;> linarith
      calc |(m' : ℚ) * 2 ^ s - m| * 2 ^ 53 ≤ 2 ^ s / 2 * 2 ^ 53 :=
            mul_le_mul_of_nonneg_right habs (by positivity)
        _ = 2 ^ 52 * 2 ^ s := by ring
        _ ≤ m := q3
    · intro c w hc hmc
      have hdiv : m % 2 ^ s = 0 := by
        have := mod_pow_of_small_factor c w hc
        rw [← hmc, hs] at this
        exact this
      have := h3 hdiv
      rw [hz]
      have q4 : (m' : ℚ) * 2 ^ s = m := by exact_mod_cast this
      rw [← q4]
      ring

theorem two_zpow_neg (e : Int) (he : e < 0) :
    (2 : ℚ) ^ e = 1 / 2 ^ (-e).toNat := by
  have h : e = -(((-e).toNat : Nat) : Int) := by omega
  conv_lhs => rw [h]
  rw [zpow_neg, zpow_natCast, one_div]

theorem two_zpow_nonneg (e : Int) (he : 0 ≤ e) : (2 : ℚ) ^ e = 2 ^ e.toNat := by
  have h : e = ((e.toNat : Nat) : Int) := by omega
  conv_lhs => rw [h]
  rw [zpow_natCast]

/-- Truncation of a non-negative float64 whose value lies in `[T, T+1)`. -/
theorem Float64.toInt64_val (m : Nat) (e : Int) (T : Nat) (hT : T < 2 ^ 63)
    (h1 : (T : ℚ) ≤ m * 2 ^ e) (h2 : (m : ℚ) * 2 ^ e < T + 1) :
    Float64.toInt64 (.fin false m e) = (T : Int) := by
  unfold Float64.toInt64
  simp only [Bool.false_eq_true, if_false]
  by_cases he : 0 ≤ e
  · rw [if_pos he]
    rw [two_zpow_nonneg e he] at h1 h2
    have a1 : T ≤ m * 2 ^ e.toNat := by exact_mod_cast h1
    have a2 : m * 2 ^ e.toNat < T + 1 := by exact_mod_cast h2
    have : m * 2 ^ e.toNat = T := by omega
    rw [this, if_pos hT]
  · rw [if_neg he]
    rw [two_zpow_neg e (by omega)] at h1 h2
    have hp : (0 : ℚ) < 2 ^ (-e).toNat := by positivity
    rw [mul_one_div, le_div_iff₀ hp] at h1
    rw [mul_one_div, div_lt_iff₀ hp] at h2
    have a1 : T * 2 ^ (-e).toNat ≤ m := by exact_mod_cast h1
    have a2 : m < (T + 1) * 2 ^ (-e).toNat := by exact_mod_cast h2
    have : m / 2 ^ (-e).toNat = T := Nat.div_eq_of_lt_le a1 a2
    rw [this, if_pos hT]

/-- Rounding half away from zero of a non-negative value that lies in
`[T - 1/2, T + 1/2)`. -/
theorem roundHalfAwayMag_val (m : Nat) (e : Int) (T : Nat)
    (h1 : (T : ℚ) - 1 / 2 ≤ m * 2 ^ e) (h2 : (m : ℚ) * 2 ^ e < T + 1 / 2) :
    roundHalfAwayMag m e = T := by
  unfold roundHalfAwayMag
  by_cases he : 0 ≤ e
  · rw [if_pos he]
    rw [two_zpow_nonneg e he] at h1 h2
    have a1 : (2 : ℚ) * T - 1 ≤ 2 * (m * 2 ^ e.toNat) := by linarith
    have a2 : (2 : ℚ) * (m * 2 ^ e.toNat) < 2 * T + 1 := by linarith
    have b1 : 2 * T ≤ 2 * (m * 2 ^ e.toNat) + 1 := by exact_mod_cast (by linarith : (2 : ℚ) * T ≤ 2 * (m * 2 ^ e.toNat) + 1)
    have b2 : 2 * (m * 2 ^ e.toNat) < 2 * T + 1 := by exact_mod_cast a2
    omega
  · rw [if_neg he]
    rw [two_zpow_neg e (by omega)] at h1 h2
    have hp : (0 : ℚ) < 2 ^ (-e).toNat := by positivity
    rw [mul_one_div, le_div_iff₀ hp] at h1
    rw [mul_one_div, div_lt_iff₀ hp] at h2
    have c1 : (T : ℚ) * (2 * 2 ^ (-e).toNat) ≤ 2 * m + 2 ^ (-e).toNat := by linarith
    have c2 : (2 : ℚ) * m + 2 ^ (-e).toNat < (T + 1) * (2 * 2 ^ (-e).toNat) := by linarith
    have a1 : T * 2 ^ ((-e).toNat + 1) ≤ 2 * m + 2 ^ (-e).toNat := by
      rw [pow_succ, Nat.mul_comm (2 ^ (-e).toNat) 2]
      exact_mod_cast c1
    have a2 : 2 * m + 2 ^ (-e).toNat < (T + 1) * 2 ^ ((-e).toNat + 1) := by
      rw [pow_succ, Nat.mul_comm (2 ^ (-e).toNat) 2]
      exact_mod_cast c2
    exact Nat.div_eq_of_lt_le a1 a2

/-- `int64(math.Round(p))` for a non-negative `p` whose value lies in
`[T - 1/2, T + 1/2)`. -/
theorem Float64.toInt64_Round_val (m : Nat) (e : Int) (T : Nat) (hT : T < 2 ^ 63)
    (h1 : (T : ℚ) - 1 / 2 ≤ m * 2 ^ e) (h2 : (m : ℚ) * 2 ^ e < T + 1 / 2) :
    Float64.toInt64 (Float64.Round (.fin false m e)) = (T : Int) := by
  obtain ⟨k, f, hR, hf, hv⟩ := Float64.Round_mag false m e
  rw [roundHalfAwayMag_val m e T h1 h2] at hv
  rw [hR]
  unfold Float64.toInt64
  simp only [Bool.false_eq_true, if_false, if_pos hf, hv, if_pos hT]

/-- The float64 quotient of an integer `r < 2^51` by a scale `n * 2^g`: within a relative
error of `2^-53` of the exact quotient, and equal to it when it is an integer. -/
theorem Float64.div_scale (r n g : Nat) (hr : 0 < r) (hr51 : r < 2 ^ 51) (hn : 0 < n)
    (hn53 : n < 2 ^ 53) (hg : g ≤ 64) :
    ∃ (m' : Nat) (e' : Int),
      Float64.div (.fin false r 0) (.fin false n (g : Int)) = .fin false m' e' ∧
      2 ^ 52 ≤ m' ∧ m' ≤ 2 ^ 53 ∧ -300 ≤ e' ∧ e' ≤ 300 ∧
      |(m' : ℚ) * 2 ^ e' - (r : ℚ) / (n * 2 ^ g)| * 2 ^ 53 ≤ (r : ℚ) / (n * 2 ^ g) ∧
      (∀ q : Nat, r = q * (n * 2 ^ g) → (m' : ℚ) * 2 ^ e' = q) := by
  obtain ⟨k, hk⟩ : ∃ k, natBitLen n + 55 - natBitLen r = k := ⟨_, rfl⟩
  have hbn : natBitLen n ≤ 53 := (natBitLen_le_iff n 53).mpr hn53
  have hbr : natBitLen r ≤ 51 := (natBitLen_le_iff r 51).mpr hr51
  have hbr0 : 0 < natBitLen r := by
    by_contra h
    have := (natBitLen_le_iff r 0).mpr
    have h0 : natBitLen r = 0 := by omega
    have := (natBitLen_le_iff r 0).mp (by omega)
    omega
  have hrge := natBitLen_ge r hbr0
  have hnlt := natBitLen_lt n
  -- the quotient of the significands
  have hdm := Nat.div_add_mod (r * 2 ^ k) n
  have hml := Nat.mod_lt (r * 2 ^ k) hn
  obtain ⟨Q, hQ⟩ : ∃ Q, r * 2 ^ k / n = Q := ⟨_, rfl⟩
  obtain ⟨rem, hrem⟩ : ∃ rem, r * 2 ^ k % n = rem := ⟨_, rfl⟩
  rw [hQ, hrem] at hdm
  rw [hrem] at hml
  have hA : 2 ^ 54 * n ≤ r * 2 ^ k := by
    have h1 : 2 ^ (natBitLen r - 1) * 2 ^ k ≤ r * 2 ^ k := Nat.mul_le_mul_right _ hrge
    have h2 : (2 : Nat) ^ (natBitLen r - 1) * 2 ^ k = 2 ^ 54 * 2 ^ natBitLen n := by
      rw [← pow_add, ← pow_add]
      congr 1
      omega
    have h3 : 2 ^ 54 * n ≤ 2 ^ 54 * 2 ^ natBitLen n :=
      Nat.mul_le_mul_left _ (le_of_lt hnlt)
    omega
  have hQ54 : 2 ^ 54 ≤ Q := by
    rw [← hQ]
    exact (Nat.le_div_iff_mul_le hn).mpr hA
  obtain ⟨σ, hσ⟩ : ∃ σ : Nat, (if rem = 0 then 0 else 1) = σ := ⟨_, rfl⟩
  have hσ1 : σ ≤ 1 := by rw [← hσ]; split <;> omega
  have hσ0 : rem = 0 → σ = 0 := by intro h; rw [← hσ, if_pos h]
  have hσp : rem ≠ 0 → σ = 1 := by intro h; rw [← hσ, if_neg h]
  -- the size of the significand to round
  have hMlt : 2 * Q + σ < 2 ^ (53 + k) := by
    have h1 : n * Q ≤ r * 2 ^ k := by omega
    have h2 : Q ≤ r * 2 ^ k := le_trans (Nat.le_mul_of_pos_left Q hn) h1
    have h3 : r * 2 ^ k < 2 ^ 51 * 2 ^ k := Nat.mul_lt_mul_of_pos_right hr51 (by positivity)
    have h4 : (2 : Nat) ^ (53 + k) = 4 * (2 ^ 51 * 2 ^ k) := by
      rw [pow_add]; ring
    omega
  have hbM : natBitLen (2 * Q + σ) ≤ 53 + k := (natBitLen_le_iff _ _).mpr hMlt
  have hbM2 : 55 < natBitLen (2 * Q + σ) := by
    by_contra h
    have := (natBitLen_le_iff (2 * Q + σ) 55).mp (by omega)
    omega
  have hk108 : k ≤ 108 := by omega
  obtain ⟨m', e', hround, hm0, hm53, he1, he2, hm52, _, hex⟩ :=
    Float64.round64_val (2 * Q + σ) (0 - (g : Int) - (k : Int) - 1) (by omega) (by omega)
      (by omega)
  obtain ⟨m'', hlarge, hup, hdown, _, _, _⟩ :=
    Float64.round64_large (2 * Q + σ) (0 - (g : Int) - (k : Int) - 1) (by omega) (by omega)
      (by omega)
  have hinj := Float64.fin.inj (hround.symm.trans hlarge)
  obtain ⟨sh, hsh⟩ : ∃ sh, natBitLen (2 * Q + σ) - 53 = sh + 2 :=
    ⟨natBitLen (2 * Q + σ) - 55, by omega⟩
  have hm'' : m'' = m' := hinj.2.1.symm
  have he' : e' = 0 - (g : Int) - (k : Int) - 1 + ((sh + 2 : Nat) : Int) := by
    rw [← hsh]; exact hinj.2.2
  rw [hm'', hsh] at hup hdown
  have hMge := natBitLen_ge (2 * Q + σ) (by omega)
  rw [show natBitLen (2 * Q + σ) - 1 = 52 + (sh + 2) by omega] at hMge
  refine ⟨m', e', ?_, hm52 (by omega), hm53, by omega, by omega, ?_, ?_⟩
  · have hn0 : ¬ n = 0 := by omega
    have hr0 : ¬ r = 0 := by omega
    simp only [Float64.div, if_neg hn0, if_neg hr0, hk, hQ, hrem, hσ, bne_self_eq_false]
    exact hround
  · -- the error of the quotient, in units of 2^-(g+k+1)
    obtain ⟨P4, hP4⟩ : ∃ P4, 2 ^ sh = P4 := ⟨_, rfl⟩
    have hP : (2 : Nat) ^ (sh + 2) = 4 * P4 := by rw [pow_add, hP4]; ring
    have hPp : 0 < P4 := by rw [← hP4]; positivity
    rw [hP] at hup hdown
    rw [pow_add, hP] at hMge
    obtain ⟨A, hA'⟩ : ∃ A, m' * P4 = A := ⟨_, rfl⟩
    have eA : m' * (4 * P4) = 4 * A := by rw [← hA']; ring
    rw [eA] at hup hdown
    have hc : 2 ^ 54 * P4 ≤ 2 * Q := by omega
    have ha : σ = 1 → 4 * A ≤ 2 * Q + 2 * P4 ∧ 2 * Q + 2 ≤ 4 * A + 2 * P4 := by
      intro h; omega
    have hb : σ = 0 → 4 * A ≤ 2 * Q + 2 * P4 ∧ 2 * Q ≤ 4 * A + 2 * P4 := by
      intro h; omega
    have hnq : (0 : ℚ) < n := by exact_mod_cast hn
    have hdq : (n : ℚ) * Q + rem = r * 2 ^ k := by exact_mod_cast hdm
    have hremq : (rem : ℚ) < n := by exact_mod_cast hml
    have hrem0 : (0 : ℚ) ≤ rem := by positivity
    have hcq : (2 : ℚ) ^ 54 * P4 ≤ 2 * Q := by exact_mod_cast hc
    have hE : (2 : ℚ) ^ (0 - (g : Int) - (k : Int) - 1) = 1 / (2 ^ g * 2 ^ k * 2) := by
      rw [show (0 - (g : Int) - (k : Int) - 1) = -(((g + k + 1 : Nat)) : Int) by push_cast; ring,
        zpow_neg, zpow_natCast, pow_add, pow_add, pow_one, one_div]
    have hv : (m' : ℚ) * 2 ^ e' = (4 * A : ℚ) * (1 / (2 ^ g * 2 ^ k * 2)) := by
      rw [he', zpow_add₀ (by norm_num : (2 : ℚ) ≠ 0), hE, zpow_natCast]
      have : ((2 : ℚ) ^ (sh + 2)) = 4 * P4 := by exact_mod_cast hP
      rw [this, ← hA']
      push_cast
      ring
    have hX : (r : ℚ) / (n * 2 ^ g) = (2 * Q + 2 * rem / n) * (1 / (2 ^ g * 2 ^ k * 2)) := by
      field_simp
      linear_combination (-(2 : ℚ) * 2 ^ g * n) * hdq
    obtain ⟨U, hU⟩ : ∃ U : ℚ, 1 / (2 ^ g * 2 ^ k * 2) = U := ⟨_, rfl⟩
    have hUp : 0 < U := by rw [← hU]; positivity
    rw [hU] at hv hX
    rw [hv, hX]
    obtain ⟨ρ, hρ⟩ : ∃ ρ : ℚ, 2 * (rem : ℚ) / n = ρ := ⟨_, rfl⟩
    have hρ0 : 0 ≤ ρ := by rw [← hρ]; positivity
    have hρ2 : ρ < 2 := by
      rw [← hρ, div_lt_iff₀ hnq]
      linarith
    have hmain : |(4 * A : ℚ) - (2 * Q + ρ)| ≤ 2 * P4 := by
      rw [abs_le]
      by_cases h0 : rem = 0
      · have hs := hb (hσ0 h0)
        have h1 : (4 * A : ℚ) ≤ 2 * Q + 2 * P4 := by exact_mod_cast hs.1
        have h2 : (2 * Q : ℚ) ≤ 4 * A + 2 * P4 := by exact_mod_cast hs.2
        have hρz : ρ = 0 := by rw [← hρ, h0]; simp
        rw [hρz]
        constructor <;> linarith
      · have hs := ha (hσp h0)
        have h1 : (4 * A : ℚ) ≤ 2 * Q + 2 * P4 := by exact_mod_cast hs.1
        have h2 : (2 * Q + 2 : ℚ) ≤ 4 * A + 2 * P4 := by exact_mod_cast hs.2
        constructor <;> linarith
    have e3 : (4 * A : ℚ) * U - (2 * Q + ρ) * U = ((4 * A : ℚ) - (2 * Q + ρ)) * U := by ring
    rw [hρ, e3, abs_mul, abs_of_pos hUp]
    have h5 : |(4 * A : ℚ) - (2 * Q + ρ)| * 2 ^ 53 ≤ 2 * Q + ρ := by
      have := mul_le_mul_of_nonneg_right hmain (show (0 : ℚ) ≤ 2 ^ 53 by positivity)
      norm_num at this hcq ⊢
      linarith
    have := mul_le_mul_of_nonneg_right h5 (le_of_lt hUp)
    linarith
  · intro q hq
    have hA2 : r * 2 ^ k = n * (q * 2 ^ (g + k)) := by
      rw [hq, pow_add]; ring
    have hQv : Q = q * 2 ^ (g + k) := by
      rw [← hQ, hA2]
      exact Nat.mul_div_cancel_left _ hn
    have hrem0 : rem = 0 := by
      rw [← hrem, hA2]
      exact Nat.mul_mod_right _ _
    have hσv := hσ0 hrem0
    have hqle : q ≤ 2 ^ 53 := by
      have h1 : 0 < n * 2 ^ g := by positivity
      have h2 : q ≤ q * (n * 2 ^ g) := Nat.le_mul_of_pos_right q h1
      omega
    have hMv : 2 * Q + σ = q * 2 ^ (g + k + 1) := by
      rw [hQv, hσv, pow_succ]; ring
    rw [hex q (g + k + 1) hqle hMv]
    rw [hMv]
    push_cast
    rw [show (0 - (g : Int) - (k : Int) - 1) = -(((g + k + 1 : Nat)) : Int) by push_cast; ring,
      zpow_neg, zpow_natCast]
    field_simp

theorem Float64.round64_zero (s : Bool) (e : Int) : Float64.round64 s 0 e = .fin s 0 0 := by
  simp [Float64.round64, Float64.roundMag]

theorem Float64.ofInt64_small (q : Nat) (hq : q < 2 ^ 53) :
    Float64.ofInt64 (q : Int) = .fin false q 0 := by
  unfold Float64.ofInt64
  have h : decide ((q : Int) < 0) = false := by
    rw [decide_eq_false_iff_not]
    omega
  rw [h, Int.natAbs_ofNat]
  by_cases h0 : q = 0
  · subst h0
    exact Float64.round64_zero false 0
  · exact Float64.round64_small q 0 h0 ((natBitLen_le_iff q 53).mpr hq) (by norm_num)
      (by
        have := (natBitLen_le_iff q 53).mpr hq
        omega)

/-- The float64 difference of a value `m' * 2^e'` of at most 53 bits, `e' <= 0`, and an
integer below it is exact. -/
theorem Float64.sub_int (m' : Nat) (e' : Int) (q : Nat) (he : e' ≤ 0) (he2 : -300 ≤ e')
    (hm : m' ≤ 2 ^ 53) (hq : (q : ℚ) ≤ m' * 2 ^ e') :
    ∃ (mf : Nat) (ef : Int),
      Float64.sub (.fin false m' e') (.fin false q 0) = .fin false mf ef ∧
      mf ≤ 2 ^ 53 ∧ -300 ≤ ef ∧ ef ≤ 100 ∧ (mf : ℚ) * 2 ^ ef = m' * 2 ^ e' - q := by
  obtain ⟨u, hu⟩ : ∃ u : Nat, e' = -(u : Int) := ⟨(-e').toNat, by omega⟩
  have hz : (2 : ℚ) ^ e' = 1 / 2 ^ u := by
    rw [hu, zpow_neg, zpow_natCast, one_div]
  have hp : (0 : ℚ) < 2 ^ u := by positivity
  have hqn : q * 2 ^ u ≤ m' := by
    rw [hz, mul_one_div, le_div_iff₀ hp] at hq
    exact_mod_cast hq
  have hmin : min e' 0 = e' := min_eq_left he
  have hsub : Float64.sub (.fin false m' e') (.fin false q 0) =
      Float64.round64 false (m' - q * 2 ^ u) e' := by
    have h1 : (e' - e').toNat = 0 := by omega
    have h2 : (0 - e').toNat = u := by omega
    simp only [Float64.sub, Float64.neg, Float64.add, Bool.not_false, hmin, h1, h2, pow_zero,
      Nat.mul_one, Bool.false_eq_true, if_false, if_pos hqn, Bool.false_and]
  rw [hsub]
  have hval : ((m' - q * 2 ^ u : Nat) : ℚ) * 2 ^ e' = m' * 2 ^ e' - q := by
    rw [Nat.cast_sub hqn, hz]
    push_cast
    field_simp
    ring
  by_cases h0 : m' - q * 2 ^ u = 0
  · rw [h0, Float64.round64_zero]
    refine ⟨0, 0, rfl, by norm_num, by norm_num, by norm_num, ?_⟩
    rw [← hval, h0]
    simp
  · have hd : m' - q * 2 ^ u ≤ 2 ^ 53 := by omega
    have hb : natBitLen (m' - q * 2 ^ u) ≤ 54 := by
      rw [natBitLen_le_iff]
      omega
    obtain ⟨mf, ef, hr, _, hmf, h1, h2, _, _, hex⟩ :=
      Float64.round64_val (m' - q * 2 ^ u) e' (by omega) (by omega) (by omega)
    refine ⟨mf, ef, hr, hmf, by omega, by omega, ?_⟩
    rw [hex (m' - q * 2 ^ u) 0 hd (by simp), hval]

theorem Float64.mul_fin (mf n : Nat) (ef g : Int) :
    Float64.mul (.fin false mf ef) (.fin false n g) = Float64.round64 false (mf * n) (ef + g) :=
  rfl

theorem wrapInt64_small (x : Nat) (hx : x < 2 ^ 63) : wrapInt64 (x : Int) = x := by
  unfold wrapInt64
  norm_num
  omega

set_option maxHeartbeats 4000000 in
/-- The display of the float64 quotient of a raw amount `r < 2^51` by a scale
`n * 2^g` of `d` decimals is exact: the quotient of the integer division with commas, a
`.` and the remainder zero-padded to `d` digits. -/
theorem formatCurrency_exact (d r n g : Nat) (hd : d ≠ 0)
    (hofs : Float64.ofUint64 (scaleFromDecimals d) = .fin false n (g : Int))
    (hS : scaleFromDecimals d = n * 2 ^ g) (hn : 0 < n) (hn53 : n < 2 ^ 53) (hg : g ≤ 64)
    (hS63 : n * 2 ^ g < 2 ^ 63) (hr : 0 < r) (hr51 : r < 2 ^ 51) :
    formatCurrency (Float64.div (.fin false r 0) (.fin false n (g : Int))) d =
      formatWithCommas ((r / (n * 2 ^ g) : Nat) : Int) ++ [46] ++
        List.replicate (d - (fmtInt ((r % (n * 2 ^ g) : Nat) : Int)).length) 48 ++
        fmtInt ((r % (n * 2 ^ g) : Nat) : Int) := by
  obtain ⟨m', e', hdiv, hm52, hm53, he1, he2, herr, hex⟩ :=
    Float64.div_scale r n g hr hr51 hn hn53 hg
  have hSpos : 0 < n * 2 ^ g := by positivity
  have hdm := Nat.div_add_mod r (n * 2 ^ g)
  have hml := Nat.mod_lt r hSpos
  obtain ⟨q, hq⟩ : ∃ q, r / (n * 2 ^ g) = q := ⟨_, rfl⟩
  obtain ⟨t, ht⟩ : ∃ t, r % (n * 2 ^ g) = t := ⟨_, rfl⟩
  rw [hq, ht] at hdm
  rw [ht] at hml
  rw [hq, ht]
  have hqr : q ≤ r := by
    have : q ≤ n * 2 ^ g * q := Nat.le_mul_of_pos_left q hSpos
    omega
  have htr : t ≤ r := by omega
  -- rational views
  obtain ⟨S, hSd⟩ : ∃ S : ℚ, (n : ℚ) * 2 ^ g = S := ⟨_, rfl⟩
  have hSq : (0 : ℚ) < S := by rw [← hSd]; positivity
  have hScast : ((n * 2 ^ g : Nat) : ℚ) = S := by rw [← hSd]; push_cast; ring
  have hrq : (r : ℚ) = S * q + t := by
    rw [← hScast]
    exact_mod_cast hdm.symm
  have htS : (t : ℚ) + 1 ≤ S := by
    rw [← hScast]
    exact_mod_cast hml
  have hr50q : (r : ℚ) ≤ 2251799813685247 := by
    have : r ≤ 2251799813685247 := by omega
    exact_mod_cast this
  have hr0q : (0 : ℚ) ≤ r := by positivity
  have ht0q : (0 : ℚ) ≤ t := by positivity
  have hq0q : (0 : ℚ) ≤ q := by positivity
  have htrq : (t : ℚ) ≤ r := by exact_mod_cast htr
  rw [hSd] at herr
  obtain ⟨v, hv⟩ : ∃ v : ℚ, (m' : ℚ) * 2 ^ e' = v := ⟨_, rfl⟩
  rw [hv] at herr
  -- the error of the quotient, times the scale
  have hvS : |v * S - r| * 2 ^ 53 ≤ r := by
    have e1 : v * S - r = (v - r / S) * S := by field_simp
    rw [e1, abs_mul, abs_of_pos hSq]
    have := mul_le_mul_of_nonneg_right herr (le_of_lt hSq)
    have e2 : ((r : ℚ) / S) * S = r := by field_simp
    rw [e2] at this
    linarith
  have hvS1 := (abs_le.mp (show |v * S - r| ≤ r / 2 ^ 53 by
    rw [le_div_iff₀ (by positivity)]; exact hvS)).1
  have hvS2 := (abs_le.mp (show |v * S - r| ≤ r / 2 ^ 53 by
    rw [le_div_iff₀ (by positivity)]; exact hvS)).2
  have hsmall : (r : ℚ) / 2 ^ 53 ≤ 1 / 4 - 1 / 2 ^ 53 := by
    rw [div_le_iff₀ (by positivity)]
    norm_num
    linarith
  -- the integer part
  have hvq : (q : ℚ) ≤ v ∧ v < q + 1 := by
    by_cases ht0 : t = 0
    · have hrS : r = q * (n * 2 ^ g) := by
        rw [ht0] at hdm
        rw [← hdm]; ring
      have := hex q hrS
      rw [hv] at this
      rw [this]
      constructor <;> linarith
    · have ht1 : (1 : ℚ) ≤ t := by
        have : 1 ≤ t := by omega
        exact_mod_cast this
      constructor
      · by_contra hc
        push_neg at hc
        have := mul_lt_mul_of_pos_right hc hSq
        nlinarith
      · by_contra hc
        push_neg at hc
        have := mul_le_mul_of_nonneg_right hc (le_of_lt hSq)
        nlinarith
  have he0 : e' ≤ 0 := by
    by_contra hc
    have h1 : (1 : ℚ) ≤ 2 ^ e' := one_le_zpow₀ (by norm_num) (by omega)
    have h2 : (2 : ℚ) ^ 52 ≤ m' := by exact_mod_cast hm52
    have h3 : (2 : ℚ) ^ 52 * 1 ≤ m' * 2 ^ e' := mul_le_mul h2 h1 (by norm_num) (by positivity)
    rw [hv] at h3
    have hqrq : (q : ℚ) ≤ r := by exact_mod_cast hqr
    norm_num at h3
    linarith [hvq.2]
  have hq63 : q < 2 ^ 63 := by omega
  have hD : Float64.toInt64 (.fin false m' e') = (q : Int) :=
    Float64.toInt64_val m' e' q hq63 (by rw [hv]; exact hvq.1) (by rw [hv]; exact hvq.2)
  have hE : Float64.ofInt64 (q : Int) = .fin false q 0 := Float64.ofInt64_small q (by omega)
  obtain ⟨mf, ef, hF, hmf, hef1, hef2, hfv⟩ :=
    Float64.sub_int m' e' q he0 he1 hm53 (by rw [hv]; exact hvq.1)
  rw [hv] at hfv
  -- the scaled fraction
  have hprod : ((mf * n : Nat) : ℚ) * 2 ^ (ef + (g : Int)) = v * S - S * q := by
    rw [zpow_add₀ (by norm_num : (2 : ℚ) ≠ 0), zpow_natCast]
    push_cast
    have : (mf : ℚ) * n * (2 ^ ef * 2 ^ g) = ((mf : ℚ) * 2 ^ ef) * (n * 2 ^ g) := by ring
    rw [this, hfv, hSd]
    ring
  have hH : Float64.toInt64 (Float64.Round (Float64.mul (.fin false mf ef)
      (.fin false n (g : Int)))) = (t : Int) := by
    rw [Float64.mul_fin]
    by_cases h0 : mf * n = 0
    · rw [h0, Float64.round64_zero]
      rw [h0] at hprod
      have hz : v * S - S * q = 0 := by rw [← hprod]; simp
      have ht0 : (t : ℚ) ≤ 1 / 4 := by linarith
      have : t = 0 := by
        by_contra hne
        have : (1 : ℚ) ≤ t := by
          have : 1 ≤ t := by omega
          exact_mod_cast this
        linarith
      subst this
      rfl
    · have hbmn : natBitLen (mf * n) ≤ 107 := by
        rw [natBitLen_le_iff]
        have : mf * n ≤ 2 ^ 53 * 2 ^ 53 := Nat.mul_le_mul hmf (le_of_lt hn53)
        have e3 : (2 : Nat) ^ 107 = 2 ^ 53 * 2 ^ 53 * 2 := by norm_num
        omega
      obtain ⟨mp, ep, hr2, _, _, _, _, _, herr2, _⟩ :=
        Float64.round64_val (mf * n) (ef + (g : Int)) (by omega) (by omega) (by omega)
      rw [hr2]
      rw [hprod] at herr2
      obtain ⟨P, hP⟩ : ∃ P : ℚ, (mp : ℚ) * 2 ^ ep = P := ⟨_, rfl⟩
      rw [hP] at herr2
      have hF0 : 0 ≤ v * S - S * q := by
        have := mul_le_mul_of_nonneg_right hvq.1 (le_of_lt hSq)
        linarith
      have hb := abs_le.mp (show |P - (v * S - S * q)| ≤ (v * S - S * q) / 2 ^ 53 by
        rw [le_div_iff₀ (by positivity)]; exact herr2)
      have hFle : v * S - S * q ≤ 2 ^ 51 := by
        norm_num
        linarith
      have hFs : (v * S - S * q) / 2 ^ 53 ≤ 1 / 4 := by
        rw [div_le_iff₀ (by positivity)]
        norm_num at hFle ⊢
        linarith
      apply Float64.toInt64_Round_val mp ep t (by omega)
      · rw [hP]; linarith [hb.1]
      · rw [hP]; linarith [hb.2]
  have hcarry : decide ((t : Int) ≥ wrapInt64 ((n * 2 ^ g : Nat) : Int)) = false := by
    rw [wrapInt64_small _ hS63, decide_eq_false_iff_not]
    omega
  rw [hS] at hofs
  simp only [formatCurrency, hdiv, Float64.IsInf, Float64.IsNaN, Bool.or_self,
    Bool.false_eq_true, if_false, hD, hE, hF, if_neg hd, hofs, hH, hS, hcarry]

/-- The scale of `d` decimals, `1 ≤ d ≤ 18`, is `10^d` and converts to float64 exactly. -/
theorem Float64.ofUint64_scale_exact (d : Nat) (h1 : 1 ≤ d) (h18 : d ≤ 18) :
    ∃ n g : Nat, Float64.ofUint64 (scaleFromDecimals d) = .fin false n (g : Int) ∧
      scaleFromDecimals d = n * 2 ^ g ∧ n * 2 ^ g = 10 ^ d ∧ 0 < n ∧ n < 2 ^ 53 ∧ g ≤ 64 ∧
      n * 2 ^ g < 2 ^ 63 := by
  interval_cases d
  · exact ⟨10 ^ 1, 0, by rfl, by rfl, by rfl, by norm_num, by norm_num, by norm_num, by norm_num⟩
  · exact ⟨10 ^ 2, 0, by rfl, by rfl, by rfl, by norm_num, by norm_num, by norm_num, by norm_num⟩
  · exact ⟨10 ^ 3, 0, by rfl, by rfl, by rfl, by norm_num, by norm_num, by norm_num, by norm_num⟩
  · exact ⟨10 ^ 4, 0, by rfl, by rfl, by rfl, by norm_num, by norm_num, by norm_num, by norm_num⟩
  · exact ⟨10 ^ 5, 0, by rfl, by rfl, by rfl, by norm_num, by norm_num, by norm_num, by norm_num⟩
  · exact ⟨10 ^ 6, 0, by rfl, by rfl, by rfl, by norm_num, by norm_num, by norm_num, by norm_num⟩
  · exact ⟨10 ^ 7, 0, by rfl, by rfl, by rfl, by norm_num, by norm_num, by norm_num, by norm_num⟩
  · exact ⟨10 ^ 8, 0, by rfl, by rfl, by rfl, by norm_num, by norm_num, by norm_num, by norm_num⟩
  · exact ⟨10 ^ 9, 0, by rfl, by rfl, by rfl, by norm_num, by norm_num, by norm_num, by norm_num⟩
  · exact ⟨10 ^ 10, 0, by rfl, by rfl, by rfl, by norm_num, by norm_num, by norm_num, by norm_num⟩
  · exact ⟨10 ^ 11, 0, by rfl, by rfl, by rfl, by norm_num, by norm_num, by norm_num, by norm_num⟩
  · exact ⟨10 ^ 12, 0, by rfl, by rfl, by rfl, by norm_num, by norm_num, by norm_num, by norm_num⟩
  · exact ⟨10 ^ 13, 0, by rfl, by rfl, by rfl, by norm_num, by norm_num, by norm_num, by norm_num⟩
  · exact ⟨10 ^ 14, 0, by rfl, by rfl, by rfl, by norm_num, by norm_num, by norm_num, by norm_num⟩
  · exact ⟨10 ^ 15, 0, by rfl, by rfl, by rfl, by norm_num, by norm_num, by norm_num, by norm_num⟩
  · exact ⟨10 ^ 16 / 2, 1, by rfl, by rfl, by rfl, by norm_num, by norm_num, by norm_num, by norm_num⟩
  · exact ⟨10 ^ 17 / 16, 4, by rfl, by rfl, by rfl, by norm_num, by norm_num, by norm_num, by norm_num⟩
  · exact ⟨10 ^ 18 / 128, 7, by rfl, by rfl, by rfl, by norm_num, by norm_num, by norm_num, by norm_num⟩

/-- For `1 ≤ d ≤ 18` and a raw amount `0 < r < 2^51` the display of the float64 quotient
`r / 10^d` is the integer quotient with commas, a `.` and the remainder zero-padded to
`d` digits. -/
theorem formatCurrency_div_scale (d r : Nat) (h1 : 1 ≤ d) (h18 : d ≤ 18) (hr : 0 < r)
    (hr51 : r < 2 ^ 51) :
    formatCurrency (Float64.div (.fin false r 0) (Float64.ofUint64 (scaleFromDecimals d))) d =
      formatWithCommas ((r / 10 ^ d : Nat) : Int) ++ [46] ++
        List.replicate (d - (fmtInt ((r % 10 ^ d : Nat) : Int)).length) 48 ++
        fmtInt ((r % 10 ^ d : Nat) : Int) := by
  obtain ⟨n, g, hofs, hS, h10, hn, hn53, hg, hS63⟩ := Float64.ofUint64_scale_exact d h1 h18
  rw [hofs, ← h10]
  exact formatCurrency_exact d r n g (by omega) hofs hS hn hn53 hg hS63 hr hr51


/-! ### Uint128ToString -/

theorem Uint128.BigInt_small (r : Nat) (hr : r < 2 ^ 64) :
    Uint128.BigInt ⟨0, r⟩ = (r : Int) := by
  have h := Uint128.BigInt_eq ⟨0, r⟩ ⟨by norm_num, hr⟩
  rw [h]
  simp [Uint128.toNat]

theorem isUint64_small (r : Nat) (hr : r < 2 ^ 64) : isUint64 (r : Int) = true := by
  show isUint64 (Int.ofNat r) = true
  unfold isUint64
  simp only [decide_eq_true_eq]
  exact hr

theorem bigSign_pos (r : Nat) (h0 : 0 < r) : ¬ bigSign (r : Int) = 0 := by
  unfold bigSign
  have h1 : ¬ (r : Int) < 0 := by omega
  have h2 : ¬ (r : Int) = 0 := by omega
  rw [if_neg h1, if_neg h2]
  decide

theorem amountCurrency.Uint128ToString_small (c : currency) (f : Float64)
    (pool : PooledPrecs) (r : Nat) (hr : r < 2 ^ 64) :
    amountCurrency.Uint128ToString ⟨c, f, ⟨0, r⟩⟩ pool =
      amountCurrency.Uint128ToString ⟨c, Float64.zero, ⟨0, r⟩⟩ PooledPrecs.fresh := by
  simp only [amountCurrency.Uint128ToString, amountCurrency.Uint128ToFloat64,
    Uint128.BigInt_small r hr, isUint64_small r hr, if_true]

theorem Float64.ofUint64_exact (r : Nat) (h0 : 0 < r) (hr : r < 2 ^ 53) :
    Float64.ofUint64 r = .fin false r 0 := by
  have hb : natBitLen r ≤ 53 := (bitLenAux_le_iff r r 53 (Nat.le_refl _)).mpr hr
  have h1 : ¬ r = 0 := by omega
  have hq : max ((0 : Int) + (natBitLen r : Int) - 53) (-1074) ≤ 0 := by omega
  have h2 : ¬ ((natBitLen r : Int) + 0 > 1024) := by omega
  simp only [Float64.ofUint64, Float64.round64, Float64.roundMag, if_neg h1, if_pos hq,
    if_neg h2]

theorem Float64.toInt64_exact (r : Nat) (hr : r < 2 ^ 63) :
    Float64.toInt64 (.fin false r 0) = (r : Int) := by
  unfold Float64.toInt64
  simp only [le_refl, if_true, Int.toNat_zero, pow_zero, Nat.mul_one, Bool.false_eq_true,
    if_false, if_pos hr]

theorem amountCurrency.Uint128ToString_zero (c : currency) (f : Float64)
    (pool : PooledPrecs) :
    amountCurrency.Uint128ToString ⟨c, f, Uint128.zero⟩ pool =
      c.code ++ bytes " 0" ++
        (if c.decimal > 0 then bytes "." ++ List.replicate c.decimal 48 else []) := by
  have h : Uint128.BigInt Uint128.zero = 0 := by decide
  have hs : bigSign 0 = 0 := by decide
  have e1 : bytes " 0" = [32, 48] := by decide
  have e2 : bytes "." = [46] := by decide
  simp only [amountCurrency.Uint128ToString, h, hs, if_true, e1, e2]
  simp

theorem amountCurrency.Uint128ToString_no_decimals (code : List Nat) (f : Float64)
    (pool : PooledPrecs) (r : Nat) (h0 : 0 < r) (hr : r < 2 ^ 53) :
    amountCurrency.Uint128ToString ⟨⟨code, 0⟩, f, ⟨0, r⟩⟩ pool =
      code ++ bytes " " ++ formatWithCommas (r : Int) := by
  have hr64 : r < 2 ^ 64 := by omega
  have hr63 : r < 2 ^ 63 := by omega
  have e1 : bytes " " = [32] := by decide
  have hu : bigUint64 (r : Int) = r := by
    unfold bigUint64
    rw [Int.toNat_ofNat, Nat.mod_eq_of_lt hr64]
  simp only [amountCurrency.Uint128ToString, amountCurrency.Uint128ToFloat64,
    Uint128.BigInt_small r hr64, isUint64_small r hr64, if_true, if_neg (bigSign_pos r h0),
    hu, Float64.ofUint64_exact r h0 hr, formatCurrency, Float64.IsInf, Float64.IsNaN,
    Float64.toInt64_exact r hr63, e1, Bool.or_self, Bool.false_eq_true, if_false]


theorem toDigitsCore_acc (fuel : Nat) : ∀ (n : Nat) (ds : List Char), n < fuel →
    Nat.toDigitsCore 10 fuel n ds = Nat.toDigits 10 n ++ ds := by
  induction fuel using Nat.strong_induction_on with
  | _ fuel ih =>
    intro n ds hn
    cases fuel with
    | zero => omega
    | succ fuel =>
      unfold Nat.toDigits
      rw [Nat.toDigitsCore, Nat.toDigitsCore]
      by_cases h0 : n / 10 = 0
      · simp [h0]
      · simp only [h0, if_false]
        have hlt : n / 10 < n := by omega
        rw [ih fuel (Nat.lt_succ_self _) (n / 10) _ (by omega),
          ih n (by omega) (n / 10) _ hlt]
        simp

theorem toDigits_step (n : Nat) (h : 10 ≤ n) :
    Nat.toDigits 10 n = Nat.toDigits 10 (n / 10) ++ [Nat.digitChar (n % 10)] := by
  have h0 : ¬ n / 10 = 0 := by omega
  conv_lhs => unfold Nat.toDigits
  rw [Nat.toDigitsCore]
  simp only [h0, if_false]
  exact toDigitsCore_acc n (n / 10) _ (by omega)

theorem toDigits_small (n : Nat) (h : n < 10) :
    Nat.toDigits 10 n = [Nat.digitChar n] := by
  interval_cases n <;> rfl

theorem digitChar_toNat (k : Nat) (h : k < 10) : (Nat.digitChar k).toNat = 48 + k := by
  interval_cases k <;> rfl

theorem fmtInt_ofNat (n : Nat) :
    fmtInt (n : Int) = (Nat.toDigits 10 n).map Char.toNat := by
  unfold fmtInt
  have h : ¬ (n : Int) < 0 := by omega
  rw [if_neg h, Int.toNat_ofNat]

theorem fmtInt_small (n : Nat) (h : n < 10) : fmtInt (n : Int) = [48 + n] := by
  rw [fmtInt_ofNat, toDigits_small n h]
  simp [digitChar_toNat n h]

theorem fmtInt_step (n : Nat) (h : 10 ≤ n) :
    fmtInt (n : Int) = fmtInt ((n / 10 : Nat) : Int) ++ [48 + n % 10] := by
  rw [fmtInt_ofNat, fmtInt_ofNat, toDigits_step n h]
  simp [digitChar_toNat (n % 10) (Nat.mod_lt _ (by norm_num))]

theorem fmtInt_length_pos (n : Nat) : 0 < (fmtInt (n : Int)).length := by
  by_cases h : n < 10
  · rw [fmtInt_small n h]; simp
  · rw [fmtInt_step n (by omega)]; simp

theorem fmtInt_length_le (n : Nat) (h : n < 1000) : (fmtInt (n : Int)).length ≤ 3 := by
  by_cases h1 : n < 10
  · rw [fmtInt_small n h1]; simp
  · rw [fmtInt_step n (by omega)]
    by_cases h2 : n / 10 < 10
    · rw [fmtInt_small _ h2]; simp
    · rw [fmtInt_step _ (by omega), fmtInt_small (n / 10 / 10) (by omega)]; simp

theorem fmtInt_thousands (n : Nat) (h : 1000 ≤ n) :
    fmtInt (n : Int) = fmtInt ((n / 1000 : Nat) : Int) ++ threeDigits (n % 1000) := by
  rw [fmtInt_step n (by omega), fmtInt_step (n / 10) (by omega),
    fmtInt_step (n / 10 / 10) (by omega)]
  have e1 : n / 10 / 10 / 10 = n / 1000 := by omega
  have e2 : n / 10 / 10 % 10 = n % 1000 / 100 := by omega
  have e3 : n / 10 % 10 = n % 1000 / 10 % 10 := by omega
  have e4 : n % 10 = n % 1000 % 10 := by omega
  rw [e1, e2, e3, e4]
  simp [threeDigits]


theorem commaLoop_eq (len : Nat) (xs : List Nat) : ∀ (i : Nat) (acc : List Nat),
    (xs.enumFrom i).foldl (fun result p =>
      (if p.1 > 0 ∧ (len - p.1) % 3 = 0 then result ++ [44] else result) ++ [p.2]) acc =
    acc ++ commaSpread len i xs := by
  induction xs with
  | nil => intro i acc; simp [commaSpread]
  | cons x xs ih =>
    intro i acc
    rw [List.enumFrom_cons, List.foldl_cons, ih, commaSpread]
    split <;> simp

theorem commaSpread_append (len : Nat) (xs ys : List Nat) : ∀ i : Nat,
    commaSpread len i (xs ++ ys) = commaSpread len i xs ++ commaSpread len (i + xs.length) ys := by
  induction xs with
  | nil => intro i; simp [commaSpread]
  | cons x xs ih =>
    intro i
    rw [List.cons_append, commaSpread, commaSpread, ih, List.length_cons, List.append_assoc]
    congr 3
    omega

theorem commaSpread_shift (len : Nat) (xs : List Nat) : ∀ i : Nat, i + xs.length ≤ len →
    commaSpread (len + 3) i xs = commaSpread len i xs := by
  induction xs with
  | nil => intro i _; simp [commaSpread]
  | cons x xs ih =>
    intro i h
    rw [List.length_cons] at h
    rw [commaSpread, commaSpread, ih (i + 1) (by omega)]
    have e : (len + 3 - i) % 3 = (len - i) % 3 := by omega
    rw [e]

theorem commaSpread_short (xs : List Nat) (h : xs.length ≤ 3) :
    commaSpread xs.length 0 xs = xs := by
  match xs, h with
  | [], _ => rfl
  | [a], _ => rfl
  | [a, b], _ => rfl
  | [a, b, c], _ => rfl
  | _ :: _ :: _ :: _ :: _, h => simp at h

theorem commaSpread_last (len a b c : Nat) (h : 0 < len) :
    commaSpread (len + 3) len [a, b, c] = [44, a, b, c] := by
  have e1 : (len + 3 - len) % 3 = 0 := by omega
  have e2 : ¬ (len + 1 > 0 ∧ (len + 3 - (len + 1)) % 3 = 0) := by omega
  have e3 : ¬ (len + 1 + 1 > 0 ∧ (len + 3 - (len + 1 + 1)) % 3 = 0) := by omega
  simp only [commaSpread, if_pos (And.intro h e1), if_neg e2, if_neg e3]
  rfl

theorem formatWithCommas_eq (n : Int) :
    formatWithCommas n = commaSpread (fmtInt n).length 0 (fmtInt n) := by
  unfold formatWithCommas
  simp only
  split
  · rename_i h
    exact (commaSpread_short _ h).symm
  · rw [List.enum, commaLoop_eq]
    rfl

theorem commaSpread_group (fuel : Nat) : ∀ n : Nat, n ≤ fuel →
    commaSpread (fmtInt (n : Int)).length 0 (fmtInt (n : Int)) = groupThousandsAux fuel n := by
  induction fuel with
  | zero =>
    intro n h
    have : n = 0 := by omega
    subst this
    rfl
  | succ fuel ih =>
    intro n h
    unfold groupThousandsAux
    by_cases hn : n < 1000
    · rw [if_pos hn]
      exact commaSpread_short _ (fmtInt_length_le n hn)
    · rw [if_neg hn, ← ih (n / 1000) (by omega), fmtInt_thousands n (by omega),
        List.length_append, commaSpread_append]
      have hl : (threeDigits (n % 1000)).length = 3 := rfl
      rw [hl, commaSpread_shift _ _ 0 (by omega), Nat.zero_add]
      unfold threeDigits
      rw [commaSpread_last _ _ _ _ (fmtInt_length_pos _)]
      simp

/-- The grouping of formatWithCommas is the spec's grouping in threes, for a
non-negative value. -/
theorem formatWithCommas_groups (n : Nat) : formatWithCommas (n : Int) = groupThousands n := by
  rw [formatWithCommas_eq]
  exact commaSpread_group n n (Nat.le_refl _)


theorem displaySpec_zero (c : currency) :
    displaySpec c 0 = c.code ++ bytes " 0" ++
      (if c.decimal > 0 then bytes "." ++ List.replicate c.decimal 48 else []) := by
  have e1 : bytes " 0" = [32, 48] := by decide
  have e2 : bytes "." = [46] := by decide
  have e3 : fmtInt ((0 : Nat) : Int) = [48] := by decide
  have e4 : groupThousands 0 = [48] := by decide
  unfold displaySpec
  simp only [Nat.zero_div, Nat.zero_mod, e1, e2, e3, e4, List.length_singleton]
  by_cases h : c.decimal > 0
  · rw [if_pos h, if_pos h]
    obtain ⟨k, hk⟩ : ∃ k, c.decimal = k + 1 := ⟨c.decimal - 1, by omega⟩
    rw [hk, List.replicate_succ']
    simp
  · rw [if_neg h, if_neg h]
    simp

/-- With `d` decimals, `d ≠ 0`, a non-zero raw amount below `2^53` takes the fast path of
Uint128ToFloat64: the float64 quotient of the amount by the float64 of the scale. -/
theorem amountCurrency.Uint128ToFloat64_fast (code : List Nat) (d : Nat) (f : Float64)
    (pool : PooledPrecs) (r : Nat) (hd : d ≠ 0) (h0 : 0 < r) (hr : r < 2 ^ 53) :
    amountCurrency.Uint128ToFloat64 ⟨⟨code, d⟩, f, ⟨0, r⟩⟩ pool =
      Float64.div (.fin false r 0) (Float64.ofUint64 (scaleFromDecimals d)) := by
  have hr64 : r < 2 ^ 64 := by omega
  have hu : bigUint64 (r : Int) = r := by
    unfold bigUint64
    rw [Int.toNat_ofNat, Nat.mod_eq_of_lt hr64]
  simp only [amountCurrency.Uint128ToFloat64, Uint128.BigInt_small r hr64,
    isUint64_small r hr64, if_true, if_neg (bigSign_pos r h0), hu,
    Float64.ofUint64_exact r h0 hr, if_neg hd]
  split_ifs with h1 h2 h6 h8 h18
  · subst h1; rfl
  · subst h2; rfl
  · subst h6; rfl
  · subst h8; rfl
  · subst h18; rfl
  · rfl

/-- With `1 ≤ d ≤ 18` decimals a non-zero raw amount below `2^51` is displayed as the
spec says. -/
theorem amountCurrency.Uint128ToString_decimals (c : currency) (f : Float64)
    (pool : PooledPrecs) (r : Nat) (h1 : 1 ≤ c.decimal) (h18 : c.decimal ≤ 18) (h0 : 0 < r)
    (hr : r < 2 ^ 51) :
    amountCurrency.Uint128ToString ⟨c, f, ⟨0, r⟩⟩ pool = displaySpec c r := by
  obtain ⟨code, d⟩ := c
  simp only at h1 h18
  have hr64 : r < 2 ^ 64 := by omega
  have hf := amountCurrency.Uint128ToFloat64_fast code d f pool r (by omega) h0 (by omega)
  have hpos : d > 0 := by omega
  simp only [amountCurrency.Uint128ToString, Uint128.BigInt_small r hr64,
    if_neg (bigSign_pos r h0), hf, formatCurrency_div_scale d r h1 h18 h0 hr,
    formatWithCommas_groups, displaySpec, if_pos hpos, List.append_assoc]

/-- C14 (amended): for every currency, a zero raw amount is displayed as the spec says
(the code, " 0" and, when `d > 0`, a `.` and `d` zeros); in a currency without decimals
every raw amount below `2^53` is displayed as the spec says (the code, a space and the
amount grouped in threes); in a currency with `1 ≤ d ≤ 18` decimals every raw amount `r`
below `2^51` is displayed as the spec says (the code, a space, `r / 10^d` grouped in
threes, a `.` and `r % 10^d` zero-padded to `d` digits); 12,345.67 dollars and 1,000,000
dong are displayed as in the spec's examples. -/
theorem uint128_to_string_exact_cases (c : currency) (f : Float64) (pool : PooledPrecs)
    (r : Nat) :
    ((r = 0 ∨ (c.decimal = 0 ∧ r < 2 ^ 53) ∨
        (1 ≤ c.decimal ∧ c.decimal ≤ 18 ∧ r < 2 ^ 51)) →
      amountCurrency.Uint128ToString ⟨c, f, ⟨0, r⟩⟩ pool = displaySpec c r) ∧
    amountCurrency.Uint128ToString ⟨USD, f, ⟨0, 1234567⟩⟩ pool = bytes "USD 12,345.67" ∧
    displaySpec USD 1234567 = bytes "USD 12,345.67" ∧
    amountCurrency.Uint128ToString ⟨VND, f, ⟨0, 1000000⟩⟩ pool = bytes "VND 1,000,000" ∧
    displaySpec VND 1000000 = bytes "VND 1,000,000" := by
  refine ⟨?_, ?_, by decide, ?_, by decide⟩
  · intro h
    by_cases h0 : r = 0
    · subst h0
      rw [displaySpec_zero]
      exact amountCurrency.Uint128ToString_zero c f pool
    · rcases h with h | ⟨hd, hr⟩ | ⟨h1, h18, hr⟩
      · exact absurd h h0
      · obtain ⟨code, d⟩ := c
        simp only at hd
        subst hd
        rw [amountCurrency.Uint128ToString_no_decimals code f pool r (by omega) hr,
          formatWithCommas_groups]
        have e1 : bytes " " = [32] := by decide
        simp [displaySpec, e1]
      · exact amountCurrency.Uint128ToString_decimals c f pool r h1 h18 (by omega) hr
  · rw [amountCurrency.Uint128ToString_small USD f pool 1234567 (by norm_num)]
    decide
  · rw [amountCurrency.Uint128ToString_small VND f pool 1000000 (by norm_num)]
    decide

/-- Witness of C14 (amended): zero dollars, 1,234,567 dong, 500,000 rupiah, 99 cents and
0.002 ether. -/
theorem uint128_to_string_exact_cases_witness :
    amountCurrency.Uint128ToString ⟨USD, Float64.zero, ⟨0, 0⟩⟩ PooledPrecs.fresh =
      bytes "USD 0.00" ∧
    amountCurrency.Uint128ToString ⟨VND, Float64.zero, ⟨0, 1234567⟩⟩ PooledPrecs.fresh =
      bytes "VND 1,234,567" ∧
    amountCurrency.Uint128ToString ⟨IDR, Float64.zero, ⟨0, 50000000⟩⟩ PooledPrecs.fresh =
      bytes "IDR 500,000.00" ∧
    amountCurrency.Uint128ToString ⟨USD, Float64.zero, ⟨0, 99⟩⟩ PooledPrecs.fresh =
      bytes "USD 0.99" ∧
    amountCurrency.Uint128ToString ⟨ETH, Float64.zero, ⟨0, 2000000000000000⟩⟩
      PooledPrecs.fresh = bytes "ETH 0.002000000000000000" :=
  ⟨((uint128_to_string_exact_cases USD Float64.zero PooledPrecs.fresh 0).1
      (Or.inl rfl)).trans (by decide),
    ((uint128_to_string_exact_cases VND Float64.zero PooledPrecs.fresh 1234567).1
      (Or.inr (Or.inl ⟨by decide, by decide⟩))).trans (by decide),
    ((uint128_to_string_exact_cases IDR Float64.zero PooledPrecs.fresh 50000000).1
      (Or.inr (Or.inr ⟨by decide, by decide, by decide⟩))).trans (by decide),
    ((uint128_to_string_exact_cases USD Float64.zero PooledPrecs.fresh 99).1
      (Or.inr (Or.inr ⟨by decide, by decide, by decide⟩))).trans (by decide),
    ((uint128_to_string_exact_cases ETH Float64.zero PooledPrecs.fresh 2000000000000000).1
      (Or.inr (Or.inr ⟨by decide, by decide, by decide⟩))).trans (by decide)⟩

set_option maxRecDepth 100000 in
/-- Counterexample to C14 as stated: the raw amount `2^53 + 1` dong goes through
float64, which has no such value, and is displayed as `2^53`; with 18 decimals the raw
amount 4500000000000001, which is below `2^52`, is displayed with the last digit 2: the
float64 fraction times the scale is 4500000000000001.5, which Round takes away from
zero. -/
theorem uint128_to_string_large_amount_counterexample :
    displaySpec VND 9007199254740993 = bytes "VND 9,007,199,254,740,993" ∧
    amountCurrency.Uint128ToString ⟨VND, Float64.zero, ⟨0, 9007199254740993⟩⟩
      PooledPrecs.fresh = bytes "VND 9,007,199,254,740,992" ∧
    4500000000000001 < 2 ^ 52 ∧
    displaySpec ETH 4500000000000001 = bytes "ETH 0.004500000000000001" ∧
    amountCurrency.Uint128ToString ⟨ETH, Float64.zero, ⟨0, 4500000000000001⟩⟩
      PooledPrecs.fresh = bytes "ETH 0.004500000000000002" := by
  decide


/-! ## Construction contracts of Uint128 -/

theorem fromHexChar_none_iff (c : Nat) : fromHexChar c = none ↔ isHexDigit c = false := by
  unfold fromHexChar isHexDigit
  by_cases h1 : 48 ≤ c ∧ c ≤ 57
  · simp [h1]
  · by_cases h2 : 97 ≤ c ∧ c ≤ 102
    · simp [h1, h2]
    · by_cases h3 : 65 ≤ c ∧ c ≤ 70
      · simp [h1, h2, h3]
      · simp [h1, h2, h3]

/-- On a string of even length holding a byte that is not a hexadecimal digit,
`hex.Decode` fails with the InvalidByteError of such a byte of the string. -/
theorem hexDecode_invalid : ∀ (h : List Nat), h.length % 2 = 0 →
    (∃ c ∈ h, isHexDigit c = false) →
    ∃ b ∈ h, isHexDigit b = false ∧ hexDecode h = .error (.hexInvalidByte b)
  | [], _, hex => by
    obtain ⟨c, hc, _⟩ := hex
    cases hc
  | [p], hlen, _ => by simp at hlen
  | p :: q :: rest, hlen, hex => by
    have hrl : rest.length % 2 = 0 := by
      simp only [List.length_cons] at hlen
      omega
    unfold hexDecode
    cases hp : fromHexChar p with
    | none =>
      exact ⟨p, by simp, (fromHexChar_none_iff p).mp hp, rfl⟩
    | some a =>
      cases hq : fromHexChar q with
      | none =>
        exact ⟨q, by simp, (fromHexChar_none_iff q).mp hq, rfl⟩
      | some b =>
        have hrest : ∃ c ∈ rest, isHexDigit c = false := by
          obtain ⟨c, hc, hcd⟩ := hex
          rcases List.mem_cons.mp hc with rfl | hc
          · rw [(fromHexChar_none_iff c).mpr hcd] at hp
            cases hp
          · rcases List.mem_cons.mp hc with rfl | hc
            · rw [(fromHexChar_none_iff c).mpr hcd] at hq
              cases hq
            · exact ⟨c, hc, hcd⟩
        obtain ⟨x, hx, hxd, he⟩ := hexDecode_invalid rest hrl hrest
        refine ⟨x, by simp [hx], hxd, ?_⟩
        simp only [he]

theorem Uint128FromHex_invalid (s : List Nat) (hlen : s.length ≤ 32)
    (hex : ∃ c ∈ s, isHexDigit c = false) :
    ∃ b ∈ s, isHexDigit b = false ∧ Uint128FromHex s = .error (.hexInvalidByte b) := by
  have hne : ¬ s.length = 0 := by
    obtain ⟨c, hc, _⟩ := hex
    intro h0
    rw [List.length_eq_zero.mp h0] at hc
    cases hc
  have hl : (if s.length % 2 = 1 then 48 :: s else s).length % 2 = 0 := by
    split <;> (try simp only [List.length_cons]) <;> omega
  have hex2 : ∃ c ∈ (if s.length % 2 = 1 then 48 :: s else s), isHexDigit c = false := by
    obtain ⟨c, hc, hcd⟩ := hex
    refine ⟨c, ?_, hcd⟩
    split
    · exact List.mem_cons_of_mem _ hc
    · exact hc
  obtain ⟨b, hb, hbd, he⟩ := hexDecode_invalid _ hl hex2
  have hbs : b ∈ s := by
    split at hb
    · rcases List.mem_cons.mp hb with rfl | hb
      · exact absurd hbd (by decide)
      · exact hb
    · exact hb
  refine ⟨b, hbs, hbd, ?_⟩
  unfold Uint128FromHex
  rw [if_neg hne, if_neg (by omega)]
  simp only [he]

/-- C21: for every string `s` (its characters are the bytes `len` counts),
Uint128FromHex fails with ErrHexTooLong if and only if `s` has more than 32 characters;
with at most 32 characters, one of them not a hexadecimal digit, it fails with the
decoding error of `encoding/hex` for such a character; otherwise it returns the Uint128
whose value is the base-16 number written by `s`, which is also the number written by
`s` with one `0` in front (the padding of an odd length); the empty string gives zero. -/
theorem from_hex_contract (s : List Nat) :
    (Uint128FromHex s = .error .ErrHexTooLong ↔ s.length > 32) ∧
    (s.length ≤ 32 → (∃ c ∈ s, isHexDigit c = false) →
      ∃ b ∈ s, isHexDigit b = false ∧ Uint128FromHex s = .error (.hexInvalidByte b)) ∧
    (s.length ≤ 32 → (∀ c ∈ s, isHexDigit c = true) →
      ∃ u : Uint128, Uint128FromHex s = .ok u ∧ u.wf ∧ u.toNat = hexVal s ∧
        hexVal (48 :: s) = hexVal s) ∧
    Uint128FromHex [] = .ok Uint128.zero ∧ hexVal [] = 0 := by
  have valid : s.length ≤ 32 → (∀ c ∈ s, isHexDigit c = true) →
      ∃ u : Uint128, Uint128FromHex s = .ok u ∧ u.wf ∧ u.toNat = hexVal s ∧
        hexVal (48 :: s) = hexVal s := by
    intro hlen hv
    by_cases hne : s = []
    · subst hne
      exact ⟨Uint128.zero, rfl, by decide, by decide, hexVal_zero_cons _⟩
    · obtain ⟨buf, hbl, hbb, hok, hval, _⟩ := Uint128FromHex_valid s hne hlen hv
      obtain ⟨hwf, hnat, _⟩ := split16 buf hbl hbb
      exact ⟨_, hok, hwf, by rw [hnat, hval], hexVal_zero_cons _⟩
  refine ⟨⟨?_, ?_⟩, Uint128FromHex_invalid s, valid, rfl, rfl⟩
  · intro h
    by_contra hlen
    have hlen2 : s.length ≤ 32 := by omega
    by_cases hv : ∀ c ∈ s, isHexDigit c = true
    · obtain ⟨u, hu, _⟩ := valid hlen2 hv
      rw [hu] at h
      cases h
    · have hex : ∃ c ∈ s, isHexDigit c = false := by
        by_contra hn
        apply hv
        intro c hc
        by_contra hcd
        exact hn ⟨c, hc, by simpa using hcd⟩
      obtain ⟨b, _, _, he⟩ := Uint128FromHex_invalid s hlen2 hex
      rw [he] at h
      cases h
  · intro hlen
    unfold Uint128FromHex
    rw [if_neg (by omega), if_pos hlen]

/-- Witness of C21: `fF` is 255, `abc` is read as `0abc`, `0x10` is rejected at `x` and
a string of 33 digits is too long. -/
theorem from_hex_contract_witness :
    Uint128FromHex (bytes "fF") = .ok ⟨0, 255⟩ ∧ hexVal (bytes "fF") = 255 ∧
    Uint128FromHex (bytes "abc") = .ok ⟨0, 2748⟩ ∧
    (∃ b ∈ bytes "0x10", isHexDigit b = false ∧
      Uint128FromHex (bytes "0x10") = .error (.hexInvalidByte b)) ∧
    Uint128FromHex (List.replicate 33 48) = .error .ErrHexTooLong :=
  ⟨by decide, by decide, by decide,
    (from_hex_contract (bytes "0x10")).2.1 (by decide) ⟨120, by decide, by decide⟩,
    (from_hex_contract (List.replicate 33 48)).1.mpr (by decide)⟩


/-- C22: Uint128FromBigInt fails with ErrNegativeOrNilBigInt on a nil input and on every
negative `n`, with ErrBigIntOverflow on every `n >= 2^128`, and on no other integer;
for `0 <= n < 2^128` it returns the Uint128 `u` with `u.Hi * 2^64 + u.Lo = n`, whose
BigInt is `n`; and Uint128FromBigInt of the BigInt of any Uint128 `v` is `v`. -/
theorem from_big_int_contract :
    Uint128FromBigInt none = .error .ErrNegativeOrNilBigInt ∧
    (∀ n : Int, n < 0 → Uint128FromBigInt (some n) = .error .ErrNegativeOrNilBigInt) ∧
    (∀ n : Int, 2 ^ 128 ≤ n → Uint128FromBigInt (some n) = .error .ErrBigIntOverflow) ∧
    (∀ n : Int, (∃ e, Uint128FromBigInt (some n) = .error e) ↔ (n < 0 ∨ 2 ^ 128 ≤ n)) ∧
    (∀ n : Int, 0 ≤ n → n < 2 ^ 128 →
      ∃ u : Uint128, Uint128FromBigInt (some n) = .ok u ∧ u.wf ∧
        ((u.Hi * 2 ^ 64 + u.Lo : Nat) : Int) = n ∧ u.BigInt = n) ∧
    (∀ v : Uint128, v.wf → Uint128FromBigInt (some v.BigInt) = .ok v) := by
  have hneg : ∀ n : Int, n < 0 →
      Uint128FromBigInt (some n) = .error .ErrNegativeOrNilBigInt := by
    intro n h
    unfold Uint128FromBigInt
    simp only [if_pos h]
  have hbig : ∀ n : Int, 2 ^ 128 ≤ n →
      Uint128FromBigInt (some n) = .error .ErrBigIntOverflow := by
    intro n h
    have h0 : ¬ n < 0 := by
      have : (0 : Int) < 2 ^ 128 := by norm_num
      omega
    have hb : bitLen n > 128 := by
      rw [bitLen_gt_iff]
      have : ((2 ^ 128 : Nat) : Int) ≤ n := by exact_mod_cast h
      omega
    unfold Uint128FromBigInt
    simp only [if_neg h0, if_pos hb]
  have hok : ∀ n : Int, 0 ≤ n → n < 2 ^ 128 →
      ∃ u : Uint128, Uint128FromBigInt (some n) = .ok u ∧ u.wf ∧
        ((u.Hi * 2 ^ 64 + u.Lo : Nat) : Int) = n ∧ u.BigInt = n := by
    intro n h0 h1
    obtain ⟨k, rfl⟩ := Int.eq_ofNat_of_zero_le h0
    have hk : k < 2 ^ 128 := by exact_mod_cast h1
    refine ⟨_, Uint128FromBigInt_ofNat k hk, Uint128.wf_mk_divmod k hk, ?_, ?_⟩
    · have := Uint128.toNat_mk_divmod k
      unfold Uint128.toNat at this
      rw [this]
    · rw [Uint128.BigInt_eq _ (Uint128.wf_mk_divmod k hk), Uint128.toNat_mk_divmod]
  refine ⟨rfl, hneg, hbig, ?_, hok, ?_⟩
  · intro n
    constructor
    · rintro ⟨e, he⟩
      by_contra hn
      have h0 : 0 ≤ n := by omega
      have h1 : n < 2 ^ 128 := by omega
      obtain ⟨u, hu, _⟩ := hok n h0 h1
      rw [hu] at he
      cases he
    · rintro (h | h)
      · exact ⟨_, hneg n h⟩
      · exact ⟨_, hbig n h⟩
  · intro v hv
    rw [Uint128.BigInt_eq v hv, Uint128FromBigInt_ofNat _ (Uint128.toNat_lt v hv)]
    have e := Uint128.eq_of_toNat_eq ⟨v.toNat / 2 ^ 64, v.toNat % 2 ^ 64⟩ v
      (Uint128.wf_mk_divmod _ (Uint128.toNat_lt v hv)) hv (Uint128.toNat_mk_divmod _)
    rw [e]

/-- Witness of C22: `2^64 + 5` converts to the halves 1 and 5, `-1` and `2^128` fail. -/
theorem from_big_int_contract_witness :
    Uint128FromBigInt (some (-1)) = .error .ErrNegativeOrNilBigInt ∧
    Uint128FromBigInt (some (2 ^ 128)) = .error .ErrBigIntOverflow ∧
    (∃ u : Uint128, Uint128FromBigInt (some (2 ^ 64 + 5)) = .ok u ∧ u.wf ∧
      ((u.Hi * 2 ^ 64 + u.Lo : Nat) : Int) = 2 ^ 64 + 5 ∧ u.BigInt = 2 ^ 64 + 5) ∧
    Uint128FromBigInt (some (Uint128.mk 1 5).BigInt) = .ok ⟨1, 5⟩ :=
  ⟨from_big_int_contract.2.1 (-1) (by norm_num),
    from_big_int_contract.2.2.1 (2 ^ 128) (le_refl _),
    from_big_int_contract.2.2.2.2.1 (2 ^ 64 + 5) (by norm_num) (by norm_num),
    from_big_int_contract.2.2.2.2.2 ⟨1, 5⟩ (by decide)⟩

theorem leVal_append (xs ys : List Nat) :
    leVal (xs ++ ys) = leVal xs + 256 ^ xs.length * leVal ys := by
  induction xs with
  | nil => simp [leVal]
  | cons x xs ih =>
    simp only [leVal, List.cons_append, List.foldr_cons, List.length_cons] at ih ⊢
    rw [ih]
    ring

theorem leSum_enumFrom (b : List Nat) : ∀ k : Nat,
    ((b.enumFrom k).map (fun p => p.2 * 256 ^ p.1)).sum = 256 ^ k * leVal b := by
  induction b with
  | nil => intro k; simp [leVal]
  | cons x xs ih =>
    intro k
    simp only [List.enumFrom_cons, List.map_cons, List.sum_cons, ih (k + 1), leVal,
      List.foldr_cons]
    ring

theorem leVal_eq_leSum (b : List Nat) : leVal b = leSum b := by
  unfold leSum List.enum
  rw [leSum_enumFrom]
  simp

theorem leVal_lt (bs : List Nat) (h : ∀ b ∈ bs, b < 256) : leVal bs < 256 ^ bs.length := by
  induction bs with
  | nil => simp [leVal]
  | cons x xs ih =>
    have h1 : x < 256 := h x (by simp)
    have h2 := ih (fun b hb => h b (by simp [hb]))
    simp only [leVal, List.foldr_cons, List.length_cons] at h2 ⊢
    rw [pow_succ]
    omega

/-- C23: Uint128FromBytesLE fails with ErrInvalidLength if and only if the slice is not
exactly 16 bytes long; for a 16-byte slice it returns the value whose Lo is the
little-endian reading of bytes 0..7 and whose Hi is that of bytes 8..15, of logical
value the sum of `b[i] * 256^i`. -/
theorem from_bytes_le_contract (b : List Nat) :
    (Uint128FromBytesLE b = .error .ErrInvalidLength ↔ b.length ≠ 16) ∧
    (b.length = 16 →
      ∃ u : Uint128, Uint128FromBytesLE b = .ok u ∧
        u.Lo = leSum (b.take 8) ∧ u.Hi = leSum (b.drop 8) ∧ u.toNat = leSum b ∧
        ((∀ x ∈ b, x < 256) → u.wf)) := by
  constructor
  · constructor
    · intro h
      by_contra hl
      unfold Uint128FromBytesLE at h
      rw [if_neg (not_not.mpr hl)] at h
      cases h
    · intro hl
      unfold Uint128FromBytesLE
      rw [if_pos hl]
  · intro hl
    have t16 : b.take 16 = b := List.take_of_length_le (by omega)
    refine ⟨⟨leVal (b.drop 8), leVal (b.take 8)⟩, ?_, leVal_eq_leSum _, leVal_eq_leSum _,
      ?_, ?_⟩
    · unfold Uint128FromBytesLE
      rw [if_neg (by omega), t16, List.drop_zero]
    · have hsplit := leVal_append (b.take 8) (b.drop 8)
      rw [List.take_append_drop, List.length_take, hl] at hsplit
      rw [← leVal_eq_leSum, hsplit]
      unfold Uint128.toNat
      norm_num
      ring
    · intro hb
      have l1 : (b.take 8).length = 8 := by rw [List.length_take]; omega
      have l2 : (b.drop 8).length = 8 := by rw [List.length_drop]; omega
      have v1 := leVal_lt (b.take 8) (fun x hx => hb x (List.mem_of_mem_take hx))
      have v2 := leVal_lt (b.drop 8) (fun x hx => hb x (List.mem_of_mem_drop hx))
      rw [l1] at v1
      rw [l2] at v2
      unfold Uint128.wf
      simp only
      omega

/-- Witness of C23: the 16 bytes `1, 2, 0, ..., 0, 3, 0, ..., 0` and a 15-byte slice. -/
theorem from_bytes_le_contract_witness :
    Uint128FromBytesLE [1, 2, 0, 0, 0, 0, 0, 0, 3, 0, 0, 0, 0, 0, 0, 0] = .ok ⟨3, 513⟩ ∧
    Uint128FromBytesLE (List.replicate 15 0) = .error .ErrInvalidLength ∧
    (∃ u : Uint128, Uint128FromBytesLE (List.replicate 16 255) = .ok u ∧
      u.toNat = leSum (List.replicate 16 255)) :=
  ⟨by decide,
    (from_bytes_le_contract (List.replicate 15 0)).1.mpr (by decide),
    (fun ⟨u, h1, _, _, h2, _⟩ => ⟨u, h1, h2⟩)
      ((from_bytes_le_contract (List.replicate 16 255)).2 (by decide))⟩


/-! ## Ledger code values -/

theorem charSlot_eq_slotValue (ch : Nat) : charSlot ch = slotValue ch := by
  unfold charSlot slotValue
  split_ifs <;> omega

theorem codeSlot_eq_specSlot (code : List Nat) (i : Nat) : codeSlot code i = specSlot code i := by
  unfold codeSlot specSlot
  by_cases h : i < code.length
  · rw [if_pos h, List.getElem?_eq_getElem h, List.getD_eq_getElem?_getD,
      List.getElem?_eq_getElem h]
    exact charSlot_eq_slotValue _
  · rw [if_neg h, List.getElem?_eq_none (by omega)]

theorem slotValue_le (ch : Nat) : slotValue ch ≤ 35 := by
  unfold slotValue
  split_ifs <;> omega

theorem currency.EncodeLedger_low (c : currency) (hd : c.decimal < 256) :
    c.EncodeLedger % 1000000 = c.codeVal := by
  have h := currency.codeVal_le c
  rw [currency.EncodeLedger_eq c hd]
  omega

theorem currency.short_value_le (c : currency) (hd : c.decimal < 256)
    (hlen : c.code.length ≤ 3) : c.EncodeLedger % 1000000 ≤ 353535 := by
  have h0 := codeSlot_le c.code 0
  have h1 := codeSlot_le c.code 1
  have h2 := codeSlot_le c.code 2
  rw [currency.EncodeLedger_low c hd, currency.codeVal_short c hlen]
  omega

/-- C26: for every currency descriptor whose code has at most 3 characters (bytes), the
low six digits of EncodeLedger equal `slot0*10000 + slot1*100 + slot2`, where slot `i` is
0..9 for a digit, 10..35 for a letter `A`..`Z`, 0 for any other character and 0 for a
position past the end of the code; this value lies in 0..353535. -/
theorem short_code_value (c : currency) (hd : c.decimal < 256) (hlen : c.code.length ≤ 3) :
    c.EncodeLedger % 1000000 =
      specSlot c.code 0 * 10000 + specSlot c.code 1 * 100 + specSlot c.code 2 ∧
    0 ≤ c.EncodeLedger % 1000000 ∧ c.EncodeLedger % 1000000 ≤ 353535 := by
  have e : c.EncodeLedger % 1000000 =
      specSlot c.code 0 * 10000 + specSlot c.code 1 * 100 + specSlot c.code 2 := by
    rw [currency.EncodeLedger_low c hd, currency.codeVal_short c hlen,
      codeSlot_eq_specSlot, codeSlot_eq_specSlot, codeSlot_eq_specSlot]
  have h0 : specSlot c.code 0 ≤ 35 := by
    rw [← codeSlot_eq_specSlot]; exact codeSlot_le _ _
  have h1 : specSlot c.code 1 ≤ 35 := by
    rw [← codeSlot_eq_specSlot]; exact codeSlot_le _ _
  have h2 : specSlot c.code 2 ≤ 35 := by
    rw [← codeSlot_eq_specSlot]; exact codeSlot_le _ _
  refine ⟨e, Nat.zero_le _, ?_⟩
  rw [e]
  omega

/-- Witness of C26: the dollar is 30 28 13, the two-character code `Z9` is 35 09 00 and
the code `ZZZ` reaches the maximum. -/
theorem short_code_value_witness :
    USD.EncodeLedger % 1000000 = 302813 ∧
    (currency.mk (bytes "Z9") 0).EncodeLedger % 1000000 = 350900 ∧
    (currency.mk (bytes "ZZZ") 99).EncodeLedger % 1000000 = 353535 :=
  ⟨(short_code_value USD (by decide) (by decide)).1.trans (by decide),
    (short_code_value (currency.mk (bytes "Z9") 0) (by decide) (by decide)).1.trans
      (by decide),
    (short_code_value (currency.mk (bytes "ZZZ") 99) (by decide) (by decide)).1.trans
      (by decide)⟩

theorem decodeRune_ascii (b : Nat) (rest : List Nat) (hb : b < 128) :
    decodeRune (b :: rest) = (b, 1) := by
  unfold decodeRune
  simp only [List.getD_cons_zero]
  rw [if_pos (by omega)]

theorem runesAux_ascii : ∀ (fuel : Nat) (s : List Nat), s.length ≤ fuel →
    (∀ b ∈ s, b < 128) → runesAux fuel s = s
  | 0, s, h, _ => by
    have : s = [] := List.length_eq_zero.mp (by omega)
    subst this
    rfl
  | fuel + 1, [], _, _ => rfl
  | fuel + 1, b :: rest, h, hb => by
    unfold runesAux
    simp only [decodeRune_ascii b rest (hb b (by simp)), List.drop_succ_cons, List.drop_zero]
    rw [runesAux_ascii fuel rest (by simp only [List.length_cons] at h; omega)
      (fun x hx => hb x (by simp [hx]))]

theorem foldl_hash_ascii (s : List Nat) (hs : ∀ b ∈ s, b < 128) : ∀ a : Nat,
    s.foldl (fun hash c => ((hash ^^^ (c % 2 ^ 32)) * 16777619) % 2 ^ 32) a =
      s.foldl (fun h b => ((h ^^^ b) * 16777619) % 2 ^ 32) a := by
  induction s with
  | nil => intro a; simp only [List.foldl_nil]
  | cons x xs ih =>
    intro a
    have hx : x < 128 := hs x (by simp)
    simp only [List.foldl_cons]
    rw [Nat.mod_eq_of_lt (by omega : x < 2 ^ 32)]
    exact ih (fun b hb => hs b (by simp [hb])) _

theorem hashLoop_ascii (s : List Nat) (hs : ∀ b ∈ s, b < 128) : hashLoop s = fnv1a32 s := by
  unfold hashLoop fnv1a32 runes
  rw [runesAux_ascii s.length s (Nat.le_refl _) hs]
  exact foldl_hash_ascii s hs _

/-- The low six digits of the ledger code of a long code: 500000 plus the hash of the
loop of hashCurrencyCode modulo 500000, a value in 500000..999999 that no code of at most
3 characters has; for an ASCII code the hash is the standard FNV-1a hash. -/
theorem long_code_value (c : currency) (hd : c.decimal < 256) (hlen : c.code.length > 3) :
    c.EncodeLedger % 1000000 = 500000 + hashLoop c.code % 500000 ∧
    500000 ≤ c.EncodeLedger % 1000000 ∧ c.EncodeLedger % 1000000 ≤ 999999 ∧
    (∀ c2 : currency, c2.decimal < 256 → c2.code.length ≤ 3 →
      c2.EncodeLedger % 1000000 ≠ c.EncodeLedger % 1000000) ∧
    ((∀ b ∈ c.code, b < 128) →
      c.EncodeLedger % 1000000 = 500000 + fnv1a32 c.code % 500000) := by
  have e : c.EncodeLedger % 1000000 = 500000 + hashLoop c.code % 500000 := by
    rw [currency.EncodeLedger_low c hd]
    unfold currency.codeVal hashCurrencyCode
    rw [if_neg (by omega)]
    simp only [Nat.reducePow]
    omega
  refine ⟨e, by omega, by omega, ?_, ?_⟩
  · intro c2 hd2 hl2
    have := currency.short_value_le c2 hd2 hl2
    omega
  · intro hs
    rw [e, hashLoop_ascii c.code hs]

/-- C25 fails on a code that is not ASCII: hashCurrencyCode ranges over the runes of
the code, not its bytes. The descriptor of `NewCurrency("abc€", 2)` has the code `ABC€`
(6 bytes, 4 characters); the low six digits of its ledger code are 881957, and the
standard FNV-1a hash of the code gives 519493. -/
theorem long_code_hash_of_non_ascii_code :
    (currency.mk (bytes "ABC€") 2).code.length = 6 ∧
    (runes (bytes "ABC€")).length = 4 ∧
    (currency.mk (bytes "ABC€") 2).EncodeLedger % 1000000 = 881957 ∧
    500000 + fnv1a32 (bytes "ABC€") % 500000 = 519493 ∧
    (currency.mk (bytes "ABC€") 2).EncodeLedger % 1000000 ≠
      500000 + fnv1a32 (bytes "ABC€") % 500000 := by
  decide


/-! ## Scale and raw-value operations -/

/-- C29 (amended): for every decimal precision `d` in 0..19 the scale returned by
scaleFromDecimals is exactly `10^d`, and for every `d` greater than 19 it is the clamped
maximum `10^18` (so for 100); the scale is never zero. -/
theorem scale_is_power_of_ten_up_to_19 (d : Nat) :
    (d ≤ 19 → scaleFromDecimals d = 10 ^ d) ∧
    (19 < d → scaleFromDecimals d = 10 ^ 18) ∧
    scaleFromDecimals d ≠ 0 ∧
    scaleFromDecimals 100 = 10 ^ 18 := by
  have h1 : d ≤ 19 → scaleFromDecimals d = 10 ^ d := by
    intro h
    interval_cases d <;> rfl
  have h2 : 19 < d → scaleFromDecimals d = 10 ^ 18 := by
    intro h
    by_cases h31 : d < 31
    · interval_cases d <;> rfl
    · unfold scaleFromDecimals
      rw [if_neg h31]
      norm_num
  refine ⟨h1, h2, ?_, rfl⟩
  by_cases h : d ≤ 19
  · rw [h1 h]
    positivity
  · rw [h2 (by omega)]
    norm_num

/-- Witness of C29 (amended): the scales of 2, 19, 25 and 100 decimals. -/
theorem scale_is_power_of_ten_up_to_19_witness :
    scaleFromDecimals 2 = 100 ∧ scaleFromDecimals 19 = 10 ^ 19 ∧
    scaleFromDecimals 25 = 10 ^ 18 ∧ scaleFromDecimals 100 = 10 ^ 18 :=
  ⟨((scale_is_power_of_ten_up_to_19 2).1 (by decide)).trans (by decide),
    (scale_is_power_of_ten_up_to_19 19).1 (by decide),
    (scale_is_power_of_ten_up_to_19 25).2.1 (by decide),
    (scale_is_power_of_ten_up_to_19 100).2.1 (by decide)⟩

/-- C29 as stated fails from 20 decimals on: `10^20` does not fit the `uint64` of the
table, whose entries 20..30 hold `10^18`. -/
theorem scale_is_power_of_ten_counterexample :
    scaleFromDecimals 20 = 10 ^ 18 ∧ scaleFromDecimals 20 ≠ 10 ^ 20 ∧
    scaleFromDecimals 30 ≠ 10 ^ 30 ∧ ¬ (10 ^ 20 < 2 ^ 64) := by
  decide

/-- C30: Add, Sub, Compare, IsZero, Min and Max of an amount read only its raw Uint128:
two amounts holding the same raw value `u` give identical results for every argument
`b`, whatever their decimal values and currencies; an amount built with
NewAmountFromFloat64 from any decimal value behaves as raw zero: IsZero is true and
`Add(b)` returns `b`. -/
theorem raw_operations_ignore_decimal_value (c c' : currency) (f f' : Float64)
    (u b : Uint128) :
    amountCurrency.Add ⟨c, f, u⟩ b = amountCurrency.Add ⟨c', f', u⟩ b ∧
    amountCurrency.Sub ⟨c, f, u⟩ b = amountCurrency.Sub ⟨c', f', u⟩ b ∧
    amountCurrency.Compare ⟨c, f, u⟩ b = amountCurrency.Compare ⟨c', f', u⟩ b ∧
    amountCurrency.IsZero ⟨c, f, u⟩ = amountCurrency.IsZero ⟨c', f', u⟩ ∧
    amountCurrency.Min ⟨c, f, u⟩ b = amountCurrency.Min ⟨c', f', u⟩ b ∧
    amountCurrency.Max ⟨c, f, u⟩ b = amountCurrency.Max ⟨c', f', u⟩ b ∧
    (c.NewAmountFromFloat64 f).IsZero = true ∧
    (b.wf → (c.NewAmountFromFloat64 f).Add b = .ok b) := by
  refine ⟨rfl, rfl, rfl, rfl, rfl, rfl, ?_, ?_⟩
  · show amountCurrency.IsZero ⟨c, f, Uint128.zero⟩ = true
    have h : Uint128.BigInt Uint128.zero = 0 := by decide
    simp only [amountCurrency.IsZero, h]
    decide
  intro hb
  have hz : (c.NewAmountFromFloat64 f).uint128Val.wf := by
    show Uint128.zero.wf
    decide
  rw [amountCurrency.Add_eq _ _ hz hb]
  have h0 : (c.NewAmountFromFloat64 f).uint128Val.toNat = 0 := by
    show Uint128.zero.toNat = 0
    decide
  have hlt := Uint128.toNat_lt b hb
  rw [h0, Nat.zero_add, if_pos hlt]
  have e := Uint128.eq_of_toNat_eq ⟨b.toNat / 2 ^ 64, b.toNat % 2 ^ 64⟩ b
    (Uint128.wf_mk_divmod _ hlt) hb (Uint128.toNat_mk_divmod _)
  rw [e]

/-- Witness of C30: 12.5 dollars built from the decimal value add as raw zero, and a
raw 7 compares alike in two currencies with different decimal values. -/
theorem raw_operations_ignore_decimal_value_witness :
    (USD.NewAmountFromFloat64 (.fin false 25 (-1))).Add ⟨3, 9⟩ = .ok ⟨3, 9⟩ ∧
    (USD.NewAmountFromFloat64 (.fin false 25 (-1))).IsZero = true ∧
    amountCurrency.Compare ⟨USD, .fin false 25 (-1), ⟨0, 7⟩⟩ ⟨0, 9⟩ =
      amountCurrency.Compare ⟨VND, Float64.zero, ⟨0, 7⟩⟩ ⟨0, 9⟩ :=
  ⟨(raw_operations_ignore_decimal_value USD USD (.fin false 25 (-1)) Float64.zero
      Uint128.zero ⟨3, 9⟩).2.2.2.2.2.2.2 (by decide),
    (raw_operations_ignore_decimal_value USD USD (.fin false 25 (-1)) Float64.zero
      Uint128.zero ⟨3, 9⟩).2.2.2.2.2.2.1,
    (raw_operations_ignore_decimal_value USD VND (.fin false 25 (-1)) Float64.zero
      ⟨0, 7⟩ ⟨0, 9⟩).2.2.1⟩


/-! ## Currency construction -/

theorem TrimSpace_ascii (s : List Nat) (hs : ∀ c ∈ s, c < 0x80) : TrimSpace s = trimSpec s := by
  unfold TrimSpace trimSpec
  have hsub : ∀ c ∈ s.dropWhile asciiSpace, c < 0x80 :=
    fun c hc => hs c ((List.dropWhile_suffix asciiSpace).subset hc)
  cases ht : s.dropWhile asciiSpace with
  | nil => rfl
  | cons c rest =>
    rw [ht] at hsub
    have hc : ¬ c ≥ 0x80 := by
      have := hsub c (by simp)
      omega
    simp only [if_neg hc]
    have hsub2 : ∀ x ∈ (c :: rest).reverse.dropWhile asciiSpace, x < 0x80 :=
      fun x hx => hsub x
        (List.mem_reverse.mp ((List.dropWhile_suffix asciiSpace).subset hx))
    cases hu : (c :: rest).reverse.dropWhile asciiSpace with
    | nil => rfl
    | cons d rest2 =>
      rw [hu] at hsub2
      have hd : ¬ d ≥ 0x80 := by
        have := hsub2 d (by simp)
        omega
      simp only [if_neg hd]

theorem ToUpper_ascii (caseTable : Nat → Nat) (s : List Nat) (hs : ∀ c ∈ s, c < 0x80) :
    ToUpper caseTable s = s.map upperASCII := by
  unfold ToUpper
  have h : s.all (fun c => decide (c < 0x80)) = true := by
    rw [List.all_eq_true]
    intro c hc
    exact decide_eq_true (hs c hc)
  rw [if_pos h]

theorem trimSpec_subset (s : List Nat) : ∀ c ∈ trimSpec s, c ∈ s := by
  intro c hc
  unfold trimSpec at hc
  exact (List.dropWhile_suffix asciiSpace).subset
    (List.mem_reverse.mp ((List.dropWhile_suffix asciiSpace).subset (List.mem_reverse.mp hc)))

/-- C24: NewCurrency returns an error if and only if the decimal is greater than 99 or
the code, once surrounding white space is trimmed, has fewer than 1 or more than 6
characters (bytes, as `len` counts them); when it succeeds, the descriptor's code is the
input code trimmed and upper-cased and its decimal precision is the given one. For an
ASCII code the trimmed and upper-cased code is the code without the white space at its
ends, each letter `a`..`z` replaced by its capital. -/
theorem new_currency_contract (caseTable : Nat → Nat) (code : List Nat) (decimal : Nat) :
    ((∃ e, NewCurrency caseTable code decimal = .error e) ↔
      (decimal > 99 ∨ (TrimSpace code).length < 1 ∨ (TrimSpace code).length > 6)) ∧
    (∀ c : currency, NewCurrency caseTable code decimal = .ok c →
      c.code = ToUpper caseTable (TrimSpace code) ∧ c.decimal = decimal ∧
      ((∀ b ∈ code, b < 0x80) → c.code = (trimSpec code).map upperASCII)) := by
  unfold NewCurrency newCurrency maxDecimal minCurrencyCodeChar maxCurrencyCodeChar
  by_cases hd : decimal > 99
  · simp only [if_pos hd]
    refine ⟨⟨fun _ => Or.inl hd, fun _ => ⟨_, rfl⟩⟩, ?_⟩
    intro c h
    cases h
  · simp only [if_neg hd]
    by_cases hl : (TrimSpace code).length < 1 ∨ (TrimSpace code).length > 6
    · simp only [if_pos hl]
      refine ⟨⟨fun _ => Or.inr hl, fun _ => ⟨_, rfl⟩⟩, ?_⟩
      intro c h
      cases h
    · simp only [if_neg hl]
      refine ⟨⟨?_, ?_⟩, ?_⟩
      · rintro ⟨e, he⟩
        cases he
      · rintro (h | h)
        · exact absurd h hd
        · exact absurd h hl
      · intro c h
        cases h
        refine ⟨rfl, rfl, ?_⟩
        intro hb
        show ToUpper caseTable (TrimSpace code) = (trimSpec code).map upperASCII
        rw [TrimSpace_ascii code hb,
          ToUpper_ascii caseTable _ (fun x hx => hb x (trimSpec_subset code x hx))]

/-- Witness of C24: ` doge ` with 8 decimals gives `DOGE`, a code of 7 letters, a blank
code and 100 decimals are refused. -/
theorem new_currency_contract_witness :
    NewCurrency id (bytes " doge ") 8 = .ok ⟨bytes "DOGE", 8⟩ ∧
    (bytes "DOGE" = (trimSpec (bytes " doge ")).map upperASCII) ∧
    (∃ e, NewCurrency id (bytes "toolong") 2 = .error e) ∧
    (∃ e, NewCurrency id (bytes "   ") 2 = .error e) ∧
    (∃ e, NewCurrency id (bytes "usd") 100 = .error e) :=
  ⟨by decide,
    ((new_currency_contract id (bytes " doge ") 8).2 ⟨bytes "DOGE", 8⟩ (by decide)).2.2
      (by decide),
    (new_currency_contract id (bytes "toolong") 2).1.mpr (Or.inr (Or.inr (by decide))),
    (new_currency_contract id (bytes "   ") 2).1.mpr (Or.inr (Or.inl (by decide))),
    (new_currency_contract id (bytes "usd") 100).1.mpr (Or.inl (by decide))⟩


/-! ## Resolving pending transfers -/

theorem resolvePendingLoop_cons (f0 : TransferFlags) (p : PendingTransfer)
    (rest : List PendingTransfer) :
    resolvePendingLoop f0 (p :: rest) =
      { ID := p.ID
        DebitAccountID := Uint128.zero
        CreditAccountID := Uint128.zero
        Amount := p.Amount
        UserData128 := Uint128.zero
        UserData64 := 0
        UserData32 := p.UserData32
        Ledger := none
        flags := resolveFlags f0 p
        pendingID := p.PendingID
        code := 0
        timeout := 0
        timestamp := 0 } :: resolvePendingLoop (resolveFlags f0 p) rest := rfl

/-- The flags of the `i`-th transfer that the loop of ResolvePendingTransfers builds:
the post-pending flag is set as soon as an entry up to `i` asks to post, the void-pending
flag as soon as an entry up to `i` asks anything else. -/
theorem resolvePendingLoop_flags (ps : List PendingTransfer) :
    ∀ (f0 : TransferFlags) (i : Nat), i < ps.length →
      ∃ t, (resolvePendingLoop f0 ps)[i]? = some t ∧
        t.flags.PostPendingTransfer = (f0.PostPendingTransfer ||
          (ps.take (i + 1)).any (fun p => decide (p.State = ResolvePendingStatePost))) ∧
        t.flags.VoidPendingTransfer = (f0.VoidPendingTransfer ||
          (ps.take (i + 1)).any (fun p => decide (p.State ≠ ResolvePendingStatePost))) := by
  induction ps with
  | nil => intro f0 i h; simp at h
  | cons p rest ih =>
    intro f0 i h
    have hpost : (resolveFlags f0 p).PostPendingTransfer =
        (f0.PostPendingTransfer || decide (p.State = ResolvePendingStatePost)) := by
      unfold resolveFlags
      by_cases hp : p.State = ResolvePendingStatePost
      · simp [hp]
      · simp [hp]
    have hvoid : (resolveFlags f0 p).VoidPendingTransfer =
        (f0.VoidPendingTransfer || decide (p.State ≠ ResolvePendingStatePost)) := by
      unfold resolveFlags
      by_cases hp : p.State = ResolvePendingStatePost
      · simp [hp]
      · simp [hp]
    rw [resolvePendingLoop_cons]
    cases i with
    | zero =>
      refine ⟨_, List.getElem?_cons_zero, ?_, ?_⟩
      · simp only [hpost, Nat.zero_add, List.take_succ_cons, List.take_zero, List.any_cons,
          List.any_nil, Bool.or_false]
      · simp only [hvoid, Nat.zero_add, List.take_succ_cons, List.take_zero, List.any_cons,
          List.any_nil, Bool.or_false]
    | succ i =>
      simp only [List.length_cons] at h
      obtain ⟨t, ht, h1, h2⟩ := ih (resolveFlags f0 p) i (by omega)
      rw [List.getElem?_cons_succ]
      refine ⟨t, ht, ?_, ?_⟩
      · rw [h1, hpost]
        simp only [List.take_succ_cons, List.any_cons, Bool.or_assoc]
      · rw [h2, hvoid]
        simp only [List.take_succ_cons, List.any_cons, Bool.or_assoc]

/-- The conversion loop of doTransfers keeps the flags of every transfer. -/
theorem toLedgerTransfers_flags (newID : Nat → Uint128) (ts : List TransferData) :
    ∀ (idx : Nat) (built : List (Uint128 × TBTransfer)),
      toLedgerTransfers newID idx ts = .ok built →
      built.map (fun r => r.2.Flags) = ts.map (fun t => t.flags) := by
  induction ts with
  | nil =>
    intro idx built h
    simp only [toLedgerTransfers] at h
    cases h
    rfl
  | cons t rest ih =>
    intro idx built h
    unfold toLedgerTransfers at h
    cases h1 : t.toLedger newID idx with
    | error e => rw [h1] at h; cases h
    | ok r =>
      rw [h1] at h
      cases h2 : toLedgerTransfers newID (idx + 1) rest with
      | error e => rw [h2] at h; cases h
      | ok rs =>
        rw [h2] at h
        cases h
        have hr : r.2.Flags = t.flags := by
          unfold TransferData.toLedger at h1
          cases ha : t.Amount with
          | none => rw [ha] at h1; cases h1
          | some a =>
            rw [ha] at h1
            cases h1
            rfl
        simp only [List.map_cons, hr, ih (idx + 1) rs h2]


/-- Every batch that ResolvePendingTransfers submits carries, transfer by transfer, the
flags the loop has built. -/
theorem resolve_pending_submitted_flags (i : Instance) (newID : Nat → Uint128)
    (pendings : List PendingTransfer) (batch : List TBTransfer)
    (h : batch ∈ (i.ResolvePendingTransfers newID pendings).2) :
    batch.map (fun t => t.Flags) =
      (resolvePendingLoop TransferFlags.zero pendings).map (fun t => t.flags) := by
  unfold Instance.ResolvePendingTransfers Instance.doTransfers at h
  simp only at h
  split at h
  · simp at h
  · split at h
    · simp at h
    · split at h
      · simp at h
      · rename_i built hb
        have hf := toLedgerTransfers_flags newID _ 0 built hb
        have hbatch : batch = built.map Prod.snd := by
          split at h <;> simpa using h
        rw [hbatch, ← hf, List.map_map]
        rfl

/-- C27 fails as soon as the list mixes the two states: the variable `flags` is declared
before the loop and never reset, so the second transfer of a list that posts and then
voids is submitted with both the post-pending and the void-pending flag. -/
theorem resolve_pending_flags_leak :
    (postThenVoid.map (fun p => p.State)) = [ResolvePendingStatePost, ResolvePendingStateVoid] ∧
    (openInstance.ResolvePendingTransfers (fun _ => Uint128.zero) postThenVoid).2.map
        (fun batch => batch.map
          (fun t => (t.PendingID, t.Flags.PostPendingTransfer, t.Flags.VoidPendingTransfer))) =
      [[(⟨0, 11⟩, true, false), (⟨0, 12⟩, true, true)]] ∧
    (openInstance.ResolvePendingTransfers (fun _ => Uint128.zero) postThenVoid.reverse).2.map
        (fun batch => batch.map
          (fun t => (t.PendingID, t.Flags.PostPendingTransfer, t.Flags.VoidPendingTransfer))) =
      [[(⟨0, 12⟩, false, true), (⟨0, 11⟩, true, true)]] := by
  decide


/-! ## Account categories -/

/-- C28 (amended): CreateAccountsWithCategory, called with at least one account and a
category that is not one of the built-in categories (Control, Balance, Income,
Liabilities, Testing), returns ErrUnknownCategory whatever the accounts are and submits
nothing to the ledger; called with no account it fails before looking at the category,
with the error "at least give 1 account", and submits nothing either. -/
theorem unknown_category_is_rejected (i : Instance) (newID : Nat → Uint128) (category : Nat)
    (accounts : List CreateAccount)
    (hcat : category ≠ AccountCategoryControl ∧ category ≠ AccountCategoryBalance ∧
      category ≠ AccountCategoryIncome ∧ category ≠ AccountCategoryLiabilities ∧
      category ≠ AccountCategoryTesting) :
    (accounts ≠ [] →
      i.CreateAccountsWithCategory newID category accounts = (.error .ErrUnknownCategory, [])) ∧
    (accounts = [] →
      i.CreateAccountsWithCategory newID category accounts = (.error .atLeastOneAccount, [])) := by
  constructor
  · intro hne
    have hl : ¬ accounts.length = 0 := fun h => hne (List.length_eq_zero.mp h)
    unfold Instance.CreateAccountsWithCategory
    rw [if_neg hl, if_pos hcat]
  · intro he
    subst he
    rfl

/-- Witness of C28 (amended): the category 7 with one account is rejected and nothing
is submitted, while the category Balance with the same account submits one batch. -/
theorem unknown_category_is_rejected_witness :
    openInstance.CreateAccountsWithCategory (fun _ => ⟨0, 99⟩) 7
        [⟨⟨0, 5⟩, Uint128.zero, 0, 0, some USD⟩] = (.error .ErrUnknownCategory, []) ∧
    (openInstance.CreateAccountsWithCategory (fun _ => ⟨0, 99⟩) AccountCategoryBalance
        [⟨⟨0, 5⟩, Uint128.zero, 0, 0, some USD⟩]).2 =
      [[⟨⟨0, 5⟩, Uint128.zero, 0, 0, 102302813, 1001,
        ⟨false, true, false, true, false, false⟩, 0⟩]] :=
  ⟨(unknown_category_is_rejected openInstance (fun _ => ⟨0, 99⟩) 7
      [⟨⟨0, 5⟩, Uint128.zero, 0, 0, some USD⟩] (by decide)).1 (by decide),
    by decide⟩

/-- C28 as stated fails on a call without accounts: the length of the argument list is
checked first, and the error is not ErrUnknownCategory. -/
theorem unknown_category_without_accounts_counterexample :
    (7 ≠ AccountCategoryControl ∧ 7 ≠ AccountCategoryBalance ∧ 7 ≠ AccountCategoryIncome ∧
      7 ≠ AccountCategoryLiabilities ∧ 7 ≠ AccountCategoryTesting) ∧
    (openInstance.CreateAccountsWithCategory (fun _ => ⟨0, 99⟩) 7 []).1 =
      .error .atLeastOneAccount ∧
    (openInstance.CreateAccountsWithCategory (fun _ => ⟨0, 99⟩) 7 []).1 ≠
      .error .ErrUnknownCategory := by
  decide

end Tbdb
